import Mathlib

/-!
Surf impersonation profiles: header canonicaliser, boundary generators, HTTP/2
settings and the selection of the operating system.

A shallow embedding of `impersonate.go` and of the extension list of
`profiles/firefox/private_131.go`.  An ordered map `g.MapOrd[T, T]`
(a Go slice of key/value pairs) is a list of pairs of strings; the operations
of the ordered map used by the source (`Set`, `Get`, `SortByKey`) are given
below.  `cmp.Ordering` is Lean's `Ordering`.

The sort is given twice.  `MapOrd.SortByKey` is the stable sort the spec describes,
and `chromeHeaders`, `firefoxHeaders` are stated with it.  `MapOrd.SortFunc` is the
sort the library runs (`slices.SortFunc` of the Go standard library, for maps of fewer
than 50 pairs), and `chromeHeadersRun`, `firefoxHeadersRun` are stated with it; the two
agree on maps of at most 12 pairs.  Likewise `chromeBoundary`, `firefoxBoundary` are
total functions of the state of the random source, and `chromeBoundaryRun`,
`firefoxBoundaryRun` give the outcome of a run, in which a read the source cannot
serve does not return.
-/

namespace Surf

/-! ## Ordered maps (`g.MapOrd`) -/

/-- An ordered map `g.MapOrd[T, T]` with `T ~string`: key/value pairs in insertion order. -/
abbrev MapOrd := List (String × String)

namespace MapOrd

/-- The keys of an ordered map, in order (`Iter().Keys()`). -/
def keys (mo : MapOrd) : List String := mo.map Prod.fst

/-- The method `MapOrd.Get`: the value of the first pair whose key is `key`. -/
def Get : MapOrd → String → Option String
  | [], _ => none
  | (k, v) :: rest, key => if k = key then some v else Get rest key

/-- The method `MapOrd.Set`: when the key is present the value of the first pair holding it is
replaced in place, otherwise a new pair is appended at the end. -/
def Set : MapOrd → String → String → MapOrd
  | [], key, value => [(key, value)]
  | (k, v) :: rest, key, value =>
    if k = key then (k, value) :: rest else (k, v) :: Set rest key value

/-- One insertion step of the stable sort: `x`, which stood before every element
of the already sorted `l`, moves right past the elements that compare strictly
less than it and stops before the first element that does not. -/
def insertByKey (fn : String → String → Ordering) (x : String × String) : MapOrd → MapOrd
  | [] => [x]
  | y :: l => if fn y.1 x.1 = Ordering.lt then y :: insertByKey fn x l else x :: y :: l

/-- Modelled from the spec: `MapOrd.SortByKey` belongs to the library
`github.com/enetx/g`, which is not part of the sources at hand; the spec says
"Apply a stable sort over the merged header set using the template as a total
order".  It is a stable insertion sort by the comparator on keys.  The sort the
library runs is `MapOrd.SortFunc` below, which is not stable: on a map of at most 12
pairs it is an insertion sort and returns this very map (`SortFunc_eq_SortByKey`); on
a longer map it may return pairs of equal rank in another order than this one. -/
def SortByKey (mo : MapOrd) (fn : String → String → Ordering) : MapOrd :=
  mo.foldr (insertByKey fn) []

end MapOrd

/-- The empty ordered map `g.NewMapOrd[g.String, g.String]()`. -/
def NewMapOrd : MapOrd := []

/-! ## Header names and methods -/

/-- The constant `http.MethodGet`. -/
def MethodGet : String := "GET"

/-- The constant `http.MethodPost`. -/
def MethodPost : String := "POST"

/-- Modelled from the spec: the constants of package `header` are declared outside
the sources at hand; each name is spelled the way the spec's end-to-end example
writes header names (lower case). -/
def ACCEPT : String := "accept"
/-- Modelled from the spec: constant `header.ACCEPT_ENCODING`. -/
def ACCEPT_ENCODING : String := "accept-encoding"
/-- Modelled from the spec: constant `header.ACCEPT_LANGUAGE`. -/
def ACCEPT_LANGUAGE : String := "accept-language"
/-- Modelled from the spec: constant `header.AUTHORIZATION`. -/
def AUTHORIZATION : String := "authorization"
/-- Modelled from the spec: constant `header.CACHE_CONTROL`. -/
def CACHE_CONTROL : String := "cache-control"
/-- Modelled from the spec: constant `header.CONTENT_LENGTH`. -/
def CONTENT_LENGTH : String := "content-length"
/-- Modelled from the spec: constant `header.CONTENT_TYPE`. -/
def CONTENT_TYPE : String := "content-type"
/-- Modelled from the spec: constant `header.COOKIE`. -/
def COOKIE : String := "cookie"
/-- Modelled from the spec: constant `header.ORIGIN`. -/
def ORIGIN : String := "origin"
/-- Modelled from the spec: constant `header.PRAGMA`. -/
def PRAGMA : String := "pragma"
/-- Modelled from the spec: constant `header.PRIORITY`. -/
def PRIORITY : String := "priority"
/-- Modelled from the spec: constant `header.REFERER`. -/
def REFERER : String := "referer"
/-- Modelled from the spec: constant `header.SEC_CH_UA`. -/
def SEC_CH_UA : String := "sec-ch-ua"
/-- Modelled from the spec: constant `header.SEC_CH_UA_MOBILE`. -/
def SEC_CH_UA_MOBILE : String := "sec-ch-ua-mobile"
/-- Modelled from the spec: constant `header.SEC_CH_UA_PLATFORM`. -/
def SEC_CH_UA_PLATFORM : String := "sec-ch-ua-platform"
/-- Modelled from the spec: constant `header.SEC_FETCH_DEST`. -/
def SEC_FETCH_DEST : String := "sec-fetch-dest"
/-- Modelled from the spec: constant `header.SEC_FETCH_MODE`. -/
def SEC_FETCH_MODE : String := "sec-fetch-mode"
/-- Modelled from the spec: constant `header.SEC_FETCH_SITE`. -/
def SEC_FETCH_SITE : String := "sec-fetch-site"
/-- Modelled from the spec: constant `header.SEC_FETCH_USER`. -/
def SEC_FETCH_USER : String := "sec-fetch-user"
/-- Modelled from the spec: constant `header.UPGRADE_INSECURE_REQUESTS`. -/
def UPGRADE_INSECURE_REQUESTS : String := "upgrade-insecure-requests"
/-- Modelled from the spec: constant `header.USER_AGENT`. -/
def USER_AGENT : String := "user-agent"

/-! ## Operating systems -/

/-- The type `ImpersonateOS` with its five constants. -/
inductive ImpersonateOS where
  | windows | macos | linux | android | ios
  deriving DecidableEq, Repr

/-- Modelled from the spec: the method `ImpersonateOS.mobile` is declared outside the
sources at hand; the spec gives the mobility flag "?0"/"?1" semantics, Android and
iOS being the mobile systems. -/
def ImpersonateOS.mobile : ImpersonateOS → String
  | .android => "?1"
  | .ios => "?1"
  | _ => "?0"

/-! ## Chrome -/

/-- The table `chromeHeaderOrder`: the header order template of each method. -/
def chromeHeaderOrder (method : String) : Option (List String) :=
  if method = MethodGet then
    some [":method", ":authority", ":scheme", ":path",
      SEC_CH_UA, SEC_CH_UA_MOBILE, SEC_CH_UA_PLATFORM, AUTHORIZATION,
      UPGRADE_INSECURE_REQUESTS, USER_AGENT, ACCEPT, SEC_FETCH_SITE, SEC_FETCH_MODE,
      SEC_FETCH_USER, SEC_FETCH_DEST, REFERER, ACCEPT_ENCODING, ACCEPT_LANGUAGE,
      COOKIE, PRIORITY]
  else if method = MethodPost then
    some [":method", ":authority", ":scheme", ":path",
      CONTENT_LENGTH, PRAGMA, CACHE_CONTROL, SEC_CH_UA_PLATFORM, AUTHORIZATION,
      USER_AGENT, SEC_CH_UA, CONTENT_TYPE, SEC_CH_UA_MOBILE, ACCEPT, ORIGIN,
      SEC_FETCH_SITE, SEC_FETCH_MODE, SEC_FETCH_DEST, REFERER, ACCEPT_ENCODING,
      ACCEPT_LANGUAGE, COOKIE, PRIORITY]
  else none

/-- The inverted enumeration `m.Iter().Enumerate().Collect().Invert()`: each name of
the template paired with its zero-based index. -/
def invertEnumerate (m : List String) : List (String × Nat) :=
  m.enum.map fun p => (p.2, p.1)

/-- The rank a comparator gives a name: `enum.Get(name).UnwrapOrDefault()`, the
index of the name in the template and `0` for a name the template lacks. -/
def rankIn (m : List String) (a : String) : Nat :=
  ((invertEnumerate m).lookup a).getD 0

/-- The comparator handed to `SortByKey`: the ranks of the two names compared. -/
def orderCmp (m : List String) (a b : String) : Ordering :=
  compare (rankIn m a) (rankIn m b)

/-- The template selected in `chromeHeaders`:
`chromeHeaderOrder.Get(method).UnwrapOr(chromeHeaderOrder[http.MethodGet])`. -/
def chromeTemplate (method : String) : List String :=
  (chromeHeaderOrder method).getD ((chromeHeaderOrder MethodGet).getD [])

/-- The `switch method` of `chromeHeaders`: the default values written with `Set`. -/
def chromeDefaults (headers : MapOrd) (method : String) : MapOrd :=
  if method = MethodGet then
    ((((((headers.Set ACCEPT "text/html,application/xhtml+xml,application/xml;q=0.9,image/avif,image/webp,image/apng,*/*;q=0.8,application/signed-exchange;v=b3;q=0.7").Set
      PRIORITY "u=0, i").Set
      SEC_FETCH_DEST "document").Set
      SEC_FETCH_MODE "navigate").Set
      SEC_FETCH_SITE "none").Set
      SEC_FETCH_USER "?1").Set
      UPGRADE_INSECURE_REQUESTS "1"
  else if method = MethodPost then
    (((((((headers.Set ACCEPT "*/*").Set
      CACHE_CONTROL "no-cache").Set
      CONTENT_TYPE "").Set
      PRAGMA "no-cache").Set
      PRIORITY "u=1, i").Set
      SEC_FETCH_DEST "empty").Set
      SEC_FETCH_MODE "cors").Set
      SEC_FETCH_SITE "same-origin"
  else headers

/-- The function `chromeHeaders`: the defaults of the method are written, then the
map is sorted by the rank of its keys in the selected template. -/
def chromeHeaders (headers : MapOrd) (method : String) : MapOrd :=
  (chromeDefaults headers method).SortByKey (orderCmp (chromeTemplate method))

/-- The header map built at the end of `Impersonate.Chrome`.  The constants
`chromeSecCHUA`, `chromePlatform` and `chromeUserAgent` are declared outside the
sources at hand and are parameters. -/
def Chrome (os : ImpersonateOS) (chromeSecCHUA : String)
    (chromePlatform chromeUserAgent : ImpersonateOS → String) : MapOrd :=
  (((((((((((((NewMapOrd.Set ":authority" "").Set ":method" "").Set ":path" "").Set
    ":scheme" "").Set
    ACCEPT_ENCODING "gzip, deflate, br, zstd").Set
    ACCEPT_LANGUAGE "en-US,en;q=0.9").Set
    AUTHORIZATION "").Set
    COOKIE "").Set
    ORIGIN "").Set
    REFERER "").Set
    SEC_CH_UA chromeSecCHUA).Set
    SEC_CH_UA_MOBILE os.mobile).Set
    SEC_CH_UA_PLATFORM (chromePlatform os)).Set
    USER_AGENT (chromeUserAgent os)

/-! ## Firefox -/

/-- The table `firefoxHeaderOrder`: the header order template of each method. -/
def firefoxHeaderOrder (method : String) : Option (List String) :=
  if method = MethodGet then
    some [":method", ":path", ":authority", ":scheme",
      USER_AGENT, ACCEPT, ACCEPT_LANGUAGE, ACCEPT_ENCODING, REFERER, AUTHORIZATION,
      COOKIE, UPGRADE_INSECURE_REQUESTS, SEC_FETCH_DEST, SEC_FETCH_MODE, SEC_FETCH_SITE,
      SEC_FETCH_USER, PRIORITY]
  else if method = MethodPost then
    some [":method", ":path", ":authority", ":scheme",
      USER_AGENT, ACCEPT, ACCEPT_LANGUAGE, ACCEPT_ENCODING, REFERER, CONTENT_TYPE,
      AUTHORIZATION, CONTENT_LENGTH, ORIGIN, COOKIE, SEC_FETCH_DEST, SEC_FETCH_MODE,
      SEC_FETCH_SITE, PRIORITY, PRAGMA, CACHE_CONTROL]
  else none

/-- The template selected in `firefoxHeaders`:
`firefoxHeaderOrder.Get(method).UnwrapOr(firefoxHeaderOrder[http.MethodGet])`. -/
def firefoxTemplate (method : String) : List String :=
  (firefoxHeaderOrder method).getD ((firefoxHeaderOrder MethodGet).getD [])

/-- The `switch method` of `firefoxHeaders`: the default values written with `Set`. -/
def firefoxDefaults (headers : MapOrd) (method : String) : MapOrd :=
  if method = MethodGet then
    ((((((headers.Set ACCEPT "text/html,application/xhtml+xml,application/xml;q=0.9,image/avif,image/webp,image/png,image/svg+xml,*/*;q=0.8").Set
      PRIORITY "u=0, i").Set
      SEC_FETCH_DEST "document").Set
      SEC_FETCH_MODE "navigate").Set
      SEC_FETCH_SITE "none").Set
      SEC_FETCH_USER "?1").Set
      UPGRADE_INSECURE_REQUESTS "1"
  else if method = MethodPost then
    (((((((headers.Set ACCEPT "*/*").Set
      CACHE_CONTROL "no-cache").Set
      CONTENT_TYPE "").Set
      PRAGMA "no-cache").Set
      PRIORITY "u=1, i").Set
      SEC_FETCH_DEST "empty").Set
      SEC_FETCH_MODE "cors").Set
      SEC_FETCH_SITE "same-origin"
  else headers

/-- The function `firefoxHeaders`: the defaults of the method are written, then the
map is sorted by the rank of its keys in the selected template. -/
def firefoxHeaders (headers : MapOrd) (method : String) : MapOrd :=
  (firefoxDefaults headers method).SortByKey (orderCmp (firefoxTemplate method))

/-- The header map built at the end of `Impersonate.FireFox`.  The table
`firefoxUserAgent` is declared outside the sources at hand and is a parameter. -/
def FireFox (os : ImpersonateOS) (firefoxUserAgent : ImpersonateOS → String) : MapOrd :=
  ((((((((((NewMapOrd.Set ":authority" "").Set ":method" "").Set ":path" "").Set
    ":scheme" "").Set
    ACCEPT_ENCODING "gzip, deflate, br, zstd").Set
    ACCEPT_LANGUAGE "en-US,en;q=0.5").Set
    AUTHORIZATION "").Set
    COOKIE "").Set
    ORIGIN "").Set
    REFERER "").Set
    USER_AGENT (firefoxUserAgent os)

/-! ## The secure random source -/

/-- A byte. -/
abbrev Byte := Fin 256

/-- The state of the secure random source `crypto/rand`: the bytes it can still
deliver, in the order in which they are drawn. -/
abbrev RandSource := List Byte

/-- The call `rand.Read(b)` on a zeroed buffer of `n` bytes: the buffer after the
call, the source after the call, and whether the source could not deliver `n`
bytes.  A call the source serves fills the buffer with the next `n` bytes.  A call
the source cannot serve does not return in the running program (see
`randReadRun`); it is given the zeroed rest of the buffer here only so that the
closures are total functions of the source state. -/
def randRead (n : Nat) (src : RandSource) : List Byte × RandSource × Bool :=
  if n ≤ src.length then (src.take n, src.drop n, false)
  else (src ++ List.replicate (n - src.length) 0, [], true)

/-- The conversion `uint32(b)` of a byte. -/
def uint32 (b : Byte) : Nat := b.val % 2 ^ 32

/-- The shift `x << s` on `uint32`. -/
def shl32 (x s : Nat) : Nat := (x <<< s) % 2 ^ 32

/-! ## The Chrome boundary -/

/-- The table `alphaNumericEncodingMap` of the `Boundary` closure of `Chrome`. -/
def alphaNumericEncodingMap : List Nat := [
  0x41, 0x42, 0x43, 0x44, 0x45, 0x46, 0x47, 0x48,
  0x49, 0x4A, 0x4B, 0x4C, 0x4D, 0x4E, 0x4F, 0x50,
  0x51, 0x52, 0x53, 0x54, 0x55, 0x56, 0x57, 0x58,
  0x59, 0x5A, 0x61, 0x62, 0x63, 0x64, 0x65, 0x66,
  0x67, 0x68, 0x69, 0x6A, 0x6B, 0x6C, 0x6D, 0x6E,
  0x6F, 0x70, 0x71, 0x72, 0x73, 0x74, 0x75, 0x76,
  0x77, 0x78, 0x79, 0x7A, 0x30, 0x31, 0x32, 0x33,
  0x34, 0x35, 0x36, 0x37, 0x38, 0x39, 0x41, 0x42]

/-- The value `randomness` assembled from the four bytes read:
`uint32(b[0])<<24 | uint32(b[1])<<16 | uint32(b[2])<<8 | uint32(b[3])`. -/
def chromeRandomness (randomBytes : List Byte) : Nat :=
  shl32 (uint32 (randomBytes.getD 0 0)) 24 |||
    shl32 (uint32 (randomBytes.getD 1 0)) 16 |||
    shl32 (uint32 (randomBytes.getD 2 0)) 8 |||
    uint32 (randomBytes.getD 3 0)

/-- One pass of the body of `for range 4`: four bytes are read (the result of
`rand.Read` is not inspected), and four table entries are appended.  An index
outside the table aborts the run (`none`). -/
def chromeBoundaryStep (boundary : List Nat) (src : RandSource) :
    Option (List Nat × RandSource) :=
  let r := randRead 4 src
  let randomness := chromeRandomness r.1
  match alphaNumericEncodingMap.get? ((randomness >>> 24) &&& 0x3F),
      alphaNumericEncodingMap.get? ((randomness >>> 16) &&& 0x3F),
      alphaNumericEncodingMap.get? ((randomness >>> 8) &&& 0x3F),
      alphaNumericEncodingMap.get? (randomness &&& 0x3F) with
  | some c0, some c1, some c2, some c3 => some (boundary ++ [c0, c1, c2, c3], r.2.1)
  | _, _, _, _ => none

/-- The loop `for range n` around `chromeBoundaryStep`. -/
def chromeBoundaryLoop : Nat → List Nat → RandSource → Option (List Nat × RandSource)
  | 0, boundary, src => some (boundary, src)
  | n + 1, boundary, src =>
    match chromeBoundaryStep boundary src with
    | some (boundary', src') => chromeBoundaryLoop n boundary' src'
    | none => none

/-- The conversion `g.String(boundary)` of a byte slice holding ASCII. -/
def bytesToString (bs : List Nat) : String := String.mk (bs.map Char.ofNat)

/-- The conversion `[]byte(prefix)` of an ASCII string. -/
def stringToBytes (s : String) : List Nat := s.data.map Char.toNat

/-- The `Boundary` closure installed by `Chrome`, run on a state of the random
source: the boundary string and the state the source is left in. -/
def chromeBoundary (src : RandSource) : Option (String × RandSource) :=
  let pre := "----WebKitFormBoundary"
  match chromeBoundaryLoop 4 (stringToBytes pre) src with
  | some (boundary, src') => some (bytesToString boundary, src')
  | none => none

/-! ## The Firefox boundary -/

/-- The function `binary.LittleEndian.Uint32` of the Go standard library on a
buffer of four bytes:
`uint32(b[0]) | uint32(b[1])<<8 | uint32(b[2])<<16 | uint32(b[3])<<24`. -/
def littleEndianUint32 (b : List Byte) : Nat :=
  uint32 (b.getD 0 0) ||| shl32 (uint32 (b.getD 1 0)) 8 |||
    shl32 (uint32 (b.getD 2 0)) 16 ||| shl32 (uint32 (b.getD 3 0)) 24

/-- The conversion `g.Int(x)` of a `uint32`: `g.Int` is Go's `int`, taken as 64 bits
wide (two's complement), the width on amd64 and arm64. -/
def gInt (x : Nat) : Int :=
  if x % 2 ^ 64 < 2 ^ 63 then ((x % 2 ^ 64 : Nat) : Int) else ((x % 2 ^ 64 : Nat) : Int) - 2 ^ 64

/-- The method `g.Int.String` (`strconv.Itoa`): the decimal digits, after a minus
sign for a negative number. -/
def gIntString (i : Int) : String :=
  if i < 0 then "-" ++ Nat.repr i.natAbs else Nat.repr i.toNat

/-- One pass of the body of `for range 3`: four bytes are read (the result of
`rand.Read` is not inspected) and the decimal string of their little-endian value
is written to the builder. -/
def firefoxBoundaryStep (builder : String) (src : RandSource) : String × RandSource :=
  let r := randRead 4 src
  (builder ++ gIntString (gInt (littleEndianUint32 r.1)), r.2.1)

/-- The loop `for range n` around `firefoxBoundaryStep`. -/
def firefoxBoundaryLoop : Nat → String → RandSource → String × RandSource
  | 0, builder, src => (builder, src)
  | n + 1, builder, src =>
    firefoxBoundaryLoop n (firefoxBoundaryStep builder src).1 (firefoxBoundaryStep builder src).2

/-- The `Boundary` closure installed by `FireFox`, run on a state of the random
source: the boundary string and the state the source is left in. -/
def firefoxBoundary (src : RandSource) : String × RandSource :=
  firefoxBoundaryLoop 3 "---------------------------" src

/-- The number a list of decimal digit characters denotes, most significant digit
first; used to state what a numeric group of the boundary stands for. -/
def decimalValue (cs : List Char) : Nat :=
  cs.foldl (fun acc c => acc * 10 + (c.toNat - 48)) 0

/-! ## HTTP/2 settings -/

/-- The type `http2.PriorityParam`. -/
structure PriorityParam where
  StreamDep : Nat
  Exclusive : Bool
  Weight : Nat
  deriving DecidableEq, Repr

/-- The type `http2.PriorityFrame`, with the stream id of its frame header. -/
structure PriorityFrame where
  StreamID : Nat
  PriorityParam : PriorityParam
  deriving DecidableEq, Repr

/-- Modelled from the spec: the HTTP/2 settings builder is declared outside the
sources at hand; the spec lists its content as "header-table size, server-push
enable flag, initial window size, max frame size, max header-list size,
connection-level flow-control window, initial stream-priority, ordered list of
additional priority frames".  A value that was never set is `none`. -/
structure HTTP2Settings where
  headerTableSize : Option Nat
  enablePush : Option Nat
  maxConcurrentStreams : Option Nat
  initialWindowSize : Option Nat
  maxFrameSize : Option Nat
  maxHeaderListSize : Option Nat
  connectionFlow : Option Nat
  priorityParam : Option PriorityParam
  priorityFrames : List PriorityFrame
  deriving DecidableEq, Repr

namespace HTTP2Settings

/-- The builder returned by `HTTP2Settings()`: nothing set. -/
def new : HTTP2Settings :=
  ⟨none, none, none, none, none, none, none, none, []⟩

/-- Modelled from the spec: the setter `HeaderTableSize` stores the header-table size. -/
def HeaderTableSize (s : HTTP2Settings) (v : Nat) : HTTP2Settings :=
  { s with headerTableSize := some v }

/-- Modelled from the spec: the setter `EnablePush` stores the server-push flag. -/
def EnablePush (s : HTTP2Settings) (v : Nat) : HTTP2Settings :=
  { s with enablePush := some v }

/-- Modelled from the spec: the setter `InitialWindowSize` stores the initial window size. -/
def InitialWindowSize (s : HTTP2Settings) (v : Nat) : HTTP2Settings :=
  { s with initialWindowSize := some v }

/-- Modelled from the spec: the setter `MaxFrameSize` stores the max frame size. -/
def MaxFrameSize (s : HTTP2Settings) (v : Nat) : HTTP2Settings :=
  { s with maxFrameSize := some v }

/-- Modelled from the spec: the setter `MaxHeaderListSize` stores the max header-list size. -/
def MaxHeaderListSize (s : HTTP2Settings) (v : Nat) : HTTP2Settings :=
  { s with maxHeaderListSize := some v }

/-- Modelled from the spec: the setter `ConnectionFlow` stores the connection-level
flow-control window. -/
def ConnectionFlow (s : HTTP2Settings) (v : Nat) : HTTP2Settings :=
  { s with connectionFlow := some v }

/-- Modelled from the spec: the setter `PriorityParam` stores the initial stream priority. -/
def setPriorityParam (s : HTTP2Settings) (v : Surf.PriorityParam) : HTTP2Settings :=
  { s with priorityParam := some v }

/-- Modelled from the spec: the setter `PriorityFrames` stores the list of priority frames. -/
def PriorityFrames (s : HTTP2Settings) (v : List PriorityFrame) : HTTP2Settings :=
  { s with priorityFrames := v }

/-- The SETTINGS parameters that were set, each with its HTTP/2 identifier
(1 header table size, 2 enable push, 3 max concurrent streams, 4 initial window
size, 5 max frame size, 6 max header list size), in identifier order. -/
def settingsList (s : HTTP2Settings) : List (Nat × Nat) :=
  [(1, s.headerTableSize), (2, s.enablePush), (3, s.maxConcurrentStreams),
    (4, s.initialWindowSize), (5, s.maxFrameSize), (6, s.maxHeaderListSize)].filterMap
    fun p => p.2.map fun v => (p.1, v)

end HTTP2Settings

/-- A priority frame written the way the documented fingerprints write it:
stream, exclusive flag as 0 or 1, dependency, weight plus one. -/
def PriorityFrame.akamai (f : PriorityFrame) : Nat × Nat × Nat × Nat :=
  (f.StreamID, if f.PriorityParam.Exclusive then 1 else 0, f.PriorityParam.StreamDep,
    f.PriorityParam.Weight + 1)

/-- The HTTP/2 settings installed by `Impersonate.Chrome`. -/
def chromeHTTP2Settings : HTTP2Settings :=
  (((((HTTP2Settings.new.HeaderTableSize 65536).EnablePush 0).InitialWindowSize
    6291456).MaxHeaderListSize 262144).ConnectionFlow 15663105).setPriorityParam
    ⟨0, true, 255⟩

/-- The list `priorityFrames` of `Impersonate.FireFox`. -/
def firefoxPriorityFrames : List PriorityFrame :=
  [⟨3, ⟨0, false, 200⟩⟩, ⟨5, ⟨0, false, 100⟩⟩, ⟨7, ⟨0, false, 0⟩⟩, ⟨9, ⟨7, false, 0⟩⟩,
    ⟨11, ⟨3, false, 0⟩⟩, ⟨13, ⟨0, false, 240⟩⟩]

/-- The HTTP/2 settings installed by `Impersonate.FireFox`. -/
def firefoxHTTP2Settings : HTTP2Settings :=
  (((((HTTP2Settings.new.HeaderTableSize 65536).InitialWindowSize 131072).MaxFrameSize
    16384).ConnectionFlow 12517377).setPriorityParam ⟨13, false, 41⟩).PriorityFrames
    firefoxPriorityFrames

/-! ## The identity selector -/

/-- The type `Impersonate`; the type `Builder` is declared outside the sources at
hand and is a parameter. -/
structure Impersonate (Builder : Type) where
  builder : Builder
  os : ImpersonateOS

/-- The slice `g.SliceOf(windows, macos, linux, android, ios)` of `RandomOS`. -/
def osSlice : List ImpersonateOS :=
  [ImpersonateOS.windows, ImpersonateOS.macos, ImpersonateOS.linux, ImpersonateOS.android,
    ImpersonateOS.ios]

/-- The method `Impersonate.RandomOS`: `Random()` returns the element of the slice
at the index the random number generator draws below the length of the slice; the
index drawn is the argument `r`. -/
def Impersonate.RandomOS {Builder : Type} (im : Impersonate Builder) (r : Fin 5) :
    Impersonate Builder :=
  { im with os := osSlice.getD r.val ImpersonateOS.windows }

/-! ## The TLS table of Firefox 131 (private mode) -/

/-- The type `utls.CurveID`, a 16-bit group identifier. -/
abbrev CurveID := Nat

/-- The constant `utls.X25519` of the TLS library (group 29 of the TLS registry). -/
def X25519 : CurveID := 29

/-- The constant `utls.CurveP256` of the TLS library (group 23 of the TLS registry). -/
def CurveP256 : CurveID := 23

/-- The constant `utls.CurveP384` of the TLS library (group 24 of the TLS registry). -/
def CurveP384 : CurveID := 24

/-- The constant `utls.CurveP521` of the TLS library (group 25 of the TLS registry). -/
def CurveP521 : CurveID := 25

/-- The signature schemes named in the table (type `utls.SignatureScheme`). -/
inductive SignatureScheme where
  | ECDSAWithP256AndSHA256 | ECDSAWithP384AndSHA384 | ECDSAWithP521AndSHA512
  | ECDSAWithSHA1 | PSSWithSHA256 | PSSWithSHA384 | PSSWithSHA512
  | PKCS1WithSHA256 | PKCS1WithSHA384 | PKCS1WithSHA512 | PKCS1WithSHA1
  deriving DecidableEq, Repr

/-- The protocol versions named in the table. -/
inductive TLSVersion where
  | VersionTLS12 | VersionTLS13
  deriving DecidableEq, Repr

/-- The symmetric suites of the encrypted-client-hello placeholder: the key
derivation and the cipher named in the table (package `dicttls`). -/
inductive HPKESymmetricCipherSuite where
  | HKDF_SHA256_AEAD_AES_128_GCM | HKDF_SHA256_AEAD_CHACHA20_POLY1305
  deriving DecidableEq, Repr

/-- The type `utls.KeyShare`, with the group of the share (the table gives no data). -/
structure KeyShare where
  Group : CurveID
  deriving DecidableEq, Repr

/-- The extensions that occur in the table (implementations of `utls.TLSExtension`),
each with the parameters the table gives it. -/
inductive TLSExtension where
  | SNIExtension
  | ExtendedMasterSecretExtension
  | RenegotiationInfoExtension_RenegotiateOnceAsClient
  | SupportedCurvesExtension (Curves : List CurveID)
  | SupportedPointsExtension (SupportedPoints : List Nat)
  | ALPNExtension (AlpnProtocols : List String)
  | StatusRequestExtension
  | DelegatedCredentialsExtension (SupportedSignatureAlgorithms : List SignatureScheme)
  | KeyShareExtension (KeyShares : List KeyShare)
  | SupportedVersionsExtension (Versions : List TLSVersion)
  | SignatureAlgorithmsExtension (SupportedSignatureAlgorithms : List SignatureScheme)
  | FakeRecordSizeLimitExtension (Limit : Nat)
  | GREASEEncryptedClientHelloExtension
      (CandidateCipherSuites : List HPKESymmetricCipherSuite)
      (CandidatePayloadLens : List Nat)
  deriving DecidableEq, Repr

/-- The field `Extensions` of the table `HelloFirefoxPrivate_131`, in the order of
the table. -/
def HelloFirefoxPrivate_131 : List TLSExtension :=
  [ TLSExtension.SNIExtension,
    TLSExtension.ExtendedMasterSecretExtension,
    TLSExtension.RenegotiationInfoExtension_RenegotiateOnceAsClient,
    TLSExtension.SupportedCurvesExtension
      [X25519, CurveP256, CurveP384, CurveP521, 256, 257],
    TLSExtension.SupportedPointsExtension [0x00],
    TLSExtension.ALPNExtension ["h2", "http/1.1"],
    TLSExtension.StatusRequestExtension,
    TLSExtension.DelegatedCredentialsExtension
      [SignatureScheme.ECDSAWithP256AndSHA256, SignatureScheme.ECDSAWithP384AndSHA384,
        SignatureScheme.ECDSAWithP521AndSHA512, SignatureScheme.ECDSAWithSHA1],
    TLSExtension.KeyShareExtension [⟨X25519⟩, ⟨CurveP256⟩],
    TLSExtension.SupportedVersionsExtension
      [TLSVersion.VersionTLS13, TLSVersion.VersionTLS12],
    TLSExtension.SignatureAlgorithmsExtension
      [SignatureScheme.ECDSAWithP256AndSHA256, SignatureScheme.ECDSAWithP384AndSHA384,
        SignatureScheme.ECDSAWithP521AndSHA512, SignatureScheme.PSSWithSHA256,
        SignatureScheme.PSSWithSHA384, SignatureScheme.PSSWithSHA512,
        SignatureScheme.PKCS1WithSHA256, SignatureScheme.PKCS1WithSHA384,
        SignatureScheme.PKCS1WithSHA512, SignatureScheme.ECDSAWithSHA1,
        SignatureScheme.PKCS1WithSHA1],
    TLSExtension.FakeRecordSizeLimitExtension 0x4001,
    TLSExtension.GREASEEncryptedClientHelloExtension
      [HPKESymmetricCipherSuite.HKDF_SHA256_AEAD_AES_128_GCM,
        HPKESymmetricCipherSuite.HKDF_SHA256_AEAD_CHACHA20_POLY1305]
      [223] ]

/-- The groups advertised by the supported-curves extensions of an extension list. -/
def supportedCurves : List TLSExtension → List CurveID
  | [] => []
  | TLSExtension.SupportedCurvesExtension cs :: rest => cs ++ supportedCurves rest
  | _ :: rest => supportedCurves rest

/-- The groups of the key shares of the key-share extensions of an extension list. -/
def keyShareGroups : List TLSExtension → List CurveID
  | [] => []
  | TLSExtension.KeyShareExtension ks :: rest =>
    ks.map KeyShare.Group ++ keyShareGroups rest
  | _ :: rest => keyShareGroups rest

/-! ## The sort the library runs -/

namespace MapOrd

/-- The test `cmp(data[i], data[j]) < 0` of the library's sort. -/
def lessAt (fn : String → String → Ordering) (data : MapOrd) (i j : Nat) : Bool :=
  match data.get? i, data.get? j with
  | some x, some y => decide (fn x.1 y.1 = Ordering.lt)
  | _, _ => false

/-- The exchange `data[i], data[j] = data[j], data[i]`. -/
def swap (data : MapOrd) (i j : Nat) : MapOrd :=
  match data.get? i, data.get? j with
  | some x, some y => (data.set i y).set j x
  | _, _ => data

/-- The inner loop of `insertionSortCmpFunc`:
`for j := i; j > a && cmp(data[j], data[j-1]) < 0; j-- { swap }`; the first argument
bounds the number of passes, `j - a` at the start. -/
def insertionInner (fn : String → String → Ordering) (a : Nat) : Nat → Nat → MapOrd → MapOrd
  | 0, _, data => data
  | n + 1, j, data =>
    if a < j && lessAt fn data j (j - 1) then insertionInner fn a n (j - 1) (swap data j (j - 1))
    else data

/-- The outer loop of `insertionSortCmpFunc`: `for i := a + 1; i < b; i++`; the
first argument bounds the number of passes, `b - (a + 1)` at the start. -/
def insertionOuter (fn : String → String → Ordering) (a b : Nat) : Nat → Nat → MapOrd → MapOrd
  | 0, _, data => data
  | n + 1, i, data =>
    if i < b then insertionOuter fn a b n (i + 1) (insertionInner fn a (i - a) i data)
    else data

/-- The function `insertionSortCmpFunc(data, a, b, cmp)` of the Go standard library
(package `slices`): insertion sort of `data[a:b]`. -/
def insertionSortCmpFunc (fn : String → String → Ordering) (data : MapOrd) (a b : Nat) :
    MapOrd :=
  insertionOuter fn a b (b - (a + 1)) (a + 1) data

/-- The loop `for i <= j && cmp(data[i], data[p]) < 0 { i++ }`; the first argument
is `j + 1 - i` at the start. -/
def scanUpLess (fn : String → String → Ordering) (data : MapOrd) (p : Nat) : Nat → Nat → Nat
  | 0, i => i
  | n + 1, i => if lessAt fn data i p then scanUpLess fn data p n (i + 1) else i

/-- The loop `for i <= j && !(cmp(data[j], data[p]) < 0) { j-- }`; the first
argument is `j + 1 - i` at the start. -/
def scanDownNotLess (fn : String → String → Ordering) (data : MapOrd) (p : Nat) :
    Nat → Nat → Nat
  | 0, j => j
  | n + 1, j => if !lessAt fn data j p then scanDownNotLess fn data p n (j - 1) else j

/-- The closing loop of `partitionCmpFunc`: both scans, then either the exit
`i > j` or an exchange and `i++`, `j--`. -/
def partitionLoop (fn : String → String → Ordering) (a : Nat) :
    Nat → MapOrd → Nat → Nat → MapOrd × Nat
  | 0, data, _, j => (data, j)
  | n + 1, data, i, j =>
    let i₁ := scanUpLess fn data a (j + 1 - i) i
    let j₁ := scanDownNotLess fn data a (j + 1 - i₁) j
    if j₁ < i₁ then (data, j₁)
    else partitionLoop fn a n (swap data i₁ j₁) (i₁ + 1) (j₁ - 1)

/-- The function `partitionCmpFunc(data, a, b, pivot, cmp)` of the Go standard
library: one quicksort partition of `data[a:b]`; the slice afterwards, the new
index of the pivot and whether the slice was already partitioned. -/
def partitionCmpFunc (fn : String → String → Ordering) (data : MapOrd) (a b pivot : Nat) :
    MapOrd × Nat × Bool :=
  let data := swap data a pivot
  let i := scanUpLess fn data a (b - 1 + 1 - (a + 1)) (a + 1)
  let j := scanDownNotLess fn data a (b - 1 + 1 - i) (b - 1)
  if j < i then (swap data j a, j, true)
  else
    let r := partitionLoop fn a (b - a) (swap data i j) (i + 1) (j - 1)
    (swap r.1 r.2 a, r.2, false)

/-- The loop `for i <= j && !(cmp(data[p], data[i]) < 0) { i++ }`. -/
def scanUpNotGreater (fn : String → String → Ordering) (data : MapOrd) (p : Nat) :
    Nat → Nat → Nat
  | 0, i => i
  | n + 1, i => if !lessAt fn data p i then scanUpNotGreater fn data p n (i + 1) else i

/-- The loop `for i <= j && cmp(data[p], data[j]) < 0 { j-- }`. -/
def scanDownGreater (fn : String → String → Ordering) (data : MapOrd) (p : Nat) :
    Nat → Nat → Nat
  | 0, j => j
  | n + 1, j => if lessAt fn data p j then scanDownGreater fn data p n (j - 1) else j

/-- The loop of `partitionEqualCmpFunc`. -/
def partitionEqualLoop (fn : String → String → Ordering) (a : Nat) :
    Nat → MapOrd → Nat → Nat → MapOrd × Nat
  | 0, data, i, _ => (data, i)
  | n + 1, data, i, j =>
    let i₁ := scanUpNotGreater fn data a (j + 1 - i) i
    let j₁ := scanDownGreater fn data a (j + 1 - i₁) j
    if j₁ < i₁ then (data, i₁)
    else partitionEqualLoop fn a n (swap data i₁ j₁) (i₁ + 1) (j₁ - 1)

/-- The function `partitionEqualCmpFunc(data, a, b, pivot, cmp)` of the Go standard
library: `data[a:b]` split into the elements equal to the pivot and those greater. -/
def partitionEqualCmpFunc (fn : String → String → Ordering) (data : MapOrd)
    (a b pivot : Nat) : MapOrd × Nat :=
  partitionEqualLoop fn a (b - a + 1) (swap data a pivot) (a + 1) (b - 1)

/-- The type `sortedHint` of the Go standard library. -/
inductive sortedHint where
  | unknownHint | increasingHint | decreasingHint
  deriving DecidableEq, Repr

/-- The function `order2CmpFunc`: the two indices in the order of their elements,
and the count of exchanges. -/
def order2CmpFunc (fn : String → String → Ordering) (data : MapOrd) (a b swaps : Nat) :
    Nat × Nat × Nat :=
  if lessAt fn data b a then (b, a, swaps + 1) else (a, b, swaps)

/-- The function `medianCmpFunc`: the index of the median of three elements, and
the count of exchanges. -/
def medianCmpFunc (fn : String → String → Ordering) (data : MapOrd) (a b c swaps : Nat) :
    Nat × Nat :=
  let r₁ := order2CmpFunc fn data a b swaps
  let r₂ := order2CmpFunc fn data r₁.2.1 c r₁.2.2
  let r₃ := order2CmpFunc fn data r₁.1 r₂.1 r₂.2.2
  (r₃.2.1, r₃.2.2)

/-- The function `choosePivotCmpFunc(data, a, b, cmp)` of the Go standard library for
a range of fewer than 50 entries (a static pivot below 8 entries, the median of
three from 8 entries on); `none` for a longer range, whose pivot choice is not
modelled. -/
def choosePivotCmpFunc (fn : String → String → Ordering) (data : MapOrd) (a b : Nat) :
    Option (Nat × sortedHint) :=
  let l := b - a
  if 50 ≤ l then none
  else
    let i := a + l / 4 * 1
    let j := a + l / 4 * 2
    let k := a + l / 4 * 3
    let r := if 8 ≤ l then medianCmpFunc fn data i j k 0 else (j, 0)
    if r.2 = 0 then some (r.1, sortedHint.increasingHint)
    else if r.2 = 4 * 3 then some (r.1, sortedHint.decreasingHint)
    else some (r.1, sortedHint.unknownHint)

/-- The loop of `reverseRangeCmpFunc`: `for i < j { swap; i++; j-- }`. -/
def reverseRangeLoop : Nat → MapOrd → Nat → Nat → MapOrd
  | 0, data, _, _ => data
  | n + 1, data, i, j => if i < j then reverseRangeLoop n (swap data i j) (i + 1) (j - 1) else data

/-- The function `reverseRangeCmpFunc(data, a, b, cmp)`: `data[a:b]` reversed. -/
def reverseRangeCmpFunc (data : MapOrd) (a b : Nat) : MapOrd :=
  reverseRangeLoop (b - a) data a (b - 1)

/-- The loop `for i < b && !(cmp(data[i], data[i-1]) < 0) { i++ }`. -/
def scanSorted (fn : String → String → Ordering) (data : MapOrd) (b : Nat) : Nat → Nat → Nat
  | 0, i => i
  | n + 1, i => if i < b && !lessAt fn data i (i - 1) then scanSorted fn data b n (i + 1) else i

/-- The function `partialInsertionSortCmpFunc(data, a, b, cmp)` on a range of fewer
than 50 entries, where it moves nothing: whether `data[a:b]` is sorted. -/
def partialInsertionSortCmpFunc (fn : String → String → Ordering) (data : MapOrd)
    (a b : Nat) : Bool :=
  scanSorted fn data b (b - a) (a + 1) == b

/-- The function `bits.Len`: the number of bits needed to write `n`. -/
def bitsLen : Nat → Nat → Nat
  | 0, _ => 0
  | f + 1, n => if n = 0 then 0 else bitsLen f (n / 2) + 1

/-- The function `pdqsortCmpFunc(data, a, b, limit, cmp)` of the Go standard library
(package `slices`), with the two flags `wasBalanced` and `wasPartitioned` of its
loop as arguments.  The first argument bounds the number of loop passes and nested
calls; each of them shortens the range.  The result is `none` when that bound runs
out and when the run reaches a part that is not modelled: the heap sort taken at
`limit == 0`, the pattern breaking taken after an unbalanced partition, and the
pivot choice on 50 entries or more. -/
def pdqsortCmpFunc (fn : String → String → Ordering) :
    Nat → MapOrd → Nat → Nat → Nat → Bool → Bool → Option MapOrd
  | 0, _, _, _, _, _, _ => none
  | fuel + 1, data, a, b, limit, wasBalanced, wasPartitioned =>
    let length := b - a
    if length ≤ 12 then some (insertionSortCmpFunc fn data a b)
    else if limit = 0 then none
    else if !wasBalanced then none
    else
      match choosePivotCmpFunc fn data a b with
      | none => none
      | some (pivot₀, hint₀) =>
        let data₁ := if hint₀ = sortedHint.decreasingHint then reverseRangeCmpFunc data a b
          else data
        let pivot := if hint₀ = sortedHint.decreasingHint then (b - 1) - (pivot₀ - a)
          else pivot₀
        let hint := if hint₀ = sortedHint.decreasingHint then sortedHint.increasingHint
          else hint₀
        if wasBalanced && wasPartitioned && decide (hint = sortedHint.increasingHint)
            && partialInsertionSortCmpFunc fn data₁ a b then some data₁
        else if decide (0 < a) && !lessAt fn data₁ (a - 1) pivot then
          let r := partitionEqualCmpFunc fn data₁ a b pivot
          pdqsortCmpFunc fn fuel r.1 r.2 b limit wasBalanced wasPartitioned
        else
          let r := partitionCmpFunc fn data₁ a b pivot
          let mid := r.2.1
          let leftLen := mid - a
          let rightLen := b - mid
          let balanceThreshold := length / 8
          if leftLen < rightLen then
            match pdqsortCmpFunc fn fuel r.1 a mid limit true true with
            | none => none
            | some d =>
              pdqsortCmpFunc fn fuel d (mid + 1) b limit (decide (balanceThreshold ≤ leftLen))
                r.2.2
          else
            match pdqsortCmpFunc fn fuel r.1 (mid + 1) b limit true true with
            | none => none
            | some d =>
              pdqsortCmpFunc fn fuel d a mid limit (decide (balanceThreshold ≤ rightLen))
                r.2.2

/-- The function `slices.SortFunc` of the Go standard library, which the library
method `MapOrd.SortByKey` runs on the pairs of the map:
`pdqsortCmpFunc(x, 0, n, bits.Len(uint(n)), cmp)`. -/
def SortFunc (data : MapOrd) (fn : String → String → Ordering) : Option MapOrd :=
  pdqsortCmpFunc fn (data.length + 1) data 0 data.length (bitsLen data.length data.length)
    true true

end MapOrd

/-- The function `chromeHeaders` as it runs: the defaults of the method are written,
then the map is sorted by the rank of its keys in the selected template with the
sort the library runs; `none` where that sort is not modelled. -/
def chromeHeadersRun (headers : MapOrd) (method : String) : Option MapOrd :=
  (chromeDefaults headers method).SortFunc (orderCmp (chromeTemplate method))

/-- The function `firefoxHeaders` as it runs: the defaults of the method are written,
then the map is sorted by the rank of its keys in the selected template with the
sort the library runs; `none` where that sort is not modelled. -/
def firefoxHeadersRun (headers : MapOrd) (method : String) : Option MapOrd :=
  (firefoxDefaults headers method).SortFunc (orderCmp (firefoxTemplate method))


/-! ## The boundary closures as they run -/

/-- The outcome of a run of a `Boundary` closure: a value is returned, or the
process is aborted because the random source failed, or an index is out of range. -/
inductive RunOutcome (α : Type) where
  | returned (value : α)
  | randomSourceFailed
  | indexOutOfRange
  deriving DecidableEq, Repr

/-- The call `rand.Read(b)` with `n` bytes as it runs: the buffer and the source
after the call.  When the source cannot deliver `n` bytes the call does not return
(`crypto/rand` of Go 1.24 and later aborts the process); this is `none`. -/
def randReadRun (n : Nat) (src : RandSource) : Option (List Byte × RandSource) :=
  if n ≤ src.length then some (src.take n, src.drop n) else none

/-- One pass of the body of `for range 4` of the Chrome closure as it runs. -/
def chromeBoundaryStepRun (boundary : List Nat) (src : RandSource) :
    RunOutcome (List Nat × RandSource) :=
  match randReadRun 4 src with
  | none => RunOutcome.randomSourceFailed
  | some r =>
    let randomness := chromeRandomness r.1
    match alphaNumericEncodingMap.get? ((randomness >>> 24) &&& 0x3F),
        alphaNumericEncodingMap.get? ((randomness >>> 16) &&& 0x3F),
        alphaNumericEncodingMap.get? ((randomness >>> 8) &&& 0x3F),
        alphaNumericEncodingMap.get? (randomness &&& 0x3F) with
    | some c0, some c1, some c2, some c3 =>
      RunOutcome.returned (boundary ++ [c0, c1, c2, c3], r.2)
    | _, _, _, _ => RunOutcome.indexOutOfRange

/-- The loop `for range n` around `chromeBoundaryStepRun`. -/
def chromeBoundaryLoopRun : Nat → List Nat → RandSource → RunOutcome (List Nat × RandSource)
  | 0, boundary, src => RunOutcome.returned (boundary, src)
  | n + 1, boundary, src =>
    match chromeBoundaryStepRun boundary src with
    | RunOutcome.returned r => chromeBoundaryLoopRun n r.1 r.2
    | RunOutcome.randomSourceFailed => RunOutcome.randomSourceFailed
    | RunOutcome.indexOutOfRange => RunOutcome.indexOutOfRange

/-- The `Boundary` closure installed by `Chrome` as it runs on a state of the random
source. -/
def chromeBoundaryRun (src : RandSource) : RunOutcome (String × RandSource) :=
  match chromeBoundaryLoopRun 4 (stringToBytes "----WebKitFormBoundary") src with
  | RunOutcome.returned r => RunOutcome.returned (bytesToString r.1, r.2)
  | RunOutcome.randomSourceFailed => RunOutcome.randomSourceFailed
  | RunOutcome.indexOutOfRange => RunOutcome.indexOutOfRange

/-- The loop `for range n` of the Firefox closure as it runs. -/
def firefoxBoundaryLoopRun : Nat → String → RandSource → RunOutcome (String × RandSource)
  | 0, builder, src => RunOutcome.returned (builder, src)
  | n + 1, builder, src =>
    match randReadRun 4 src with
    | none => RunOutcome.randomSourceFailed
    | some r =>
      firefoxBoundaryLoopRun n (builder ++ gIntString (gInt (littleEndianUint32 r.1))) r.2

/-- The `Boundary` closure installed by `FireFox` as it runs on a state of the random
source. -/
def firefoxBoundaryRun (src : RandSource) : RunOutcome (String × RandSource) :=
  firefoxBoundaryLoopRun 3 "---------------------------" src

/-! ## Lemmas on the ordered map -/

theorem orderCmp_lt_iff (m : List String) (a b : String) :
    orderCmp m a b = Ordering.lt ↔ rankIn m a < rankIn m b := by
  unfold orderCmp
  exact compare_lt_iff_lt

theorem orderCmp_eq_iff (m : List String) (a b : String) :
    orderCmp m a b = Ordering.eq ↔ rankIn m a = rankIn m b := by
  unfold orderCmp
  exact compare_eq_iff_eq

theorem lookup_invertEnumFrom (m : List String) (n : Nat) (a : String) :
    ((m.enumFrom n).map fun p => (p.2, p.1)).lookup a
      = if a ∈ m then some (n + m.indexOf a) else none := by
  induction m generalizing n with
  | nil => simp
  | cons x t ih =>
    by_cases hx : a = x
    · subst hx
      simp [List.enumFrom, List.lookup]
    · have hx' : (a == x) = false := by simpa using hx
      have hne : x ≠ a := fun h => hx h.symm
      simp only [List.enumFrom, List.map_cons, List.lookup, hx', ih (n + 1),
        List.mem_cons, hx, false_or, List.indexOf_cons_ne _ hne]
      split
      · simp; omega
      · simp

theorem rankIn_eq (m : List String) (a : String) :
    rankIn m a = if a ∈ m then m.indexOf a else 0 := by
  unfold rankIn invertEnumerate List.enum
  rw [lookup_invertEnumFrom]
  split <;> simp

theorem rankIn_of_not_mem {m : List String} {a : String} (h : a ∉ m) : rankIn m a = 0 := by
  rw [rankIn_eq, if_neg h]

theorem rankIn_of_mem {m : List String} {a : String} (h : a ∈ m) :
    rankIn m a = m.indexOf a := by
  rw [rankIn_eq, if_pos h]

theorem rankIn_inj_of_mem {m : List String} {a b : String} (ha : a ∈ m) (hb : b ∈ m)
    (h : rankIn m a = rankIn m b) : a = b := by
  rw [rankIn_of_mem ha, rankIn_of_mem hb] at h
  exact (List.indexOf_inj ha hb).1 h

namespace MapOrd

theorem insertByKey_perm (fn : String → String → Ordering) (x : String × String)
    (l : MapOrd) : List.Perm (insertByKey fn x l) (x :: l) := by
  induction l with
  | nil => exact List.Perm.refl _
  | cons y t ih =>
    unfold insertByKey
    split
    · exact ((List.Perm.cons y ih).trans (List.Perm.swap x y t))
    · exact List.Perm.refl _

theorem SortByKey_perm (mo : MapOrd) (fn : String → String → Ordering) :
    List.Perm (SortByKey mo fn) mo := by
  unfold SortByKey
  induction mo with
  | nil => exact List.Perm.refl _
  | cons x t ih =>
    exact (insertByKey_perm fn x _).trans (List.Perm.cons x ih)

theorem insertByKey_sorted (m : List String) (x : String × String) (l : MapOrd)
    (hl : l.Pairwise fun a b => rankIn m a.1 ≤ rankIn m b.1) :
    (insertByKey (orderCmp m) x l).Pairwise fun a b => rankIn m a.1 ≤ rankIn m b.1 := by
  induction l with
  | nil => simp [insertByKey]
  | cons y t ih =>
    rw [List.pairwise_cons] at hl
    unfold insertByKey
    split
    · rename_i hlt
      rw [orderCmp_lt_iff] at hlt
      rw [List.pairwise_cons]
      refine ⟨?_, ih hl.2⟩
      intro z hz
      rcases List.mem_cons.1 ((List.Perm.mem_iff (insertByKey_perm _ x t)).1 hz) with h | h
      · subst h; exact Nat.le_of_lt hlt
      · exact hl.1 z h
    · rename_i hnlt
      rw [orderCmp_lt_iff, Nat.not_lt] at hnlt
      rw [List.pairwise_cons, List.pairwise_cons]
      refine ⟨?_, hl⟩
      intro z hz
      rcases List.mem_cons.1 hz with h | h
      · subst h; exact hnlt
      · exact Nat.le_trans hnlt (hl.1 z h)

theorem SortByKey_sorted (m : List String) (mo : MapOrd) :
    (SortByKey mo (orderCmp m)).Pairwise fun a b => rankIn m a.1 ≤ rankIn m b.1 := by
  unfold SortByKey
  induction mo with
  | nil => simp
  | cons x t ih => exact insertByKey_sorted m x _ ih

theorem filter_insertByKey (m : List String) (r : Nat) (x : String × String) (l : MapOrd) :
    (insertByKey (orderCmp m) x l).filter (fun y => decide (rankIn m y.1 = r))
      = if rankIn m x.1 = r then x :: l.filter (fun y => decide (rankIn m y.1 = r))
        else l.filter (fun y => decide (rankIn m y.1 = r)) := by
  induction l with
  | nil => simp [insertByKey, List.filter_cons]
  | cons y t ih =>
    unfold insertByKey
    split
    · rename_i hlt
      rw [orderCmp_lt_iff] at hlt
      rw [List.filter_cons, ih]
      by_cases hx : rankIn m x.1 = r
      · have hy : ¬ rankIn m y.1 = r := by omega
        simp [hx, hy, List.filter_cons]
      · simp [hx, List.filter_cons]
    · by_cases hx : rankIn m x.1 = r
      · simp [hx, List.filter_cons]
      · simp [hx, List.filter_cons]

theorem SortByKey_filter_rank (m : List String) (r : Nat) (mo : MapOrd) :
    (SortByKey mo (orderCmp m)).filter (fun y => decide (rankIn m y.1 = r))
      = mo.filter (fun y => decide (rankIn m y.1 = r)) := by
  unfold SortByKey
  induction mo with
  | nil => rfl
  | cons x t ih =>
    rw [List.foldr_cons, filter_insertByKey, ih, List.filter_cons]
    by_cases hx : rankIn m x.1 = r <;> simp [hx]

theorem keys_Set (mo : MapOrd) (k v : String) :
    (Set mo k v).keys = if k ∈ mo.keys then mo.keys else mo.keys ++ [k] := by
  induction mo with
  | nil => simp [Set, keys]
  | cons y t ih =>
    obtain ⟨yk, yv⟩ := y
    unfold Set
    by_cases hy : yk = k
    · simp [hy, keys]
    · have hy' : ¬ k = yk := fun h => hy h.symm
      simp only [keys, List.map_cons, List.mem_cons, hy, hy', if_false, false_or] at ih ⊢
      rw [ih]
      split <;> simp

theorem mem_keys_Set (mo : MapOrd) (k v n : String) :
    n ∈ (Set mo k v).keys ↔ n = k ∨ n ∈ mo.keys := by
  rw [keys_Set]
  split
  · constructor
    · exact Or.inr
    · rintro (h | h)
      · subst h; assumption
      · exact h
  · simp [or_comm]

theorem nodup_keys_Set (mo : MapOrd) (k v : String) (h : mo.keys.Nodup) :
    (Set mo k v).keys.Nodup := by
  rw [keys_Set]
  split
  · exact h
  · rename_i hk
    exact List.Nodup.append h (List.nodup_singleton k) (by simpa using hk)

theorem Get_Set (mo : MapOrd) (k v n : String) :
    (Set mo k v).Get n = if k = n then some v else mo.Get n := by
  induction mo with
  | nil => simp [Set, Get]
  | cons y t ih =>
    obtain ⟨yk, yv⟩ := y
    unfold Set
    by_cases hy : yk = k
    · subst hy
      by_cases hn : yk = n <;> simp [Get, hn]
    · by_cases hn : yk = n
      · subst hn
        have hkn : ¬ k = yk := fun h => hy h.symm
        simp [Get, hy, hkn]
      · simp [Get, hy, hn, ih]

theorem filter_Set (p : String → Bool) (mo : MapOrd) (k v : String) (hk : p k = false) :
    (Set mo k v).filter (fun y => p y.1) = mo.filter (fun y => p y.1) := by
  induction mo with
  | nil => simp [Set, hk]
  | cons y t ih =>
    obtain ⟨yk, yv⟩ := y
    unfold Set
    by_cases hy : yk = k
    · subst hy
      simp [List.filter_cons, hk]
    · simp [hy, List.filter_cons, ih]

theorem Get_insertByKey (m : List String) (x : String × String) (l : MapOrd) (n : String) :
    (insertByKey (orderCmp m) x l).Get n = if x.1 = n then some x.2 else l.Get n := by
  induction l with
  | nil => obtain ⟨xk, xv⟩ := x; simp [insertByKey, Get]
  | cons y t ih =>
    obtain ⟨yk, yv⟩ := y
    obtain ⟨xk, xv⟩ := x
    unfold insertByKey
    split
    · rename_i hlt
      rw [orderCmp_lt_iff] at hlt
      have hne : yk ≠ xk := by
        intro h
        simp only [h] at hlt
        exact Nat.lt_irrefl _ hlt
      simp only [Get, ih]
      by_cases hy : yk = n
      · have hx : ¬ xk = n := fun h => hne (hy.trans h.symm)
        simp [hy, hx]
      · simp [hy]
    · simp [Get]

theorem Get_SortByKey (m : List String) (mo : MapOrd) (n : String) :
    (SortByKey mo (orderCmp m)).Get n = mo.Get n := by
  unfold SortByKey
  induction mo with
  | nil => rfl
  | cons x t ih =>
    obtain ⟨xk, xv⟩ := x
    rw [List.foldr_cons, Get_insertByKey, ih]
    simp [Get]

theorem keys_SortByKey_perm (mo : MapOrd) (fn : String → String → Ordering) :
    List.Perm (SortByKey mo fn).keys mo.keys :=
  (SortByKey_perm mo fn).map Prod.fst

theorem keys_SortByKey_sorted (m : List String) (mo : MapOrd) :
    (SortByKey mo (orderCmp m)).keys.Pairwise fun a b => rankIn m a ≤ rankIn m b := by
  unfold keys
  rw [List.pairwise_map]
  exact SortByKey_sorted m mo

end MapOrd

theorem template_pairwise_rank (m : List String) (hm : m.Nodup) :
    m.Pairwise fun a b => rankIn m a < rankIn m b := by
  rw [List.pairwise_iff_getElem]
  intro i j hi hj hij
  rw [rankIn_of_mem (List.getElem_mem _), rankIn_of_mem (List.getElem_mem _),
    List.indexOf_getElem hm, List.indexOf_getElem hm]
  exact hij

/-- Two lists of names with the same members, both without repetition and both in
non-decreasing rank order, are equal when the rank separates their members. -/
theorem eq_of_sorted_of_rank_injOn (m : List String) (l₁ l₂ : List String)
    (hn₁ : l₁.Nodup) (hn₂ : l₂.Nodup) (hmem : ∀ n, n ∈ l₁ ↔ n ∈ l₂)
    (hs₁ : l₁.Pairwise fun a b => rankIn m a ≤ rankIn m b)
    (hs₂ : l₂.Pairwise fun a b => rankIn m a ≤ rankIn m b)
    (hinj : ∀ a ∈ l₁, ∀ b ∈ l₁, rankIn m a = rankIn m b → a = b) : l₁ = l₂ := by
  have hp : List.Perm l₁ l₂ := (List.perm_ext_iff_of_nodup hn₁ hn₂).2 hmem
  have strict : ∀ l : List String, l.Nodup → (∀ n, n ∈ l → n ∈ l₁) →
      (l.Pairwise fun a b => rankIn m a ≤ rankIn m b) →
      l.Pairwise fun a b => rankIn m a < rankIn m b := by
    intro l hn hsub hs
    have hboth := List.Pairwise.and hs hn
    refine List.Pairwise.imp_of_mem ?_ hboth
    intro a b ha hb hab
    rcases Nat.lt_or_eq_of_le hab.1 with h | h
    · exact h
    · exact absurd (hinj a (hsub a ha) b (hsub b hb) h) hab.2
  have s₁ := strict l₁ hn₁ (fun _ h => h) hs₁
  have s₂ := strict l₂ hn₂ (fun n h => (hmem n).2 h) hs₂
  haveI : IsAntisymm String (fun a b => rankIn m a < rankIn m b) :=
    ⟨fun a b h₁ h₂ => absurd h₁ (Nat.lt_asymm h₂)⟩
  exact List.eq_of_perm_of_sorted hp s₁ s₂

/-- The names of a sorted map that the template lists are the template's names that
the map holds, in template order. -/
theorem keys_sort_filter_mem (m : List String) (hm : m.Nodup) (mo : MapOrd)
    (hn : mo.keys.Nodup) :
    (mo.SortByKey (orderCmp m)).keys.filter (fun n => decide (n ∈ m))
      = m.filter (fun n => decide (n ∈ mo.keys)) := by
  have hperm := MapOrd.keys_SortByKey_perm mo (orderCmp m)
  apply eq_of_sorted_of_rank_injOn m
  · exact List.Nodup.filter _ ((List.Perm.nodup_iff hperm).2 hn)
  · exact List.Nodup.filter _ hm
  · intro n
    simp only [List.mem_filter, decide_eq_true_eq, List.Perm.mem_iff hperm]
    exact and_comm
  · exact List.Pairwise.sublist (List.filter_sublist _) (MapOrd.keys_SortByKey_sorted m mo)
  · exact List.Pairwise.imp (fun h => Nat.le_of_lt h)
      (List.Pairwise.sublist (List.filter_sublist _) (template_pairwise_rank m hm))
  · intro a ha b hb hab
    simp only [List.mem_filter, decide_eq_true_eq] at ha hb
    exact rankIn_inj_of_mem ha.2 hb.2 hab

/-! ## The sort the library runs and the stable sort -/

theorem swap_cons_succ (x : String × String) (l : MapOrd) (i j : Nat) :
    MapOrd.swap (x :: l) (i + 1) (j + 1) = x :: MapOrd.swap l i j := by
  unfold MapOrd.swap
  simp only [List.get?_cons_succ]
  cases h1 : l.get? i <;> cases h2 : l.get? j <;> simp [List.set]

theorem swap_adjacent (pre : MapOrd) (y x : String × String) (post : MapOrd) :
    (pre ++ y :: x :: post).get? (pre.length + 1) = some x
    ∧ (pre ++ y :: x :: post).get? pre.length = some y
    ∧ MapOrd.swap (pre ++ y :: x :: post) (pre.length + 1) pre.length
        = pre ++ x :: y :: post := by
  induction pre with
  | nil => simp [MapOrd.swap, List.set]
  | cons a t ih =>
    obtain ⟨h1, h2, h3⟩ := ih
    refine ⟨?_, ?_, ?_⟩
    · simpa using h1
    · simpa using h2
    · have := swap_cons_succ a (t ++ y :: x :: post) (t.length + 1) t.length
      simp only [List.cons_append, List.length_cons]
      rw [this, h3]

theorem length_insertByKey (fn : String → String → Ordering) (x : String × String)
    (l : MapOrd) : (MapOrd.insertByKey fn x l).length = l.length + 1 :=
  (MapOrd.insertByKey_perm fn x l).length_eq

/-- The inner loop of the library's insertion sort moves the element at position
`|pre|` to the left exactly as the insertion into the reversed prefix does. -/
theorem insertionInner_eq (fn : String → String → Ordering) (n : Nat) (revPre : MapOrd)
    (x : String × String) (post : MapOrd) (hn : revPre.length ≤ n) :
    MapOrd.insertionInner fn 0 n revPre.length (revPre.reverse ++ x :: post)
      = (MapOrd.insertByKey (fun a b => fn b a) x revPre).reverse ++ post := by
  induction n generalizing revPre post with
  | zero =>
    have : revPre = [] := List.eq_nil_of_length_eq_zero (by omega)
    subst this
    simp [MapOrd.insertionInner, MapOrd.insertByKey]
  | succ n ih =>
    cases revPre with
    | nil => simp [MapOrd.insertionInner, MapOrd.insertByKey]
    | cons y ys =>
      have hdata : (y :: ys).reverse ++ x :: post = ys.reverse ++ y :: x :: post := by simp
      obtain ⟨g1, g2, g3⟩ := swap_adjacent ys.reverse y x post
      rw [List.length_reverse] at g1 g2 g3
      simp only [MapOrd.insertionInner, List.length_cons, Nat.add_sub_cancel, hdata]
      have hless : MapOrd.lessAt fn (ys.reverse ++ y :: x :: post) (ys.length + 1) ys.length
          = decide (fn x.1 y.1 = Ordering.lt) := by
        simp only [MapOrd.lessAt, g1, g2]
      rw [hless, g3]
      by_cases hlt : fn x.1 y.1 = Ordering.lt
      · have ih' := ih ys (y :: post) (by simp at hn; omega)
        simp only [hlt, decide_True, Bool.and_true, Nat.zero_lt_succ, if_true, ih',
          MapOrd.insertByKey, List.reverse_cons, List.append_assoc, List.singleton_append]
      · simp [hlt, MapOrd.insertByKey]

theorem insertionOuter_eq (fn : String → String → Ordering) (rest : MapOrd) (n : Nat)
    (revPre : MapOrd) (hn : rest.length ≤ n) :
    MapOrd.insertionOuter fn 0 (revPre.length + rest.length) n revPre.length
        (revPre.reverse ++ rest)
      = (rest.foldl (fun acc x => MapOrd.insertByKey (fun a b => fn b a) x acc) revPre).reverse := by
  induction rest generalizing n revPre with
  | nil =>
    cases n <;> simp [MapOrd.insertionOuter]
  | cons x rest' ih =>
    cases n with
    | zero => simp at hn
    | succ n =>
      have hlt : revPre.length < revPre.length + (x :: rest').length := by simp
      simp only [MapOrd.insertionOuter, hlt, if_true, Nat.sub_zero,
        insertionInner_eq fn revPre.length revPre x rest' (Nat.le_refl _), List.foldl_cons]
      have hl := length_insertByKey (fun a b => fn b a) x revPre
      have hb : revPre.length + (x :: rest').length
          = (MapOrd.insertByKey (fun a b => fn b a) x revPre).length + rest'.length := by
        rw [hl]; simp; omega
      rw [hb, ← hl]
      exact ih n _ (by simp at hn; omega)

theorem insertionSortCmpFunc_eq (fn : String → String → Ordering) (data : MapOrd) :
    MapOrd.insertionSortCmpFunc fn data 0 data.length
      = (MapOrd.SortByKey data.reverse (fun a b => fn b a)).reverse := by
  have hfold : ∀ (l acc : MapOrd),
      l.foldl (fun acc x => MapOrd.insertByKey (fun a b => fn b a) x acc) acc
        = (l.reverse).foldr (MapOrd.insertByKey (fun a b => fn b a)) acc := by
    intro l acc
    rw [List.foldr_reverse]
  cases data with
  | nil => simp [MapOrd.insertionSortCmpFunc, MapOrd.insertionOuter, MapOrd.SortByKey]
  | cons x t =>
    have h := insertionOuter_eq fn t t.length [x] (Nat.le_refl _)
    simp only [List.length_singleton, List.reverse_singleton, List.singleton_append] at h
    unfold MapOrd.insertionSortCmpFunc MapOrd.SortByKey
    have e1 : (x :: t).length = 1 + t.length := by simp; omega
    have e2 : (x :: t).length - (0 + 1) = t.length := by simp
    rw [e2, e1, Nat.zero_add, h, hfold]
    simp [List.foldr_append, MapOrd.insertByKey]

theorem filter_insertByKey_flip (m : List String) (r : Nat) (x : String × String)
    (l : MapOrd) :
    (MapOrd.insertByKey (fun a b => orderCmp m b a) x l).filter
        (fun y => decide (rankIn m y.1 = r))
      = if rankIn m x.1 = r then x :: l.filter (fun y => decide (rankIn m y.1 = r))
        else l.filter (fun y => decide (rankIn m y.1 = r)) := by
  induction l with
  | nil => simp [MapOrd.insertByKey, List.filter_cons]
  | cons y t ih =>
    unfold MapOrd.insertByKey
    split
    · rename_i hlt
      rw [orderCmp_lt_iff] at hlt
      rw [List.filter_cons, ih]
      by_cases hx : rankIn m x.1 = r
      · have hy : ¬ rankIn m y.1 = r := by omega
        simp [hx, hy, List.filter_cons]
      · simp [hx, List.filter_cons]
    · by_cases hx : rankIn m x.1 = r
      · simp [hx, List.filter_cons]
      · simp [hx, List.filter_cons]

theorem SortByKey_flip_filter_rank (m : List String) (r : Nat) (mo : MapOrd) :
    (mo.SortByKey (fun a b => orderCmp m b a)).filter (fun y => decide (rankIn m y.1 = r))
      = mo.filter (fun y => decide (rankIn m y.1 = r)) := by
  unfold MapOrd.SortByKey
  induction mo with
  | nil => rfl
  | cons x t ih =>
    rw [List.foldr_cons, filter_insertByKey_flip, ih, List.filter_cons]
    by_cases hx : rankIn m x.1 = r <;> simp [hx]

theorem insertByKey_flip_sorted (m : List String) (x : String × String) (l : MapOrd)
    (hl : l.Pairwise fun a b => rankIn m b.1 ≤ rankIn m a.1) :
    (MapOrd.insertByKey (fun a b => orderCmp m b a) x l).Pairwise
      fun a b => rankIn m b.1 ≤ rankIn m a.1 := by
  induction l with
  | nil => simp [MapOrd.insertByKey]
  | cons y t ih =>
    rw [List.pairwise_cons] at hl
    unfold MapOrd.insertByKey
    split
    · rename_i hlt
      rw [orderCmp_lt_iff] at hlt
      rw [List.pairwise_cons]
      refine ⟨?_, ih hl.2⟩
      intro z hz
      rcases List.mem_cons.1 ((List.Perm.mem_iff (MapOrd.insertByKey_perm _ x t)).1 hz)
        with h | h
      · subst h; exact Nat.le_of_lt hlt
      · exact hl.1 z h
    · rename_i hnlt
      rw [orderCmp_lt_iff, Nat.not_lt] at hnlt
      rw [List.pairwise_cons, List.pairwise_cons]
      refine ⟨?_, hl⟩
      intro z hz
      rcases List.mem_cons.1 hz with h | h
      · subst h; exact hnlt
      · exact Nat.le_trans (hl.1 z h) hnlt

theorem SortByKey_flip_sorted (m : List String) (mo : MapOrd) :
    (mo.SortByKey (fun a b => orderCmp m b a)).Pairwise
      fun a b => rankIn m b.1 ≤ rankIn m a.1 := by
  unfold MapOrd.SortByKey
  induction mo with
  | nil => simp
  | cons x t ih => exact insertByKey_flip_sorted m x _ ih

/-- Two maps sorted by rank that hold, for every rank, the same pairs of that rank in
the same order are equal. -/
theorem eq_of_sorted_of_filter_rank (m : List String) (l₁ l₂ : MapOrd)
    (hs₁ : l₁.Pairwise fun a b => rankIn m a.1 ≤ rankIn m b.1)
    (hs₂ : l₂.Pairwise fun a b => rankIn m a.1 ≤ rankIn m b.1)
    (hf : ∀ r : Nat, l₁.filter (fun y => decide (rankIn m y.1 = r))
      = l₂.filter (fun y => decide (rankIn m y.1 = r))) : l₁ = l₂ := by
  induction l₁ generalizing l₂ with
  | nil =>
    cases l₂ with
    | nil => rfl
    | cons y t =>
      have := hf (rankIn m y.1)
      simp at this
  | cons x t₁ ih =>
    cases l₂ with
    | nil =>
      have := hf (rankIn m x.1)
      simp at this
    | cons y t₂ =>
      rw [List.pairwise_cons] at hs₁ hs₂
      have hxy : rankIn m x.1 ≤ rankIn m y.1 := by
        have h := hf (rankIn m y.1)
        have hy : y ∈ (x :: t₁).filter (fun z => decide (rankIn m z.1 = rankIn m y.1)) := by
          rw [h]; simp
        rcases List.mem_cons.1 (List.mem_filter.1 hy).1 with e | e
        · rw [e]
        · exact hs₁.1 y e
      have hyx : rankIn m y.1 ≤ rankIn m x.1 := by
        have h := hf (rankIn m x.1)
        have hx : x ∈ (y :: t₂).filter (fun z => decide (rankIn m z.1 = rankIn m x.1)) := by
          rw [← h]; simp
        rcases List.mem_cons.1 (List.mem_filter.1 hx).1 with e | e
        · rw [e]
        · exact hs₂.1 x e
      have hr : rankIn m x.1 = rankIn m y.1 := Nat.le_antisymm hxy hyx
      have hhead := hf (rankIn m x.1)
      simp only [List.filter_cons, hr, decide_True, if_true, List.cons.injEq] at hhead
      have hxy' : x = y := hhead.1
      subst hxy'
      congr 1
      apply ih t₂ hs₁.2 hs₂.2
      intro r
      have h := hf r
      simp only [List.filter_cons] at h
      by_cases hx : rankIn m x.1 = r
      · simp only [hx, decide_True, if_true, List.cons.injEq, true_and] at h
        exact h
      · simp only [hx, decide_False] at h
        exact h

theorem insertionSortCmpFunc_eq_SortByKey (m : List String) (data : MapOrd) :
    MapOrd.insertionSortCmpFunc (orderCmp m) data 0 data.length
      = data.SortByKey (orderCmp m) := by
  rw [insertionSortCmpFunc_eq]
  apply eq_of_sorted_of_filter_rank m
  · rw [List.pairwise_reverse]
    exact SortByKey_flip_sorted m data.reverse
  · exact MapOrd.SortByKey_sorted m data
  · intro r
    rw [List.filter_reverse, SortByKey_flip_filter_rank, ← List.filter_reverse,
      List.reverse_reverse, MapOrd.SortByKey_filter_rank]

/-- On a map of at most 12 pairs the sort the library runs returns the map that the
stable sort returns. -/
theorem SortFunc_eq_SortByKey (m : List String) (data : MapOrd) (h : data.length ≤ 12) :
    data.SortFunc (orderCmp m) = some (data.SortByKey (orderCmp m)) := by
  unfold MapOrd.SortFunc
  simp only [MapOrd.pdqsortCmpFunc, Nat.sub_zero, h, if_true,
    insertionSortCmpFunc_eq_SortByKey]

/-! ## The sort the library runs looks at the names only -/

theorem lessAt_map (g : String × String → String × String)
    (hg : ∀ x, (g x).1 = x.1) (fn : String → String → Ordering) (data : MapOrd) (i j : Nat) :
    MapOrd.lessAt fn (data.map g) i j = MapOrd.lessAt fn data i j := by
  unfold MapOrd.lessAt
  simp only [List.get?_eq_getElem?, List.getElem?_map]
  cases data[i]? <;> cases data[j]? <;> simp [hg]

theorem swap_map (g : String × String → String × String) (data : MapOrd) (i j : Nat) :
    MapOrd.swap (data.map g) i j = (MapOrd.swap data i j).map g := by
  unfold MapOrd.swap
  simp only [List.get?_eq_getElem?, List.getElem?_map]
  cases data[i]? <;> cases data[j]? <;> simp [List.map_set]

theorem insertionInner_map (g : String × String → String × String)
    (hg : ∀ x, (g x).1 = x.1) (fn : String → String → Ordering) (a n j : Nat) (data : MapOrd) :
    MapOrd.insertionInner fn a n j (data.map g) = (MapOrd.insertionInner fn a n j data).map g := by
  induction n generalizing j data with
  | zero => rfl
  | succ n ih =>
    unfold MapOrd.insertionInner
    rw [lessAt_map g hg, swap_map g, ih]
    split <;> rfl

theorem insertionOuter_map (g : String × String → String × String)
    (hg : ∀ x, (g x).1 = x.1) (fn : String → String → Ordering) (a b n i : Nat) (data : MapOrd) :
    MapOrd.insertionOuter fn a b n i (data.map g)
      = (MapOrd.insertionOuter fn a b n i data).map g := by
  induction n generalizing i data with
  | zero => rfl
  | succ n ih =>
    unfold MapOrd.insertionOuter
    rw [insertionInner_map g hg, ih]
    split <;> rfl

theorem insertionSortCmpFunc_map (g : String × String → String × String)
    (hg : ∀ x, (g x).1 = x.1) (fn : String → String → Ordering) (data : MapOrd)
    (a b : Nat) :
    MapOrd.insertionSortCmpFunc fn (data.map g) a b
      = (MapOrd.insertionSortCmpFunc fn data a b).map g :=
  insertionOuter_map g hg fn a b _ _ data

theorem scanUpLess_map (g : String × String → String × String)
    (hg : ∀ x, (g x).1 = x.1) (fn : String → String → Ordering) (data : MapOrd) (p n i : Nat) :
    MapOrd.scanUpLess fn (data.map g) p n i = MapOrd.scanUpLess fn data p n i := by
  induction n generalizing i with
  | zero => rfl
  | succ n ih => unfold MapOrd.scanUpLess; rw [lessAt_map g hg, ih]

theorem scanDownNotLess_map (g : String × String → String × String)
    (hg : ∀ x, (g x).1 = x.1) (fn : String → String → Ordering) (data : MapOrd) (p n j : Nat) :
    MapOrd.scanDownNotLess fn (data.map g) p n j = MapOrd.scanDownNotLess fn data p n j := by
  induction n generalizing j with
  | zero => rfl
  | succ n ih => unfold MapOrd.scanDownNotLess; rw [lessAt_map g hg, ih]

theorem partitionLoop_map (g : String × String → String × String)
    (hg : ∀ x, (g x).1 = x.1) (fn : String → String → Ordering) (a n : Nat) (data : MapOrd)
    (i j : Nat) :
    MapOrd.partitionLoop fn a n (data.map g) i j
      = ((MapOrd.partitionLoop fn a n data i j).1.map g,
          (MapOrd.partitionLoop fn a n data i j).2) := by
  induction n generalizing data i j with
  | zero => rfl
  | succ n ih =>
    unfold MapOrd.partitionLoop
    simp only [scanUpLess_map g hg, scanDownNotLess_map g hg, swap_map g, ih]
    split <;> rfl

theorem partitionCmpFunc_map (g : String × String → String × String)
    (hg : ∀ x, (g x).1 = x.1) (fn : String → String → Ordering) (data : MapOrd)
    (a b pivot : Nat) :
    MapOrd.partitionCmpFunc fn (data.map g) a b pivot
      = ((MapOrd.partitionCmpFunc fn data a b pivot).1.map g,
          (MapOrd.partitionCmpFunc fn data a b pivot).2) := by
  unfold MapOrd.partitionCmpFunc
  simp only [scanUpLess_map g hg, scanDownNotLess_map g hg, swap_map g,
    partitionLoop_map g hg]
  split <;> rfl

theorem scanUpNotGreater_map (g : String × String → String × String)
    (hg : ∀ x, (g x).1 = x.1) (fn : String → String → Ordering) (data : MapOrd) (p n i : Nat) :
    MapOrd.scanUpNotGreater fn (data.map g) p n i = MapOrd.scanUpNotGreater fn data p n i := by
  induction n generalizing i with
  | zero => rfl
  | succ n ih => unfold MapOrd.scanUpNotGreater; rw [lessAt_map g hg, ih]

theorem scanDownGreater_map (g : String × String → String × String)
    (hg : ∀ x, (g x).1 = x.1) (fn : String → String → Ordering) (data : MapOrd) (p n j : Nat) :
    MapOrd.scanDownGreater fn (data.map g) p n j = MapOrd.scanDownGreater fn data p n j := by
  induction n generalizing j with
  | zero => rfl
  | succ n ih => unfold MapOrd.scanDownGreater; rw [lessAt_map g hg, ih]

theorem partitionEqualLoop_map (g : String × String → String × String)
    (hg : ∀ x, (g x).1 = x.1) (fn : String → String → Ordering) (a n : Nat) (data : MapOrd)
    (i j : Nat) :
    MapOrd.partitionEqualLoop fn a n (data.map g) i j
      = ((MapOrd.partitionEqualLoop fn a n data i j).1.map g,
          (MapOrd.partitionEqualLoop fn a n data i j).2) := by
  induction n generalizing data i j with
  | zero => rfl
  | succ n ih =>
    unfold MapOrd.partitionEqualLoop
    simp only [scanUpNotGreater_map g hg, scanDownGreater_map g hg, swap_map g, ih]
    split <;> rfl

theorem partitionEqualCmpFunc_map (g : String × String → String × String)
    (hg : ∀ x, (g x).1 = x.1) (fn : String → String → Ordering) (data : MapOrd)
    (a b pivot : Nat) :
    MapOrd.partitionEqualCmpFunc fn (data.map g) a b pivot
      = ((MapOrd.partitionEqualCmpFunc fn data a b pivot).1.map g,
          (MapOrd.partitionEqualCmpFunc fn data a b pivot).2) := by
  unfold MapOrd.partitionEqualCmpFunc
  rw [swap_map g, partitionEqualLoop_map g hg]

theorem choosePivotCmpFunc_map (g : String × String → String × String)
    (hg : ∀ x, (g x).1 = x.1) (fn : String → String → Ordering) (data : MapOrd) (a b : Nat) :
    MapOrd.choosePivotCmpFunc fn (data.map g) a b = MapOrd.choosePivotCmpFunc fn data a b := by
  unfold MapOrd.choosePivotCmpFunc MapOrd.medianCmpFunc MapOrd.order2CmpFunc
  simp only [lessAt_map g hg]

theorem reverseRangeLoop_map (g : String × String → String × String) (n : Nat) (data : MapOrd) (i j : Nat) :
    MapOrd.reverseRangeLoop n (data.map g) i j = (MapOrd.reverseRangeLoop n data i j).map g := by
  induction n generalizing data i j with
  | zero => rfl
  | succ n ih =>
    unfold MapOrd.reverseRangeLoop
    rw [swap_map g, ih]
    split <;> rfl

theorem reverseRangeCmpFunc_map (g : String × String → String × String) (data : MapOrd) (a b : Nat) :
    MapOrd.reverseRangeCmpFunc (data.map g) a b = (MapOrd.reverseRangeCmpFunc data a b).map g :=
  reverseRangeLoop_map g _ data _ _

theorem scanSorted_map (g : String × String → String × String)
    (hg : ∀ x, (g x).1 = x.1) (fn : String → String → Ordering) (data : MapOrd) (b n i : Nat) :
    MapOrd.scanSorted fn (data.map g) b n i = MapOrd.scanSorted fn data b n i := by
  induction n generalizing i with
  | zero => rfl
  | succ n ih => unfold MapOrd.scanSorted; rw [lessAt_map g hg, ih]

theorem partialInsertionSortCmpFunc_map (g : String × String → String × String)
    (hg : ∀ x, (g x).1 = x.1) (fn : String → String → Ordering) (data : MapOrd)
    (a b : Nat) :
    MapOrd.partialInsertionSortCmpFunc fn (data.map g) a b
      = MapOrd.partialInsertionSortCmpFunc fn data a b := by
  unfold MapOrd.partialInsertionSortCmpFunc
  rw [scanSorted_map g hg]

theorem pdqsortCmpFunc_map (g : String × String → String × String)
    (hg : ∀ x, (g x).1 = x.1) (fn : String → String → Ordering) (fuel : Nat) (data : MapOrd)
    (a b limit : Nat) (wasBalanced wasPartitioned : Bool) :
    MapOrd.pdqsortCmpFunc fn fuel (data.map g) a b limit wasBalanced wasPartitioned
      = (MapOrd.pdqsortCmpFunc fn fuel data a b limit wasBalanced wasPartitioned).map
          (List.map g) := by
  induction fuel generalizing data a b limit wasBalanced wasPartitioned with
  | zero => rfl
  | succ fuel ih =>
    unfold MapOrd.pdqsortCmpFunc
    simp only [insertionSortCmpFunc_map g hg, choosePivotCmpFunc_map g hg]
    split
    · rfl
    · split
      · rfl
      · split
        · rfl
        · cases hcp : MapOrd.choosePivotCmpFunc fn data a b with
          | none => rfl
          | some ph =>
            obtain ⟨pivot₀, hint₀⟩ := ph
            simp only
            by_cases hd : hint₀ = MapOrd.sortedHint.decreasingHint
            · simp only [hd, if_true, reverseRangeCmpFunc_map g,
                partialInsertionSortCmpFunc_map g hg, lessAt_map g hg,
                partitionEqualCmpFunc_map g hg, partitionCmpFunc_map g hg, ih]
              split
              · rfl
              · split
                · rfl
                · split
                  · cases MapOrd.pdqsortCmpFunc fn fuel _ _ _ _ _ _ with
                    | none => rfl
                    | some d => exact ih _ _ _ _ _ _
                  · cases MapOrd.pdqsortCmpFunc fn fuel _ _ _ _ _ _ with
                    | none => rfl
                    | some d => exact ih _ _ _ _ _ _
            · simp only [hd, if_false, reverseRangeCmpFunc_map g,
                partialInsertionSortCmpFunc_map g hg, lessAt_map g hg,
                partitionEqualCmpFunc_map g hg, partitionCmpFunc_map g hg, ih]
              split
              · rfl
              · split
                · rfl
                · split
                  · cases MapOrd.pdqsortCmpFunc fn fuel _ _ _ _ _ _ with
                    | none => rfl
                    | some d => exact ih _ _ _ _ _ _
                  · cases MapOrd.pdqsortCmpFunc fn fuel _ _ _ _ _ _ with
                    | none => rfl
                    | some d => exact ih _ _ _ _ _ _

/-- The sort the library runs looks at the names only: on a map whose values are
rewritten it returns the map it returns otherwise, with the values rewritten. -/
theorem SortFunc_map (g : String × String → String × String)
    (hg : ∀ x, (g x).1 = x.1) (fn : String → String → Ordering) (data : MapOrd) :
    MapOrd.SortFunc (data.map g) fn = (MapOrd.SortFunc data fn).map (List.map g) := by
  unfold MapOrd.SortFunc
  rw [List.length_map, pdqsortCmpFunc_map g hg]

/-! ## Facts on the templates and the defaults -/

theorem chromeTemplate_cases (method : String) :
    chromeTemplate method = (chromeHeaderOrder MethodGet).getD [] ∨
    chromeTemplate method = (chromeHeaderOrder MethodPost).getD [] := by
  unfold chromeTemplate
  by_cases h1 : method = MethodGet
  · subst h1; exact Or.inl rfl
  · by_cases h2 : method = MethodPost
    · subst h2; exact Or.inr rfl
    · left; simp [chromeHeaderOrder, h1, h2]

theorem firefoxTemplate_cases (method : String) :
    firefoxTemplate method = (firefoxHeaderOrder MethodGet).getD [] ∨
    firefoxTemplate method = (firefoxHeaderOrder MethodPost).getD [] := by
  unfold firefoxTemplate
  by_cases h1 : method = MethodGet
  · subst h1; exact Or.inl rfl
  · by_cases h2 : method = MethodPost
    · subst h2; exact Or.inr rfl
    · left; simp [firefoxHeaderOrder, h1, h2]

theorem chromeTemplate_nodup (method : String) : (chromeTemplate method).Nodup := by
  rcases chromeTemplate_cases method with h | h <;> rw [h] <;> decide

theorem firefoxTemplate_nodup (method : String) : (firefoxTemplate method).Nodup := by
  rcases firefoxTemplate_cases method with h | h <;> rw [h] <;> decide

theorem chromeTemplate_head (method : String) :
    ∃ rest, chromeTemplate method = ":method" :: ":authority" :: ":scheme" :: ":path" :: rest := by
  rcases chromeTemplate_cases method with h | h <;> rw [h] <;> exact ⟨_, rfl⟩

theorem firefoxTemplate_head (method : String) :
    ∃ rest, firefoxTemplate method = ":method" :: ":path" :: ":authority" :: ":scheme" :: rest := by
  rcases firefoxTemplate_cases method with h | h <;> rw [h] <;> exact ⟨_, rfl⟩

theorem chromeDefaults_nodup (headers : MapOrd) (method : String) (hn : headers.keys.Nodup) :
    (chromeDefaults headers method).keys.Nodup := by
  unfold chromeDefaults
  split
  · repeat apply MapOrd.nodup_keys_Set
    exact hn
  · split
    · repeat apply MapOrd.nodup_keys_Set
      exact hn
    · exact hn

theorem firefoxDefaults_nodup (headers : MapOrd) (method : String) (hn : headers.keys.Nodup) :
    (firefoxDefaults headers method).keys.Nodup := by
  unfold firefoxDefaults
  split
  · repeat apply MapOrd.nodup_keys_Set
    exact hn
  · split
    · repeat apply MapOrd.nodup_keys_Set
      exact hn
    · exact hn

theorem mem_chromeDefaults_of_mem (headers : MapOrd) (method n : String)
    (h : n ∈ headers.keys) : n ∈ (chromeDefaults headers method).keys := by
  unfold chromeDefaults
  split
  · simp [MapOrd.mem_keys_Set, h]
  · split
    · simp [MapOrd.mem_keys_Set, h]
    · exact h

theorem mem_firefoxDefaults_of_mem (headers : MapOrd) (method n : String)
    (h : n ∈ headers.keys) : n ∈ (firefoxDefaults headers method).keys := by
  unfold firefoxDefaults
  split
  · simp [MapOrd.mem_keys_Set, h]
  · split
    · simp [MapOrd.mem_keys_Set, h]
    · exact h

/-- With the four leading names of a template present, the template names that are
present begin with these four. -/
theorem take_four_filter (p₁ p₂ p₃ p₄ : String) (rest ks : List String)
    (h₁ : p₁ ∈ ks) (h₂ : p₂ ∈ ks) (h₃ : p₃ ∈ ks) (h₄ : p₄ ∈ ks) :
    ((p₁ :: p₂ :: p₃ :: p₄ :: rest).filter (fun n => decide (n ∈ ks))).take 4
      = [p₁, p₂, p₃, p₄] := by
  simp [List.filter_cons, h₁, h₂, h₃, h₄]

/-! ## The output names depend on the input names only -/

theorem keys_insertByKey_congr (fn : String → String → Ordering) (x x' : String × String)
    (l l' : MapOrd) (hx : x.1 = x'.1) (hl : l.keys = l'.keys) :
    (MapOrd.insertByKey fn x l).keys = (MapOrd.insertByKey fn x' l').keys := by
  induction l generalizing l' with
  | nil =>
    cases l' with
    | nil => simp [MapOrd.insertByKey, MapOrd.keys, hx]
    | cons y' t' => simp [MapOrd.keys] at hl
  | cons y t ih =>
    cases l' with
    | nil => simp [MapOrd.keys] at hl
    | cons y' t' =>
      simp only [MapOrd.keys, List.map_cons, List.cons.injEq] at hl
      have ht : MapOrd.keys t = MapOrd.keys t' := hl.2
      have := ih t' ht
      unfold MapOrd.insertByKey
      rw [← hl.1, ← hx]
      split
      · simp only [MapOrd.keys, List.map_cons, List.cons.injEq] at this ⊢
        exact ⟨hl.1, this⟩
      · simp only [MapOrd.keys, List.map_cons, List.cons.injEq]
        exact ⟨hx, hl.1, hl.2⟩

theorem keys_SortByKey_congr (fn : String → String → Ordering) (mo mo' : MapOrd)
    (h : mo.keys = mo'.keys) : (mo.SortByKey fn).keys = (mo'.SortByKey fn).keys := by
  induction mo generalizing mo' with
  | nil =>
    cases mo' with
    | nil => rfl
    | cons y' t' => simp [MapOrd.keys] at h
  | cons x t ih =>
    cases mo' with
    | nil => simp [MapOrd.keys] at h
    | cons x' t' =>
      simp only [MapOrd.keys, List.map_cons, List.cons.injEq] at h
      exact keys_insertByKey_congr fn x x' _ _ h.1 (ih t' h.2)

theorem keys_Set_congr (mo mo' : MapOrd) (k v v' : String) (h : mo.keys = mo'.keys) :
    (mo.Set k v).keys = (mo'.Set k v').keys := by
  rw [MapOrd.keys_Set, MapOrd.keys_Set, h]

theorem keys_chromeDefaults_congr (mo mo' : MapOrd) (method : String)
    (h : mo.keys = mo'.keys) :
    (chromeDefaults mo method).keys = (chromeDefaults mo' method).keys := by
  unfold chromeDefaults
  split
  · repeat apply keys_Set_congr
    exact h
  · split
    · repeat apply keys_Set_congr
      exact h
    · exact h

theorem keys_firefoxDefaults_congr (mo mo' : MapOrd) (method : String)
    (h : mo.keys = mo'.keys) :
    (firefoxDefaults mo method).keys = (firefoxDefaults mo' method).keys := by
  unfold firefoxDefaults
  split
  · repeat apply keys_Set_congr
    exact h
  · split
    · repeat apply keys_Set_congr
      exact h
    · exact h

theorem keys_chromeHeaders_congr (mo mo' : MapOrd) (method : String)
    (h : mo.keys = mo'.keys) :
    (chromeHeaders mo method).keys = (chromeHeaders mo' method).keys :=
  keys_SortByKey_congr _ _ _ (keys_chromeDefaults_congr mo mo' method h)

theorem keys_firefoxHeaders_congr (mo mo' : MapOrd) (method : String)
    (h : mo.keys = mo'.keys) :
    (firefoxHeaders mo method).keys = (firefoxHeaders mo' method).keys :=
  keys_SortByKey_congr _ _ _ (keys_firefoxDefaults_congr mo mo' method h)

theorem keys_Chrome (os : ImpersonateOS) (chromeSecCHUA : String)
    (chromePlatform chromeUserAgent : ImpersonateOS → String) :
    (Chrome os chromeSecCHUA chromePlatform chromeUserAgent).keys
      = (Chrome os "" (fun _ => "") (fun _ => "")).keys := by
  unfold Chrome
  repeat apply keys_Set_congr
  rfl

/-! ## Names with rank zero -/

theorem rankIn_pos_of_mem (m rest : List String) (hd b : String) (hm : m = hd :: rest)
    (hb : b ∈ m) (hne : b ≠ hd) : 0 < rankIn m b := by
  rw [rankIn_of_mem hb, hm, List.indexOf_cons_ne _ (fun h => hne h.symm)]
  exact Nat.succ_pos _

theorem rankIn_head (m rest : List String) (hd : String) (hm : m = hd :: rest) :
    rankIn m hd = 0 := by
  rw [rankIn_of_mem (by rw [hm]; exact List.mem_cons_self _ _), hm, List.indexOf_cons_self]

theorem rankIn_eq_zero_iff (m rest : List String) (hd n : String) (hm : m = hd :: rest) :
    rankIn m n = 0 ↔ (n ∉ m ∨ n = hd) := by
  constructor
  · intro h
    by_cases hn : n ∈ m
    · by_cases hh : n = hd
      · exact Or.inr hh
      · have := rankIn_pos_of_mem m rest hd n hm hn hh
        omega
    · exact Or.inl hn
  · rintro (h | h)
    · exact rankIn_of_not_mem h
    · rw [h]; exact rankIn_head m rest hd hm

theorem unlisted_generic (m rest : List String) (hm : m = ":method" :: rest) (mo : MapOrd)
    (a : String) (ha : a ∉ m) :
    rankIn m a = 0
    ∧ orderCmp m a ":method" = Ordering.eq
    ∧ (∀ b, b ∉ m → orderCmp m a b = Ordering.eq)
    ∧ (∀ b ∈ m, b ≠ ":method" → orderCmp m a b = Ordering.lt)
    ∧ (∀ b ∈ m, b ≠ ":method" → ∀ i j : Nat,
        (mo.SortByKey (orderCmp m)).keys[i]? = some a →
        (mo.SortByKey (orderCmp m)).keys[j]? = some b → i < j) := by
  have h0 : rankIn m a = 0 := rankIn_of_not_mem ha
  refine ⟨h0, ?_, ?_, ?_, ?_⟩
  · rw [orderCmp_eq_iff, h0, rankIn_head m rest _ hm]
  · intro b hb
    rw [orderCmp_eq_iff, h0, rankIn_of_not_mem hb]
  · intro b hb hne
    rw [orderCmp_lt_iff, h0]
    exact rankIn_pos_of_mem m rest _ b hm hb hne
  · intro b hb hne i j hi hj
    have hpos := rankIn_pos_of_mem m rest _ b hm hb hne
    have hs := MapOrd.keys_SortByKey_sorted m mo
    rw [List.pairwise_iff_getElem] at hs
    obtain ⟨hi', hia⟩ := List.getElem?_eq_some.1 hi
    obtain ⟨hj', hjb⟩ := List.getElem?_eq_some.1 hj
    rcases Nat.lt_trichotomy i j with h | h | h
    · exact h
    · subst h
      rw [hia] at hjb
      exact absurd (hjb ▸ hb) ha
    · have := hs j i hj' hi' h
      rw [hia, hjb, h0] at this
      omega

theorem rank_zero_block (m rest : List String) (hm : m = ":method" :: rest) (mo : MapOrd) :
    (mo.SortByKey (orderCmp m)).filter (fun y => decide (y.1 ∉ m ∨ y.1 = ":method"))
      = mo.filter (fun y => decide (y.1 ∉ m ∨ y.1 = ":method")) := by
  have hp : (fun y : String × String => decide (y.1 ∉ m ∨ y.1 = ":method"))
      = (fun y : String × String => decide (rankIn m y.1 = 0)) := by
    funext y
    exact decide_eq_decide.2 (rankIn_eq_zero_iff m rest _ y.1 hm).symm
  rw [hp]
  exact MapOrd.SortByKey_filter_rank m 0 mo

theorem chromeDefaults_filter_unlisted (headers : MapOrd) (method : String) :
    (chromeDefaults headers method).filter
        (fun y => decide (y.1 ∉ chromeTemplate method ∨ y.1 = ":method"))
      = headers.filter (fun y => decide (y.1 ∉ chromeTemplate method ∨ y.1 = ":method")) := by
  unfold chromeDefaults
  by_cases h1 : method = MethodGet
  · subst h1
    rw [if_pos rfl]
    repeat rw [MapOrd.filter_Set
      (fun n => decide (n ∉ chromeTemplate MethodGet ∨ n = ":method")) _ _ _ (by decide)]
  · rw [if_neg h1]
    by_cases h2 : method = MethodPost
    · subst h2
      rw [if_pos rfl]
      repeat rw [MapOrd.filter_Set
        (fun n => decide (n ∉ chromeTemplate MethodPost ∨ n = ":method")) _ _ _ (by decide)]
    · rw [if_neg h2]

theorem firefoxDefaults_filter_unlisted (headers : MapOrd) (method : String) :
    (firefoxDefaults headers method).filter
        (fun y => decide (y.1 ∉ firefoxTemplate method ∨ y.1 = ":method"))
      = headers.filter (fun y => decide (y.1 ∉ firefoxTemplate method ∨ y.1 = ":method")) := by
  unfold firefoxDefaults
  by_cases h1 : method = MethodGet
  · subst h1
    rw [if_pos rfl]
    repeat rw [MapOrd.filter_Set
      (fun n => decide (n ∉ firefoxTemplate MethodGet ∨ n = ":method")) _ _ _ (by decide)]
  · rw [if_neg h1]
    by_cases h2 : method = MethodPost
    · subst h2
      rw [if_pos rfl]
      repeat rw [MapOrd.filter_Set
        (fun n => decide (n ∉ firefoxTemplate MethodPost ∨ n = ":method")) _ _ _ (by decide)]
    · rw [if_neg h2]

/-! ## Values after the defaults are written -/

theorem Get_nil (n : String) : MapOrd.Get NewMapOrd n = none := rfl

theorem Get_eq_none_of_not_mem (mo : MapOrd) (n : String) (h : n ∉ mo.keys) :
    mo.Get n = none := by
  induction mo with
  | nil => rfl
  | cons y t ih =>
    obtain ⟨yk, yv⟩ := y
    simp only [MapOrd.keys, List.map_cons, List.mem_cons, not_or] at h
    have hne : ¬ yk = n := fun e => h.1 e.symm
    simp only [MapOrd.Get, hne, if_false]
    exact ih h.2

theorem Get_isSome_of_mem (mo : MapOrd) (n : String) (h : n ∈ mo.keys) :
    ∃ v, mo.Get n = some v := by
  induction mo with
  | nil => simp [MapOrd.keys] at h
  | cons y t ih =>
    obtain ⟨yk, yv⟩ := y
    by_cases hy : yk = n
    · exact ⟨yv, by simp [MapOrd.Get, hy]⟩
    · simp only [MapOrd.keys, List.map_cons, List.mem_cons] at h
      rcases h with h | h
      · exact absurd h.symm hy
      · obtain ⟨v, hv⟩ := ih h
        exact ⟨v, by simp [MapOrd.Get, hy, hv]⟩

theorem Get_chromeDefaults (headers : MapOrd) (method n : String) :
    (chromeDefaults headers method).Get n
      = match (chromeDefaults NewMapOrd method).Get n with
        | some v => some v
        | none => headers.Get n := by
  unfold chromeDefaults
  by_cases h1 : method = MethodGet
  · rw [if_pos h1, if_pos h1]
    simp only [MapOrd.Get_Set, Get_nil]
    split_ifs <;> rfl
  · rw [if_neg h1, if_neg h1]
    by_cases h2 : method = MethodPost
    · rw [if_pos h2, if_pos h2]
      simp only [MapOrd.Get_Set, Get_nil]
      split_ifs <;> rfl
    · rw [if_neg h2, if_neg h2, Get_nil]

theorem Get_firefoxDefaults (headers : MapOrd) (method n : String) :
    (firefoxDefaults headers method).Get n
      = match (firefoxDefaults NewMapOrd method).Get n with
        | some v => some v
        | none => headers.Get n := by
  unfold firefoxDefaults
  by_cases h1 : method = MethodGet
  · rw [if_pos h1, if_pos h1]
    simp only [MapOrd.Get_Set, Get_nil]
    split_ifs <;> rfl
  · rw [if_neg h1, if_neg h1]
    by_cases h2 : method = MethodPost
    · rw [if_pos h2, if_pos h2]
      simp only [MapOrd.Get_Set, Get_nil]
      split_ifs <;> rfl
    · rw [if_neg h2, if_neg h2, Get_nil]

theorem mem_chromeDefaults_congr (h₁ h₂ : MapOrd) (method : String)
    (hset : ∀ n, n ∈ h₁.keys ↔ n ∈ h₂.keys) (n : String) :
    n ∈ (chromeDefaults h₁ method).keys ↔ n ∈ (chromeDefaults h₂ method).keys := by
  unfold chromeDefaults
  split
  · simp only [MapOrd.mem_keys_Set, hset]
  · split
    · simp only [MapOrd.mem_keys_Set, hset]
    · exact hset n

theorem mem_firefoxDefaults_congr (h₁ h₂ : MapOrd) (method : String)
    (hset : ∀ n, n ∈ h₁.keys ↔ n ∈ h₂.keys) (n : String) :
    n ∈ (firefoxDefaults h₁ method).keys ↔ n ∈ (firefoxDefaults h₂ method).keys := by
  unfold firefoxDefaults
  split
  · simp only [MapOrd.mem_keys_Set, hset]
  · split
    · simp only [MapOrd.mem_keys_Set, hset]
    · exact hset n

/-- Sorting two maps with the same distinct names gives the same name sequence when
no two of the names have the same rank. -/
theorem keys_sort_eq_of_same_names (m : List String) (d₁ d₂ : MapOrd)
    (hn₁ : d₁.keys.Nodup) (hn₂ : d₂.keys.Nodup) (hset : ∀ n, n ∈ d₁.keys ↔ n ∈ d₂.keys)
    (hinj : ∀ a ∈ d₁.keys, ∀ b ∈ d₁.keys, rankIn m a = rankIn m b → a = b) :
    (d₁.SortByKey (orderCmp m)).keys = (d₂.SortByKey (orderCmp m)).keys := by
  have p₁ := MapOrd.keys_SortByKey_perm d₁ (orderCmp m)
  have p₂ := MapOrd.keys_SortByKey_perm d₂ (orderCmp m)
  apply eq_of_sorted_of_rank_injOn m
  · exact (List.Perm.nodup_iff p₁).2 hn₁
  · exact (List.Perm.nodup_iff p₂).2 hn₂
  · intro n
    rw [List.Perm.mem_iff p₁, List.Perm.mem_iff p₂]
    exact hset n
  · exact MapOrd.keys_SortByKey_sorted m d₁
  · exact MapOrd.keys_SortByKey_sorted m d₂
  · intro a ha b hb
    exact hinj a ((List.Perm.mem_iff p₁).1 ha) b ((List.Perm.mem_iff p₁).1 hb)

/-! ## Claims on the header canonicaliser -/

/-- C1, counterexample: for Chrome on Windows and method GET the header names are
not the twenty names of the claim, with the stable sort and with the sort the library
runs. -/
theorem chrome_windows_get_names_not_twenty :
    (chromeHeaders (Chrome ImpersonateOS.windows "" (fun _ => "") (fun _ => "")) "GET").keys
      ≠ [":method", ":authority", ":scheme", ":path", "sec-ch-ua", "sec-ch-ua-mobile",
          "sec-ch-ua-platform", "authorization", "upgrade-insecure-requests", "user-agent",
          "accept", "sec-fetch-site", "sec-fetch-mode", "sec-fetch-user", "sec-fetch-dest",
          "referer", "accept-encoding", "accept-language", "cookie", "priority"]
    ∧ (chromeHeadersRun (Chrome ImpersonateOS.windows "" (fun _ => "") (fun _ => ""))
        "GET").map MapOrd.keys
      ≠ some [":method", ":authority", ":scheme", ":path", "sec-ch-ua", "sec-ch-ua-mobile",
          "sec-ch-ua-platform", "authorization", "upgrade-insecure-requests", "user-agent",
          "accept", "sec-fetch-site", "sec-fetch-mode", "sec-fetch-user", "sec-fetch-dest",
          "referer", "accept-encoding", "accept-language", "cookie", "priority"] := by
  decide

theorem map_Set (val : String → String) (mo : MapOrd) (k v : String) :
    List.map (fun x => (x.1, val x.2)) (MapOrd.Set mo k v)
      = MapOrd.Set (List.map (fun x => (x.1, val x.2)) mo) k (val v) := by
  induction mo with
  | nil => rfl
  | cons y t ih =>
    obtain ⟨k', v'⟩ := y
    by_cases h : k' = k
    · simp [MapOrd.Set, h]
    · simp [MapOrd.Set, h, ih]

/-- The header set of `Chrome` on Windows with the defaults of GET written is the set
built from three marks in place of the constants declared elsewhere, with each mark
replaced by its constant. -/
theorem chromeDefaults_Chrome_windows (chromeSecCHUA : String)
    (chromePlatform chromeUserAgent : ImpersonateOS → String) :
    chromeDefaults (Chrome ImpersonateOS.windows chromeSecCHUA chromePlatform chromeUserAgent)
        "GET"
      = List.map
          (fun x => (x.1,
            if x.2 = "<1>" then chromeSecCHUA
            else if x.2 = "<2>" then chromePlatform ImpersonateOS.windows
            else if x.2 = "<3>" then chromeUserAgent ImpersonateOS.windows
            else x.2))
          (chromeDefaults (Chrome ImpersonateOS.windows "<1>" (fun _ => "<2>") (fun _ => "<3>"))
            "GET") := by
  unfold chromeDefaults Chrome
  rw [if_pos (by decide), if_pos (by decide)]
  simp only [map_Set (fun t => if t = "<1>" then chromeSecCHUA
            else if t = "<2>" then chromePlatform ImpersonateOS.windows
            else if t = "<3>" then chromeUserAgent ImpersonateOS.windows
            else t)]
  simp [NewMapOrd, ImpersonateOS.mobile]

theorem chromeHeadersRun_marked :
    chromeHeadersRun (Chrome ImpersonateOS.windows "<1>" (fun _ => "<2>") (fun _ => "<3>")) "GET"
      = some [("origin", ""), (":method", ""), (":authority", ""), (":scheme", ""),
          (":path", ""), ("sec-ch-ua", "<1>"), ("sec-ch-ua-mobile", "?0"),
          ("sec-ch-ua-platform", "<2>"), ("authorization", ""),
          ("upgrade-insecure-requests", "1"), ("user-agent", "<3>"),
          ("accept", "text/html,application/xhtml+xml,application/xml;q=0.9,image/avif,image/webp,image/apng,*/*;q=0.8,application/signed-exchange;v=b3;q=0.7"),
          ("sec-fetch-site", "none"), ("sec-fetch-mode", "navigate"), ("sec-fetch-user", "?1"),
          ("sec-fetch-dest", "document"), ("referer", ""),
          ("accept-encoding", "gzip, deflate, br, zstd"),
          ("accept-language", "en-US,en;q=0.9"), ("cookie", ""), ("priority", "u=0, i")] := by
  decide

/-- The map the library returns for Chrome on Windows and method GET. -/
theorem chromeHeadersRun_Chrome_windows (chromeSecCHUA : String)
    (chromePlatform chromeUserAgent : ImpersonateOS → String) :
    chromeHeadersRun
        (Chrome ImpersonateOS.windows chromeSecCHUA chromePlatform chromeUserAgent) "GET"
      = some [("origin", ""), (":method", ""), (":authority", ""), (":scheme", ""),
          (":path", ""), ("sec-ch-ua", chromeSecCHUA), ("sec-ch-ua-mobile", "?0"),
          ("sec-ch-ua-platform", chromePlatform ImpersonateOS.windows), ("authorization", ""),
          ("upgrade-insecure-requests", "1"),
          ("user-agent", chromeUserAgent ImpersonateOS.windows),
          ("accept", "text/html,application/xhtml+xml,application/xml;q=0.9,image/avif,image/webp,image/apng,*/*;q=0.8,application/signed-exchange;v=b3;q=0.7"),
          ("sec-fetch-site", "none"), ("sec-fetch-mode", "navigate"), ("sec-fetch-user", "?1"),
          ("sec-fetch-dest", "document"), ("referer", ""),
          ("accept-encoding", "gzip, deflate, br, zstd"),
          ("accept-language", "en-US,en;q=0.9"), ("cookie", ""), ("priority", "u=0, i")] := by
  have hm := chromeHeadersRun_marked
  unfold chromeHeadersRun at hm ⊢
  rw [chromeDefaults_Chrome_windows]
  refine (SortFunc_map _ ?_ _ _).trans ?_
  · intro x; rfl
  · rw [hm]
    simp

/-- C1, amended: for Chrome on Windows, `chromeHeaders` with method GET, run with the
sort of the library on the header set built by `Chrome`, yields twenty-one names:
`origin`, which the set of `Chrome` holds and the GET template lacks, so that it has
rank 0 like `:method`, and after it the twenty names of the claim in the claimed
order; `sec-ch-ua-mobile` has the value "?0". -/
theorem chrome_windows_get_names (chromeSecCHUA : String)
    (chromePlatform chromeUserAgent : ImpersonateOS → String) :
    (chromeHeadersRun
        (Chrome ImpersonateOS.windows chromeSecCHUA chromePlatform chromeUserAgent)
        "GET").map MapOrd.keys
      = some ["origin", ":method", ":authority", ":scheme", ":path", "sec-ch-ua",
          "sec-ch-ua-mobile", "sec-ch-ua-platform", "authorization",
          "upgrade-insecure-requests", "user-agent", "accept", "sec-fetch-site",
          "sec-fetch-mode", "sec-fetch-user", "sec-fetch-dest", "referer", "accept-encoding",
          "accept-language", "cookie", "priority"]
    ∧ (chromeHeadersRun
        (Chrome ImpersonateOS.windows chromeSecCHUA chromePlatform chromeUserAgent)
        "GET").bind (fun out => MapOrd.Get out "sec-ch-ua-mobile") = some "?0" := by
  rw [chromeHeadersRun_Chrome_windows]
  constructor
  · rfl
  · simp [MapOrd.Get]

/-- C2, counterexample: a map holding the four pseudo-headers and one name the
template lacks; the first four output names are not the four pseudo-headers, for
Chrome and for Firefox. -/
theorem pseudo_headers_not_first_four :
    (chromeHeaders [(":method", ""), (":authority", ""), (":scheme", ""), (":path", ""),
        ("x-custom", "1")] "PUT").keys.take 4
      = [":method", "x-custom", ":authority", ":scheme"]
    ∧ (firefoxHeaders [(":method", ""), (":authority", ""), (":scheme", ""), (":path", ""),
        ("x-custom", "1")] "PUT").keys.take 4
      = [":method", "x-custom", ":path", ":authority"] := by
  decide

/-- C2, amended: for each browser, every method and every header map with distinct
names that contains the four pseudo-headers, the output names that the selected
template lists begin with the four pseudo-headers in the declared order of the
browser, so the pseudo-headers precede every listed regular header (a name the
template lacks may stand before them). -/
theorem pseudo_headers_lead_listed (headers : MapOrd) (method : String)
    (hn : headers.keys.Nodup)
    (h₁ : ":method" ∈ headers.keys) (h₂ : ":authority" ∈ headers.keys)
    (h₃ : ":scheme" ∈ headers.keys) (h₄ : ":path" ∈ headers.keys) :
    ((chromeHeaders headers method).keys.filter
        (fun n => decide (n ∈ chromeTemplate method))).take 4
      = [":method", ":authority", ":scheme", ":path"]
    ∧ ((firefoxHeaders headers method).keys.filter
        (fun n => decide (n ∈ firefoxTemplate method))).take 4
      = [":method", ":path", ":authority", ":scheme"] := by
  constructor
  · rw [chromeHeaders, keys_sort_filter_mem _ (chromeTemplate_nodup method) _
      (chromeDefaults_nodup headers method hn)]
    obtain ⟨rest, hrest⟩ := chromeTemplate_head method
    rw [hrest]
    exact take_four_filter _ _ _ _ _ _ (mem_chromeDefaults_of_mem _ _ _ h₁)
      (mem_chromeDefaults_of_mem _ _ _ h₂) (mem_chromeDefaults_of_mem _ _ _ h₃)
      (mem_chromeDefaults_of_mem _ _ _ h₄)
  · rw [firefoxHeaders, keys_sort_filter_mem _ (firefoxTemplate_nodup method) _
      (firefoxDefaults_nodup headers method hn)]
    obtain ⟨rest, hrest⟩ := firefoxTemplate_head method
    rw [hrest]
    exact take_four_filter _ _ _ _ _ _ (mem_firefoxDefaults_of_mem _ _ _ h₁)
      (mem_firefoxDefaults_of_mem _ _ _ h₄) (mem_firefoxDefaults_of_mem _ _ _ h₂)
      (mem_firefoxDefaults_of_mem _ _ _ h₃)

/-- C2, witness of the amended statement: the map of the counterexample. -/
theorem pseudo_headers_lead_listed_witness :
    ((chromeHeaders [(":method", ""), (":authority", ""), (":scheme", ""), (":path", ""),
        ("x-custom", "1")] "PUT").keys.filter
        (fun n => decide (n ∈ chromeTemplate "PUT"))).take 4
      = [":method", ":authority", ":scheme", ":path"]
    ∧ ((firefoxHeaders [(":method", ""), (":authority", ""), (":scheme", ""), (":path", ""),
        ("x-custom", "1")] "PUT").keys.filter
        (fun n => decide (n ∈ firefoxTemplate "PUT"))).take 4
      = [":method", ":path", ":authority", ":scheme"] :=
  pseudo_headers_lead_listed [(":method", ""), (":authority", ""), (":scheme", ""),
    (":path", ""), ("x-custom", "1")] "PUT" (by decide) (by decide) (by decide) (by decide)
    (by decide)

/-- C4: for each browser and each method, when the map has distinct names and every
name of the map after the defaults of the method are written occurs in the selected
template, the output names are exactly the template with the absent names removed. -/
theorem output_is_template_restricted (headers : MapOrd) (method : String)
    (hn : headers.keys.Nodup) :
    ((∀ n ∈ (chromeDefaults headers method).keys, n ∈ chromeTemplate method) →
      (chromeHeaders headers method).keys
        = (chromeTemplate method).filter
            (fun n => decide (n ∈ (chromeDefaults headers method).keys)))
    ∧ ((∀ n ∈ (firefoxDefaults headers method).keys, n ∈ firefoxTemplate method) →
      (firefoxHeaders headers method).keys
        = (firefoxTemplate method).filter
            (fun n => decide (n ∈ (firefoxDefaults headers method).keys))) := by
  constructor
  · intro hall
    rw [← keys_sort_filter_mem _ (chromeTemplate_nodup method) _
      (chromeDefaults_nodup headers method hn), chromeHeaders]
    symm
    apply List.filter_eq_self.2
    intro n hmem
    have := (List.Perm.mem_iff (MapOrd.keys_SortByKey_perm _ _)).1 hmem
    simpa using hall n this
  · intro hall
    rw [← keys_sort_filter_mem _ (firefoxTemplate_nodup method) _
      (firefoxDefaults_nodup headers method hn), firefoxHeaders]
    symm
    apply List.filter_eq_self.2
    intro n hmem
    have := (List.Perm.mem_iff (MapOrd.keys_SortByKey_perm _ _)).1 hmem
    simpa using hall n this

/-- C4, witness: a map of four listed names, method GET. -/
theorem output_is_template_restricted_witness :
    (chromeHeaders [("cookie", "a"), (":path", "/"), ("user-agent", "x"), (":method", "GET")]
        "GET").keys
      = (chromeTemplate "GET").filter (fun n => decide (n ∈ (chromeDefaults
          [("cookie", "a"), (":path", "/"), ("user-agent", "x"), (":method", "GET")]
          "GET").keys))
    ∧ (firefoxHeaders [("cookie", "a"), (":path", "/"), ("user-agent", "x"),
        (":method", "GET")] "GET").keys
      = (firefoxTemplate "GET").filter (fun n => decide (n ∈ (firefoxDefaults
          [("cookie", "a"), (":path", "/"), ("user-agent", "x"), (":method", "GET")]
          "GET").keys)) :=
  ⟨(output_is_template_restricted [("cookie", "a"), (":path", "/"), ("user-agent", "x"),
      (":method", "GET")] "GET" (by decide)).1 (by decide),
    (output_is_template_restricted [("cookie", "a"), (":path", "/"), ("user-agent", "x"),
      (":method", "GET")] "GET" (by decide)).2 (by decide)⟩

/-- On a map that holds at most 12 headers once the defaults are written,
`chromeHeaders` is what the library runs. -/
theorem chromeHeadersRun_eq (headers : MapOrd) (method : String)
    (h : (chromeDefaults headers method).length ≤ 12) :
    chromeHeadersRun headers method = some (chromeHeaders headers method) :=
  SortFunc_eq_SortByKey _ _ h

/-- On a map that holds at most 12 headers once the defaults are written,
`firefoxHeaders` is what the library runs. -/
theorem firefoxHeadersRun_eq (headers : MapOrd) (method : String)
    (h : (firefoxDefaults headers method).length ≤ 12) :
    firefoxHeadersRun headers method = some (firefoxHeaders headers method) :=
  SortFunc_eq_SortByKey _ _ h

/-- C3, counterexample: the header set built by `FireFox` with method GET, eighteen
headers once the defaults are written.  The name `origin` is absent from the GET
template; the set holds `:method` before `origin`, yet the sort the library runs
returns `origin` before `:method`.  With the two further absent names `x-a` and `x-b`
and method PUT, thirteen headers, the input order `:method`, `origin`, `x-a`, `x-b`
comes out as `:method`, `x-b`, `x-a`, `origin`. -/
theorem unlisted_header_order_not_kept :
    "origin" ∉ firefoxTemplate "GET"
    ∧ (firefoxDefaults (FireFox ImpersonateOS.windows (fun _ => "")) "GET").keys
        = [":authority", ":method", ":path", ":scheme", "accept-encoding", "accept-language",
            "authorization", "cookie", "origin", "referer", "user-agent", "accept", "priority",
            "sec-fetch-dest", "sec-fetch-mode", "sec-fetch-site", "sec-fetch-user",
            "upgrade-insecure-requests"]
    ∧ (firefoxHeadersRun (FireFox ImpersonateOS.windows (fun _ => "")) "GET").map MapOrd.keys
        = some ["origin", ":method", ":path", ":authority", ":scheme", "user-agent", "accept",
            "accept-language", "accept-encoding", "referer", "authorization", "cookie",
            "upgrade-insecure-requests", "sec-fetch-dest", "sec-fetch-mode", "sec-fetch-site",
            "sec-fetch-user", "priority"]
    ∧ "x-a" ∉ firefoxTemplate "PUT" ∧ "x-b" ∉ firefoxTemplate "PUT"
    ∧ "origin" ∉ firefoxTemplate "PUT"
    ∧ (firefoxDefaults (((FireFox ImpersonateOS.windows (fun _ => "")).Set "x-a" "1").Set
        "x-b" "2") "PUT").keys
        = [":authority", ":method", ":path", ":scheme", "accept-encoding", "accept-language",
            "authorization", "cookie", "origin", "referer", "user-agent", "x-a", "x-b"]
    ∧ (firefoxHeadersRun (((FireFox ImpersonateOS.windows (fun _ => "")).Set "x-a" "1").Set
        "x-b" "2") "PUT").map MapOrd.keys
        = some [":method", "x-b", "x-a", "origin", ":path", ":authority", ":scheme",
            "user-agent", "accept-language", "accept-encoding", "referer", "authorization",
            "cookie"] := by
  decide

/-- C3, amended: for each browser, every method and every header map, a name `a`
absent from the selected template has rank 0; the comparator reports it equal to
`:method` and to every other absent name and smaller than every other template
entry; in the output it stands before every header listed at template index 1 or
higher; and when the map holds at most 12 headers once the defaults are written, the
output is the one the library's sort returns and the headers of rank 0 (`:method`
and the absent names) keep the order the input map has them in. -/
theorem unlisted_header_ranked_zero (headers : MapOrd) (method a : String) :
    (a ∉ chromeTemplate method →
      rankIn (chromeTemplate method) a = 0
      ∧ orderCmp (chromeTemplate method) a ":method" = Ordering.eq
      ∧ (∀ b, b ∉ chromeTemplate method → orderCmp (chromeTemplate method) a b = Ordering.eq)
      ∧ (∀ b ∈ chromeTemplate method, b ≠ ":method" →
          orderCmp (chromeTemplate method) a b = Ordering.lt)
      ∧ (∀ b ∈ chromeTemplate method, b ≠ ":method" → ∀ i j : Nat,
          (chromeHeaders headers method).keys[i]? = some a →
          (chromeHeaders headers method).keys[j]? = some b → i < j)
      ∧ ((chromeDefaults headers method).length ≤ 12 →
          chromeHeadersRun headers method = some (chromeHeaders headers method)
          ∧ (chromeHeaders headers method).filter
                (fun y => decide (y.1 ∉ chromeTemplate method ∨ y.1 = ":method"))
              = headers.filter
                  (fun y => decide (y.1 ∉ chromeTemplate method ∨ y.1 = ":method"))))
    ∧ (a ∉ firefoxTemplate method →
      rankIn (firefoxTemplate method) a = 0
      ∧ orderCmp (firefoxTemplate method) a ":method" = Ordering.eq
      ∧ (∀ b, b ∉ firefoxTemplate method →
          orderCmp (firefoxTemplate method) a b = Ordering.eq)
      ∧ (∀ b ∈ firefoxTemplate method, b ≠ ":method" →
          orderCmp (firefoxTemplate method) a b = Ordering.lt)
      ∧ (∀ b ∈ firefoxTemplate method, b ≠ ":method" → ∀ i j : Nat,
          (firefoxHeaders headers method).keys[i]? = some a →
          (firefoxHeaders headers method).keys[j]? = some b → i < j)
      ∧ ((firefoxDefaults headers method).length ≤ 12 →
          firefoxHeadersRun headers method = some (firefoxHeaders headers method)
          ∧ (firefoxHeaders headers method).filter
                (fun y => decide (y.1 ∉ firefoxTemplate method ∨ y.1 = ":method"))
              = headers.filter
                  (fun y => decide (y.1 ∉ firefoxTemplate method ∨ y.1 = ":method")))) := by
  constructor
  · intro ha
    obtain ⟨rest, hrest⟩ := chromeTemplate_head method
    obtain ⟨g1, g2, g3, g4, g5⟩ :=
      unlisted_generic _ _ hrest (chromeDefaults headers method) a ha
    refine ⟨g1, g2, g3, g4, g5, ?_⟩
    intro hl
    refine ⟨chromeHeadersRun_eq headers method hl, ?_⟩
    rw [chromeHeaders, rank_zero_block _ _ hrest, chromeDefaults_filter_unlisted]
  · intro ha
    obtain ⟨rest, hrest⟩ := firefoxTemplate_head method
    obtain ⟨g1, g2, g3, g4, g5⟩ :=
      unlisted_generic _ _ hrest (firefoxDefaults headers method) a ha
    refine ⟨g1, g2, g3, g4, g5, ?_⟩
    intro hl
    refine ⟨firefoxHeadersRun_eq headers method hl, ?_⟩
    rw [firefoxHeaders, rank_zero_block _ _ hrest, firefoxDefaults_filter_unlisted]

/-- C3, witness of the amended statement: the name `x-custom`, absent from the GET
templates of both browsers, in a map of four names with method PUT. -/
theorem unlisted_header_ranked_zero_witness :
    "x-custom" ∉ chromeTemplate "PUT" ∧ "x-custom" ∉ firefoxTemplate "PUT"
    ∧ (chromeDefaults [("x-a", "1"), (":authority", ""), (":method", ""), ("x-custom", "2")]
        "PUT").length ≤ 12
    ∧ (chromeHeadersRun [("x-a", "1"), (":authority", ""), (":method", ""), ("x-custom", "2")]
          "PUT"
        = some (chromeHeaders [("x-a", "1"), (":authority", ""), (":method", ""),
            ("x-custom", "2")] "PUT")
      ∧ (chromeHeaders [("x-a", "1"), (":authority", ""), (":method", ""), ("x-custom", "2")]
          "PUT").filter (fun y => decide (y.1 ∉ chromeTemplate "PUT" ∨ y.1 = ":method"))
        = List.filter (fun y => decide (y.1 ∉ chromeTemplate "PUT" ∨ y.1 = ":method"))
            [("x-a", "1"), (":authority", ""), (":method", ""), ("x-custom", "2")])
    ∧ orderCmp (firefoxTemplate "PUT") "x-custom" ":method" = Ordering.eq :=
  ⟨by decide, by decide, by decide,
    ((unlisted_header_ranked_zero [("x-a", "1"), (":authority", ""), (":method", ""),
      ("x-custom", "2")] "PUT" "x-custom").1 (by decide)).2.2.2.2.2 (by decide),
    ((unlisted_header_ranked_zero [("x-a", "1"), (":authority", ""), (":method", ""),
      ("x-custom", "2")] "PUT" "x-custom").2 (by decide)).2.1⟩

/-- C5, counterexample: method PUT, which has no template of its own, on maps of more
than 12 headers.  On the header set built by `Chrome`, fourteen headers, the stable
sort by rank in the GET template gives `:method`, `origin` and then the listed names;
the sort the library runs returns `origin`, `:method` and then the listed names.  On
the header set built by `FireFox` with the two further names `x-a` and `x-b`, thirteen
headers, the stable sort gives `:method`, `origin`, `x-a`, `x-b` and then the listed
names; the sort the library runs returns `:method`, `x-b`, `x-a`, `origin` and then
the listed names. -/
theorem fallback_order_not_stable :
    "PUT" ≠ MethodGet ∧ "PUT" ≠ MethodPost
    ∧ (MapOrd.SortByKey (Chrome ImpersonateOS.windows "" (fun _ => "") (fun _ => ""))
        (orderCmp (chromeTemplate MethodGet))).keys
        = [":method", "origin", ":authority", ":scheme", ":path", "sec-ch-ua",
            "sec-ch-ua-mobile", "sec-ch-ua-platform", "authorization", "user-agent", "referer",
            "accept-encoding", "accept-language", "cookie"]
    ∧ (chromeHeadersRun (Chrome ImpersonateOS.windows "" (fun _ => "") (fun _ => ""))
        "PUT").map MapOrd.keys
        = some ["origin", ":method", ":authority", ":scheme", ":path", "sec-ch-ua",
            "sec-ch-ua-mobile", "sec-ch-ua-platform", "authorization", "user-agent", "referer",
            "accept-encoding", "accept-language", "cookie"]
    ∧ (MapOrd.SortByKey (((FireFox ImpersonateOS.windows (fun _ => "")).Set "x-a" "1").Set
        "x-b" "2") (orderCmp (firefoxTemplate MethodGet))).keys
        = [":method", "origin", "x-a", "x-b", ":path", ":authority", ":scheme",
            "user-agent", "accept-language", "accept-encoding", "referer", "authorization",
            "cookie"]
    ∧ (firefoxHeadersRun (((FireFox ImpersonateOS.windows (fun _ => "")).Set "x-a" "1").Set
        "x-b" "2") "PUT").map MapOrd.keys
        = some [":method", "x-b", "x-a", "origin", ":path", ":authority", ":scheme",
            "user-agent", "accept-language", "accept-encoding", "referer", "authorization",
            "cookie"] := by
  decide

/-- C5, amended: for each browser, every header map and every method other than GET
and POST, the template used is the GET template of the browser and no default is
written, so the library sorts the input itself by rank in the GET template; the output
is a permutation of the input with non-decreasing ranks; and when the input holds at
most 12 headers, the output is the stable sort of the input by that rank, the one the
library's sort returns, and keeps the entries of each rank in their input order. -/
theorem fallback_is_get_order (headers : MapOrd) (method : String)
    (hg : method ≠ MethodGet) (hp : method ≠ MethodPost) :
    (chromeTemplate method = chromeTemplate MethodGet
      ∧ chromeDefaults headers method = headers
      ∧ chromeHeadersRun headers method
          = headers.SortFunc (orderCmp (chromeTemplate MethodGet))
      ∧ List.Perm (chromeHeaders headers method) headers
      ∧ (chromeHeaders headers method).keys.Pairwise
          (fun a b => rankIn (chromeTemplate MethodGet) a ≤ rankIn (chromeTemplate MethodGet) b)
      ∧ (headers.length ≤ 12 →
          chromeHeadersRun headers method = some (chromeHeaders headers method)
          ∧ chromeHeaders headers method
              = headers.SortByKey (orderCmp (chromeTemplate MethodGet))
          ∧ ∀ r : Nat,
              (chromeHeaders headers method).filter
                  (fun y => decide (rankIn (chromeTemplate MethodGet) y.1 = r))
                = headers.filter
                    (fun y => decide (rankIn (chromeTemplate MethodGet) y.1 = r))))
    ∧ (firefoxTemplate method = firefoxTemplate MethodGet
      ∧ firefoxDefaults headers method = headers
      ∧ firefoxHeadersRun headers method
          = headers.SortFunc (orderCmp (firefoxTemplate MethodGet))
      ∧ List.Perm (firefoxHeaders headers method) headers
      ∧ (firefoxHeaders headers method).keys.Pairwise
          (fun a b =>
            rankIn (firefoxTemplate MethodGet) a ≤ rankIn (firefoxTemplate MethodGet) b)
      ∧ (headers.length ≤ 12 →
          firefoxHeadersRun headers method = some (firefoxHeaders headers method)
          ∧ firefoxHeaders headers method
              = headers.SortByKey (orderCmp (firefoxTemplate MethodGet))
          ∧ ∀ r : Nat,
              (firefoxHeaders headers method).filter
                  (fun y => decide (rankIn (firefoxTemplate MethodGet) y.1 = r))
                = headers.filter
                    (fun y => decide (rankIn (firefoxTemplate MethodGet) y.1 = r)))) := by
  have tc : chromeTemplate method = chromeTemplate MethodGet := by
    simp [chromeTemplate, chromeHeaderOrder, hg, hp]
  have tf : firefoxTemplate method = firefoxTemplate MethodGet := by
    simp [firefoxTemplate, firefoxHeaderOrder, hg, hp]
  have dc : chromeDefaults headers method = headers := by
    simp [chromeDefaults, hg, hp]
  have df : firefoxDefaults headers method = headers := by
    simp [firefoxDefaults, hg, hp]
  have hc : chromeHeaders headers method
      = headers.SortByKey (orderCmp (chromeTemplate MethodGet)) := by
    rw [chromeHeaders, dc, tc]
  have hf : firefoxHeaders headers method
      = headers.SortByKey (orderCmp (firefoxTemplate MethodGet)) := by
    rw [firefoxHeaders, df, tf]
  refine ⟨⟨tc, dc, ?_, ?_, ?_, ?_⟩, ⟨tf, df, ?_, ?_, ?_, ?_⟩⟩
  · rw [chromeHeadersRun, dc, tc]
  · rw [hc]; exact MapOrd.SortByKey_perm _ _
  · rw [hc]; exact MapOrd.keys_SortByKey_sorted _ _
  · intro hl
    refine ⟨chromeHeadersRun_eq headers method (by rw [dc]; exact hl), hc, ?_⟩
    intro r; rw [hc]; exact MapOrd.SortByKey_filter_rank _ r _
  · rw [firefoxHeadersRun, df, tf]
  · rw [hf]; exact MapOrd.SortByKey_perm _ _
  · rw [hf]; exact MapOrd.keys_SortByKey_sorted _ _
  · intro hl
    refine ⟨firefoxHeadersRun_eq headers method (by rw [df]; exact hl), hf, ?_⟩
    intro r; rw [hf]; exact MapOrd.SortByKey_filter_rank _ r _

/-- C5, witness of the amended statement: method PUT on a map of four names. -/
theorem fallback_is_get_order_witness :
    "PUT" ≠ MethodGet ∧ "PUT" ≠ MethodPost
    ∧ List.length [("cookie", "c"), ("x-a", "1"), (":path", "/"), (":method", "PUT")] ≤ 12
    ∧ chromeHeadersRun [("cookie", "c"), ("x-a", "1"), (":path", "/"), (":method", "PUT")]
        "PUT"
      = some (chromeHeaders [("cookie", "c"), ("x-a", "1"), (":path", "/"),
          (":method", "PUT")] "PUT")
    ∧ firefoxHeaders [("cookie", "c"), ("x-a", "1"), (":path", "/"), (":method", "PUT")] "PUT"
      = MapOrd.SortByKey [("cookie", "c"), ("x-a", "1"), (":path", "/"), (":method", "PUT")]
          (orderCmp (firefoxTemplate MethodGet))
    ∧ (chromeHeaders [("cookie", "c"), ("x-a", "1"), (":path", "/"), (":method", "PUT")]
        "PUT").keys = ["x-a", ":method", ":path", "cookie"] :=
  ⟨by decide, by decide, by decide,
    ((fallback_is_get_order [("cookie", "c"), ("x-a", "1"), (":path", "/"),
      (":method", "PUT")] "PUT" (by decide) (by decide)).1.2.2.2.2.2 (by decide)).1,
    ((fallback_is_get_order [("cookie", "c"), ("x-a", "1"), (":path", "/"),
      (":method", "PUT")] "PUT" (by decide) (by decide)).2.2.2.2.2.2 (by decide)).2.1,
    by decide⟩

/-- C6, counterexample: a map that holds the value "application/json" for `accept`
no longer holds it after `chromeHeaders` or `firefoxHeaders` with method GET. -/
theorem caller_accept_not_kept :
    MapOrd.Get [("accept", "application/json")] "accept" = some "application/json"
    ∧ (chromeHeaders [("accept", "application/json")] "GET").Get "accept"
        ≠ some "application/json"
    ∧ (firefoxHeaders [("accept", "application/json")] "GET").Get "accept"
        ≠ some "application/json" := by
  decide

/-- C6, amended: for each browser and every method, a name that the defaults of the
method cover (a name `chromeDefaults`, resp. `firefoxDefaults`, writes into the empty
map) has the default value afterwards, whatever value the map held for it before;
a name the defaults do not cover has the value it had. -/
theorem defaults_are_written_over (headers : MapOrd) (method n : String) :
    (n ∈ (chromeDefaults NewMapOrd method).keys →
      (chromeHeaders headers method).Get n = (chromeDefaults NewMapOrd method).Get n)
    ∧ (n ∉ (chromeDefaults NewMapOrd method).keys →
      (chromeHeaders headers method).Get n = headers.Get n)
    ∧ (n ∈ (firefoxDefaults NewMapOrd method).keys →
      (firefoxHeaders headers method).Get n = (firefoxDefaults NewMapOrd method).Get n)
    ∧ (n ∉ (firefoxDefaults NewMapOrd method).keys →
      (firefoxHeaders headers method).Get n = headers.Get n) := by
  refine ⟨?_, ?_, ?_, ?_⟩
  · intro h
    obtain ⟨v, hv⟩ := Get_isSome_of_mem _ n h
    rw [chromeHeaders, MapOrd.Get_SortByKey, Get_chromeDefaults, hv]
  · intro h
    rw [chromeHeaders, MapOrd.Get_SortByKey, Get_chromeDefaults,
      Get_eq_none_of_not_mem _ n h]
  · intro h
    obtain ⟨v, hv⟩ := Get_isSome_of_mem _ n h
    rw [firefoxHeaders, MapOrd.Get_SortByKey, Get_firefoxDefaults, hv]
  · intro h
    rw [firefoxHeaders, MapOrd.Get_SortByKey, Get_firefoxDefaults,
      Get_eq_none_of_not_mem _ n h]

/-- C6, witness of the amended statement: the map of the counterexample; `accept` is
covered by the GET defaults of both browsers. -/
theorem defaults_are_written_over_witness :
    (chromeHeaders [("accept", "application/json")] "GET").Get "accept"
      = some "text/html,application/xhtml+xml,application/xml;q=0.9,image/avif,image/webp,image/apng,*/*;q=0.8,application/signed-exchange;v=b3;q=0.7"
    ∧ (firefoxHeaders [("accept", "application/json")] "GET").Get "accept"
      = some "text/html,application/xhtml+xml,application/xml;q=0.9,image/avif,image/webp,image/png,image/svg+xml,*/*;q=0.8" :=
  ⟨(defaults_are_written_over [("accept", "application/json")] "GET" "accept").1 (by decide),
    (defaults_are_written_over [("accept", "application/json")] "GET" "accept").2.2.1
      (by decide)⟩

/-- C7, counterexample: two maps with the same two names inserted in opposite
orders give different name sequences, for Chrome and for Firefox. -/
theorem same_names_different_order :
    (chromeHeaders [("x-a", "1"), ("x-b", "2")] "GET").keys
      ≠ (chromeHeaders [("x-b", "2"), ("x-a", "1")] "GET").keys
    ∧ (firefoxHeaders [("x-a", "1"), ("x-b", "2")] "GET").keys
      ≠ (firefoxHeaders [("x-b", "2"), ("x-a", "1")] "GET").keys := by
  decide

/-- C7, amended: for each browser and method, two header maps with distinct names
that contain the same set of names give the same output name sequence, provided
that after the defaults of the method are written no two names have the same rank
(at most one name is `:method` or absent from the selected template). -/
theorem names_order_of_name_set (h₁ h₂ : MapOrd) (method : String)
    (hn₁ : h₁.keys.Nodup) (hn₂ : h₂.keys.Nodup)
    (hset : ∀ n, n ∈ h₁.keys ↔ n ∈ h₂.keys) :
    ((∀ a ∈ (chromeDefaults h₁ method).keys, ∀ b ∈ (chromeDefaults h₁ method).keys,
        rankIn (chromeTemplate method) a = rankIn (chromeTemplate method) b → a = b) →
      (chromeHeaders h₁ method).keys = (chromeHeaders h₂ method).keys)
    ∧ ((∀ a ∈ (firefoxDefaults h₁ method).keys, ∀ b ∈ (firefoxDefaults h₁ method).keys,
        rankIn (firefoxTemplate method) a = rankIn (firefoxTemplate method) b → a = b) →
      (firefoxHeaders h₁ method).keys = (firefoxHeaders h₂ method).keys) := by
  constructor
  · intro hinj
    exact keys_sort_eq_of_same_names _ _ _ (chromeDefaults_nodup h₁ method hn₁)
      (chromeDefaults_nodup h₂ method hn₂) (mem_chromeDefaults_congr h₁ h₂ method hset) hinj
  · intro hinj
    exact keys_sort_eq_of_same_names _ _ _ (firefoxDefaults_nodup h₁ method hn₁)
      (firefoxDefaults_nodup h₂ method hn₂) (mem_firefoxDefaults_congr h₁ h₂ method hset) hinj

/-- C7, witness of the amended statement: three names, one of them absent from the
templates, inserted in two orders, method GET. -/
theorem names_order_of_name_set_witness :
    (chromeHeaders [("cookie", "a"), ("x-a", "1"), (":path", "/")] "GET").keys
      = (chromeHeaders [(":path", "/"), ("cookie", "b"), ("x-a", "2")] "GET").keys
    ∧ (firefoxHeaders [("cookie", "a"), ("x-a", "1"), (":path", "/")] "GET").keys
      = (firefoxHeaders [(":path", "/"), ("cookie", "b"), ("x-a", "2")] "GET").keys :=
  ⟨(names_order_of_name_set [("cookie", "a"), ("x-a", "1"), (":path", "/")]
      [(":path", "/"), ("cookie", "b"), ("x-a", "2")] "GET" (by decide) (by decide)
      (by intro n; simp [MapOrd.keys]; tauto)).1 (by decide),
    (names_order_of_name_set [("cookie", "a"), ("x-a", "1"), (":path", "/")]
      [(":path", "/"), ("cookie", "b"), ("x-a", "2")] "GET" (by decide) (by decide)
      (by intro n; simp [MapOrd.keys]; tauto)).2 (by decide)⟩

/-! ## The Chrome boundary -/

theorem or_shift_eq_add (a b c d : Nat) (ha : a < 256) (hb : b < 256) (hc : c < 256)
    (hd : d < 256) :
    (a <<< 24) % 2 ^ 32 ||| (b <<< 16) % 2 ^ 32 ||| (c <<< 8) % 2 ^ 32 ||| d
      = 2 ^ 24 * a + 2 ^ 16 * b + 2 ^ 8 * c + d := by
  rw [Nat.shiftLeft_eq, Nat.shiftLeft_eq, Nat.shiftLeft_eq]
  have e1 : a * 2 ^ 24 % 2 ^ 32 = 2 ^ 24 * a := by omega
  have e2 : b * 2 ^ 16 % 2 ^ 32 = 2 ^ 16 * b := by omega
  have e3 : c * 2 ^ 8 % 2 ^ 32 = 2 ^ 8 * c := by omega
  rw [e1, e2, e3]
  have s1 : 2 ^ 24 * a ||| 2 ^ 16 * b = 2 ^ 16 * (2 ^ 8 * a + b) := by
    have h := Nat.mul_add_lt_is_or (show 2 ^ 16 * b < 2 ^ 24 by omega) a
    rw [← h]; omega
  rw [s1]
  have s2 : 2 ^ 16 * (2 ^ 8 * a + b) ||| 2 ^ 8 * c = 2 ^ 8 * (2 ^ 16 * a + 2 ^ 8 * b + c) := by
    have h := Nat.mul_add_lt_is_or (show 2 ^ 8 * c < 2 ^ 16 by omega) (2 ^ 8 * a + b)
    rw [← h]; omega
  rw [s2]
  have s3 := Nat.mul_add_lt_is_or (show d < 2 ^ 8 by omega) (2 ^ 16 * a + 2 ^ 8 * b + c)
  rw [← s3]; omega

theorem table_get?_lt (i : Nat) (h : i < 64) :
    alphaNumericEncodingMap.get? i = some (alphaNumericEncodingMap.getD i 0) := by
  have hl : i < alphaNumericEncodingMap.length := by
    simpa [alphaNumericEncodingMap] using h
  rw [List.getD_eq_getElem _ _ hl, List.get?_eq_getElem?, List.getElem?_eq_getElem hl]

theorem table_alnum : ∀ i < 64, (Char.ofNat (alphaNumericEncodingMap.getD i 0)).isAlphanum = true := by
  decide

theorem chromeRandomness_windows (rb : List Byte) :
    (chromeRandomness rb >>> 24) &&& 0x3F = (rb.getD 0 0).val % 64
    ∧ (chromeRandomness rb >>> 16) &&& 0x3F = (rb.getD 1 0).val % 64
    ∧ (chromeRandomness rb >>> 8) &&& 0x3F = (rb.getD 2 0).val % 64
    ∧ chromeRandomness rb &&& 0x3F = (rb.getD 3 0).val % 64 := by
  unfold chromeRandomness shl32 uint32
  have ha := (rb.getD 0 0).isLt
  have hb := (rb.getD 1 0).isLt
  have hc := (rb.getD 2 0).isLt
  have hd := (rb.getD 3 0).isLt
  generalize (rb.getD 0 0).val = a at *
  generalize (rb.getD 1 0).val = b at *
  generalize (rb.getD 2 0).val = c at *
  generalize (rb.getD 3 0).val = d at *
  have e : ∀ x : Nat, x < 256 → x % 2 ^ 32 = x := fun x hx => Nat.mod_eq_of_lt (by omega)
  rw [e a ha, e b hb, e c hc, e d hd, or_shift_eq_add a b c d ha hb hc hd]
  have m : ∀ x : Nat, x &&& 0x3F = x % 64 := fun x => Nat.and_pow_two_sub_one_eq_mod x 6
  simp only [m, Nat.shiftRight_eq_div_pow]
  refine ⟨?_, ?_, ?_, ?_⟩ <;> omega

theorem randRead_length (n : Nat) (src : RandSource) : (randRead n src).1.length = n := by
  unfold randRead
  split
  · simp; omega
  · simp; omega

/-- One pass of the loop appends, for each of the four bytes read, the table entry
selected by the low six bits of the byte. -/
theorem chromeBoundaryStep_eq (boundary : List Nat) (src : RandSource) :
    chromeBoundaryStep boundary src
      = some (boundary ++ (randRead 4 src).1.map
          (fun b => alphaNumericEncodingMap.getD (b.val % 64) 0), (randRead 4 src).2.1) := by
  have hlen := randRead_length 4 src
  unfold chromeBoundaryStep
  obtain ⟨w0, w1, w2, w3⟩ := chromeRandomness_windows (randRead 4 src).1
  simp only [w0, w1, w2, w3]
  generalize (randRead 4 src).1 = rb at *
  match rb, hlen with
  | [a, b, c, d], _ =>
    simp only [List.getD_cons_zero, List.getD_cons_succ, List.map_cons, List.map_nil,
      table_get?_lt _ (Nat.mod_lt _ (by decide : 64 > 0))]

theorem chromeBoundaryLoop_eq (n : Nat) (boundary : List Nat) (src : RandSource)
    (h : 4 * n ≤ src.length) :
    chromeBoundaryLoop n boundary src
      = some (boundary ++ (src.take (4 * n)).map
          (fun b => alphaNumericEncodingMap.getD (b.val % 64) 0), src.drop (4 * n)) := by
  induction n generalizing boundary src with
  | zero => simp [chromeBoundaryLoop]
  | succ n ih =>
    have h4 : 4 ≤ src.length := by omega
    have hr : randRead 4 src = (src.take 4, src.drop 4, false) := by
      unfold randRead; rw [if_pos h4]
    simp only [chromeBoundaryLoop, chromeBoundaryStep_eq, hr]
    rw [ih _ _ (by rw [List.length_drop]; omega)]
    have e : 4 * (n + 1) = 4 + 4 * n := by omega
    rw [e, List.take_add, List.map_append, List.append_assoc, List.drop_drop]

theorem chromeBoundaryLoop_total (n : Nat) (boundary : List Nat) (src : RandSource) :
    ∃ l src', chromeBoundaryLoop n boundary src = some (boundary ++ l, src')
      ∧ l.length = 4 * n ∧ ∀ x ∈ l, ∃ i < 64, x = alphaNumericEncodingMap.getD i 0 := by
  induction n generalizing boundary src with
  | zero => exact ⟨[], src, by simp [chromeBoundaryLoop], rfl, by simp⟩
  | succ n ih =>
    obtain ⟨l, src', hl, hlen, hmem⟩ := ih
      (boundary ++ (randRead 4 src).1.map
        (fun b => alphaNumericEncodingMap.getD (b.val % 64) 0)) (randRead 4 src).2.1
    refine ⟨(randRead 4 src).1.map (fun b => alphaNumericEncodingMap.getD (b.val % 64) 0) ++ l,
      src', ?_, ?_, ?_⟩
    · simp only [chromeBoundaryLoop, chromeBoundaryStep_eq, hl, List.append_assoc]
    · simp [randRead_length, hlen]; omega
    · intro x hx
      rcases List.mem_append.1 hx with hx | hx
      · obtain ⟨b, _, hb⟩ := List.mem_map.1 hx
        exact ⟨b.val % 64, Nat.mod_lt _ (by decide), hb.symm⟩
      · exact hmem x hx

theorem chromeBoundary_of_loop (src src' : RandSource) (b : List Nat)
    (h : chromeBoundaryLoop 4 (stringToBytes "----WebKitFormBoundary") src = some (b, src')) :
    chromeBoundary src = some (bytesToString b, src') := by
  unfold chromeBoundary
  show (match chromeBoundaryLoop 4 (stringToBytes "----WebKitFormBoundary") src with
    | some (boundary, src') => some (bytesToString boundary, src')
    | none => none) = _
  rw [h]

/-- C8: for every state of the random source, in particular for every 16 random bytes
supplied, the Chrome boundary generator returns a string of exactly 38 characters:
the 22 characters `----WebKitFormBoundary` followed by 16 characters, each of them
in [A-Za-z0-9]. -/
theorem chrome_boundary_format (src : RandSource) :
    ∃ s src', chromeBoundary src = some (s, src')
      ∧ s.length = 38
      ∧ s.data.take 22 = "----WebKitFormBoundary".data
      ∧ (s.data.drop 22).length = 16
      ∧ ∀ c ∈ s.data.drop 22, c.isAlphanum = true := by
  obtain ⟨l, src', hl, hlen, hmem⟩ :=
    chromeBoundaryLoop_total 4 (stringToBytes "----WebKitFormBoundary") src
  have hp : (stringToBytes "----WebKitFormBoundary").map Char.ofNat
      = "----WebKitFormBoundary".data := by decide
  have hpl : "----WebKitFormBoundary".data.length = 22 := by decide
  refine ⟨bytesToString (stringToBytes "----WebKitFormBoundary" ++ l), src', ?_, ?_, ?_, ?_, ?_⟩
  · exact chromeBoundary_of_loop _ _ _ hl
  · simp only [bytesToString, String.length, List.map_append, List.length_append,
      List.length_map, hp, hpl, hlen]
  · simp only [bytesToString, List.map_append, hp]
    rw [List.take_append_of_le_length (by rw [hpl]), List.take_of_length_le (by rw [hpl])]
  · simp only [bytesToString, List.map_append, hp]
    rw [List.drop_append_of_le_length (by rw [hpl]), List.drop_of_length_le (by rw [hpl])]
    simp [hlen]
  · intro c hc
    simp only [bytesToString, List.map_append, hp] at hc
    rw [List.drop_append_of_le_length (by rw [hpl]), List.drop_of_length_le (by rw [hpl]),
      List.nil_append] at hc
    obtain ⟨x, hx, rfl⟩ := List.mem_map.1 hc
    obtain ⟨i, hi, rfl⟩ := hmem x hx
    exact table_alnum i hi

/-- C9: the four windows `(v>>24)&0x3F`, `(v>>16)&0x3F`, `(v>>8)&0x3F`, `v&0x3F` of the
big-endian value assembled from four bytes are the low six bits of the four bytes in
draw order; and for every 16 random bytes the `k`-th trailing character of the
Chrome boundary is the table entry at index `b_k mod 64`, so the top two bits of a
byte do not reach the output. -/
theorem chrome_boundary_low_six_bits (src : RandSource) (hlen : src.length = 16) :
    (∀ rb : List Byte,
      (chromeRandomness rb >>> 24) &&& 0x3F = (rb.getD 0 0).val % 64
      ∧ (chromeRandomness rb >>> 16) &&& 0x3F = (rb.getD 1 0).val % 64
      ∧ (chromeRandomness rb >>> 8) &&& 0x3F = (rb.getD 2 0).val % 64
      ∧ chromeRandomness rb &&& 0x3F = (rb.getD 3 0).val % 64)
    ∧ ∃ s, chromeBoundary src = some (s, [])
      ∧ ∀ k, k < 16 →
          s.data.get? (22 + k)
            = (alphaNumericEncodingMap.get? ((src.getD k 0).val % 64)).map Char.ofNat := by
  refine ⟨chromeRandomness_windows, ?_⟩
  have hloop := chromeBoundaryLoop_eq 4 (stringToBytes "----WebKitFormBoundary") src
    (by omega)
  have hp : (stringToBytes "----WebKitFormBoundary").map Char.ofNat
      = "----WebKitFormBoundary".data := by decide
  have hpl : "----WebKitFormBoundary".data.length = 22 := by decide
  have ht : src.take (4 * 4) = src := List.take_of_length_le (by omega)
  have hd : src.drop (4 * 4) = [] := List.drop_of_length_le (by omega)
  rw [ht, hd] at hloop
  refine ⟨_, chromeBoundary_of_loop _ _ _ hloop, ?_⟩
  intro k hk
  have hk' : k < src.length := by omega
  simp only [bytesToString, List.map_append, hp, List.map_map]
  rw [List.get?_eq_getElem?, List.getElem?_append_right (by rw [hpl]; omega), hpl,
    Nat.add_sub_cancel_left, List.getElem?_map, List.getElem?_eq_getElem hk',
    List.getD_eq_getElem _ _ hk', table_get?_lt _ (Nat.mod_lt _ (by decide))]
  rfl

/-- C10: the table of the Chrome boundary generator has 64 entries and 62 distinct
ones, namely the codes of all of [A-Za-z0-9]; `A` (0x41) stands at exactly the
indices 0 and 62, `B` (0x42) at exactly 1 and 63, and every other character at
exactly one index, so of the 64 window values two select `A`, two select `B` and
one selects each other character. -/
theorem table_A_B_twice :
    alphaNumericEncodingMap.length = 64
    ∧ alphaNumericEncodingMap.dedup.length = 62
    ∧ (∀ c : Nat, c ∈ alphaNumericEncodingMap ↔
        (0x41 ≤ c ∧ c ≤ 0x5A) ∨ (0x61 ≤ c ∧ c ≤ 0x7A) ∨ (0x30 ≤ c ∧ c ≤ 0x39))
    ∧ (List.range 64).filter (fun i => decide (alphaNumericEncodingMap.get? i = some 0x41))
        = [0, 62]
    ∧ (List.range 64).filter (fun i => decide (alphaNumericEncodingMap.get? i = some 0x42))
        = [1, 63]
    ∧ (∀ c ∈ alphaNumericEncodingMap, c ≠ 0x41 → c ≠ 0x42 →
        ((List.range 64).filter
          (fun i => decide (alphaNumericEncodingMap.get? i = some c))).length = 1) := by
  refine ⟨by decide, by decide, ?_, by decide, by decide, by decide⟩
  intro c
  constructor
  · revert c; decide
  · intro h
    have hc : c < 128 := by omega
    revert h
    revert c
    decide

/-- C9, witness: the sixteen bytes 1, 2, ..., 15, 255. -/
theorem chrome_boundary_low_six_bits_witness :
    chromeBoundary [1, 2, 3, 4, 5, 6, 7, 8, 9, 10, 11, 12, 13, 14, 15, 255]
      = some ("----WebKitFormBoundaryBCDEFGHIJKLMNOPB", [])
    ∧ ∃ s, chromeBoundary [1, 2, 3, 4, 5, 6, 7, 8, 9, 10, 11, 12, 13, 14, 15, 255]
        = some (s, [])
      ∧ ∀ k, k < 16 →
          s.data.get? (22 + k)
            = (alphaNumericEncodingMap.get?
                ((List.getD [1, 2, 3, 4, 5, 6, 7, 8, 9, 10, 11, 12, 13, 14, 15, 255] k
                  (0 : Byte)).val % 64)).map Char.ofNat :=
  ⟨by decide,
    (chrome_boundary_low_six_bits [1, 2, 3, 4, 5, 6, 7, 8, 9, 10, 11, 12, 13, 14, 15, 255]
      (by decide)).2⟩

/-! ## Claims on the Firefox boundary -/

theorem toDigitsCore_acc (f n : Nat) (ds : List Char) :
    Nat.toDigitsCore 10 f n ds = Nat.toDigitsCore 10 f n [] ++ ds := by
  induction f generalizing n ds with
  | zero => simp [Nat.toDigitsCore]
  | succ f ih =>
    simp only [Nat.toDigitsCore]
    split
    · simp
    · rw [ih (n / 10) (Nat.digitChar (n % 10) :: ds), ih (n / 10) [Nat.digitChar (n % 10)]]
      simp

theorem toDigitsCore_succ (f n : Nat) :
    Nat.toDigitsCore 10 (f + 1) n []
      = if n / 10 = 0 then [Nat.digitChar (n % 10)]
        else Nat.toDigitsCore 10 f (n / 10) [] ++ [Nat.digitChar (n % 10)] := by
  simp only [Nat.toDigitsCore]
  split
  · rfl
  · rw [toDigitsCore_acc]

theorem digitChar_digit : ∀ d < 10, (Nat.digitChar d).isDigit = true
    ∧ (Nat.digitChar d).toNat - 48 = d ∧ (0 < d → Nat.digitChar d ≠ '0') := by
  decide

theorem decimalValue_append (l : List Char) (c : Char) :
    decimalValue (l ++ [c]) = decimalValue l * 10 + (c.toNat - 48) := by
  simp [decimalValue, List.foldl_append]

/-- The digits written for `n` with enough fuel: digits only, denoting `n`, at least
one, and no leading zero for a positive `n`. -/
theorem toDigitsCore_spec (f n : Nat) (h : n < f) :
    (∀ c ∈ Nat.toDigitsCore 10 f n [], c.isDigit = true)
    ∧ decimalValue (Nat.toDigitsCore 10 f n []) = n
    ∧ 1 ≤ (Nat.toDigitsCore 10 f n []).length
    ∧ (0 < n → (Nat.toDigitsCore 10 f n []).head? ≠ some '0') := by
  induction f generalizing n with
  | zero => omega
  | succ f ih =>
    rw [toDigitsCore_succ]
    have hd := digitChar_digit (n % 10) (Nat.mod_lt _ (by decide))
    by_cases h0 : n / 10 = 0
    · rw [if_pos h0]
      have hn : n % 10 = n := by omega
      refine ⟨?_, ?_, ?_, ?_⟩
      · intro c hc
        rw [List.mem_singleton] at hc
        rw [hc]; exact hd.1
      · simp only [decimalValue, List.foldl_cons, List.foldl_nil]
        omega
      · simp
      · intro hpos
        simp only [List.head?_cons]
        intro e
        exact hd.2.2 (by omega) (Option.some.inj e)
    · rw [if_neg h0]
      obtain ⟨i1, i2, i3, i4⟩ := ih (n / 10) (by omega)
      refine ⟨?_, ?_, ?_, ?_⟩
      · intro c hc
        rcases List.mem_append.1 hc with hc | hc
        · exact i1 c hc
        · rw [List.mem_singleton] at hc
          rw [hc]; exact hd.1
      · rw [decimalValue_append, i2]
        omega
      · simp
      · intro _
        have hne : Nat.toDigitsCore 10 f (n / 10) [] ≠ [] := by
          intro e; rw [e] at i3; simp at i3
        rw [List.head?_append_of_ne_nil _ hne]
        exact i4 (by omega)

theorem repr_spec (n : Nat) :
    (∀ c ∈ (Nat.repr n).data, c.isDigit = true)
    ∧ decimalValue (Nat.repr n).data = n
    ∧ 1 ≤ (Nat.repr n).length
    ∧ (0 < n → (Nat.repr n).data.head? ≠ some '0') := by
  have h := toDigitsCore_spec (n + 1) n (by omega)
  simpa [Nat.repr, Nat.toDigits, List.asString, String.length] using h

theorem littleEndianUint32_eq (b : List Byte) :
    littleEndianUint32 b = (b.getD 0 0).val + 256 * (b.getD 1 0).val
      + 65536 * (b.getD 2 0).val + 16777216 * (b.getD 3 0).val := by
  unfold littleEndianUint32 shl32 uint32
  have ha := (b.getD 0 0).isLt
  have hb := (b.getD 1 0).isLt
  have hc := (b.getD 2 0).isLt
  have hd := (b.getD 3 0).isLt
  generalize (b.getD 0 0).val = x0 at *
  generalize (b.getD 1 0).val = x1 at *
  generalize (b.getD 2 0).val = x2 at *
  generalize (b.getD 3 0).val = x3 at *
  have e : ∀ x : Nat, x < 256 → x % 2 ^ 32 = x := fun x hx => Nat.mod_eq_of_lt (by omega)
  rw [e x0 ha, e x1 hb, e x2 hc, e x3 hd]
  have := or_shift_eq_add x3 x2 x1 x0 hd hc hb ha
  rw [Nat.lor_comm, Nat.lor_comm (x0 ||| _), Nat.lor_comm x0, ← Nat.lor_assoc, ← Nat.lor_assoc]
  rw [this]
  omega

theorem littleEndianUint32_lt (b : List Byte) : littleEndianUint32 b < 2 ^ 32 := by
  rw [littleEndianUint32_eq]
  have ha := (b.getD 0 0).isLt
  have hb := (b.getD 1 0).isLt
  have hc := (b.getD 2 0).isLt
  have hd := (b.getD 3 0).isLt
  omega

theorem gIntString_gInt (x : Nat) (h : x < 2 ^ 32) : gIntString (gInt x) = Nat.repr x := by
  have h1 : x % 2 ^ 64 = x := Nat.mod_eq_of_lt (by omega)
  have h2 : x < 2 ^ 63 := by omega
  unfold gInt gIntString
  rw [h1, if_pos h2, if_neg (by omega)]
  simp

theorem firefoxBoundary_eq (src : RandSource) :
    firefoxBoundary src
      = ("---------------------------"
          ++ Nat.repr (littleEndianUint32 (randRead 4 src).1)
          ++ Nat.repr (littleEndianUint32 (randRead 4 (randRead 4 src).2.1).1)
          ++ Nat.repr (littleEndianUint32
              (randRead 4 (randRead 4 (randRead 4 src).2.1).2.1).1),
        (randRead 4 (randRead 4 (randRead 4 src).2.1).2.1).2.1) := by
  simp only [firefoxBoundary, firefoxBoundaryLoop, firefoxBoundaryStep,
    gIntString_gInt _ (littleEndianUint32_lt _)]

theorem repr_group (n : Nat) (h : n < 2 ^ 32) :
    1 ≤ (Nat.repr n).data.length ∧ (Nat.repr n).data.length ≤ 10
    ∧ ∀ c ∈ (Nat.repr n).data, c.isDigit = true := by
  obtain ⟨r1, _, r3, _⟩ := repr_spec n
  have := Nat.repr_length n 10 (by decide) (by omega)
  exact ⟨r3, this, r1⟩

/-- C11: for every state of the random source, in particular for every 12 random bytes
supplied, the Firefox boundary is 27 `-` characters followed by three groups of 1 to
10 decimal digits each, with nothing between them; its length lies between 30 and
57, and both bounds are attained (twelve bytes 0x00, twelve bytes 0xFF). -/
theorem firefox_boundary_format (src : RandSource) :
    (∃ g₁ g₂ g₃ : List Char,
      (firefoxBoundary src).1.data = List.replicate 27 '-' ++ g₁ ++ g₂ ++ g₃
      ∧ (∀ g ∈ [g₁, g₂, g₃],
          1 ≤ g.length ∧ g.length ≤ 10 ∧ ∀ c ∈ g, c.isDigit = true))
    ∧ 30 ≤ (firefoxBoundary src).1.length ∧ (firefoxBoundary src).1.length ≤ 57
    ∧ firefoxBoundary (List.replicate 12 0) = ("---------------------------000", [])
    ∧ (firefoxBoundary (List.replicate 12 0)).1.length = 30
    ∧ firefoxBoundary (List.replicate 12 255)
        = ("---------------------------429496729542949672954294967295", [])
    ∧ (firefoxBoundary (List.replicate 12 255)).1.length = 57 := by
  have hp : "---------------------------".data = List.replicate 27 '-' := by decide
  have g1 := repr_group _ (littleEndianUint32_lt (randRead 4 src).1)
  have g2 := repr_group _ (littleEndianUint32_lt (randRead 4 (randRead 4 src).2.1).1)
  have g3 := repr_group _
    (littleEndianUint32_lt (randRead 4 (randRead 4 (randRead 4 src).2.1).2.1).1)
  have hd : (firefoxBoundary src).1.data = List.replicate 27 '-'
      ++ (Nat.repr (littleEndianUint32 (randRead 4 src).1)).data
      ++ (Nat.repr (littleEndianUint32 (randRead 4 (randRead 4 src).2.1).1)).data
      ++ (Nat.repr (littleEndianUint32
          (randRead 4 (randRead 4 (randRead 4 src).2.1).2.1).1)).data := by
    rw [firefoxBoundary_eq, String.data_append, String.data_append, String.data_append, hp]
  have hl : (firefoxBoundary src).1.length = 27
      + (Nat.repr (littleEndianUint32 (randRead 4 src).1)).data.length
      + (Nat.repr (littleEndianUint32 (randRead 4 (randRead 4 src).2.1).1)).data.length
      + (Nat.repr (littleEndianUint32
          (randRead 4 (randRead 4 (randRead 4 src).2.1).2.1).1)).data.length := by
    rw [String.length, hd]
    simp only [List.length_append, List.length_replicate]
  refine ⟨⟨_, _, _, hd, ?_⟩, ?_, ?_, by decide, by decide, by decide, by decide⟩
  · intro g hg
    simp only [List.mem_cons, List.mem_singleton, List.not_mem_nil, or_false] at hg
    rcases hg with rfl | rfl | rfl
    · exact g1
    · exact g2
    · exact g3
  · rw [hl]; omega
  · rw [hl]; omega

/-- C12: for every 12 random bytes, the Firefox boundary is the dash prefix followed
by three groups; the group at byte offset 0, 4, 8 consists of digits only (no sign),
denotes the little-endian value `b0 + 256*b1 + 65536*b2 + 16777216*b3` of its four
bytes in draw order, and has no leading zero (a group starting with `0` is "0").
Bytes 01 00 00 00 give "1", bytes 00 00 00 01 give "16777216", bytes 00 00 00 00
give "0". -/
theorem firefox_boundary_groups (src : RandSource) (hlen : src.length = 12) :
    (∃ g₁ g₂ g₃ : String,
      firefoxBoundary src = ("---------------------------" ++ g₁ ++ g₂ ++ g₃, [])
      ∧ ∀ p ∈ [(g₁, 0), (g₂, 4), (g₃, 8)],
          (∀ c ∈ p.1.data, c.isDigit = true)
          ∧ decimalValue p.1.data
              = (src.getD p.2 0).val + 256 * (src.getD (p.2 + 1) 0).val
                + 65536 * (src.getD (p.2 + 2) 0).val
                + 16777216 * (src.getD (p.2 + 3) 0).val
          ∧ (p.1.data.head? = some '0' → p.1 = "0"))
    ∧ firefoxBoundary [1, 0, 0, 0, 0, 0, 0, 1, 0, 0, 0, 0]
        = ("---------------------------1167772160", []) := by
  refine ⟨?_, by decide⟩
  match src, hlen with
  | [b0, b1, b2, b3, b4, b5, b6, b7, b8, b9, b10, b11], _ =>
    refine ⟨Nat.repr (littleEndianUint32 [b0, b1, b2, b3]),
      Nat.repr (littleEndianUint32 [b4, b5, b6, b7]),
      Nat.repr (littleEndianUint32 [b8, b9, b10, b11]), ?_, ?_⟩
    · rw [firefoxBoundary_eq]
      simp [randRead]
    · have key : ∀ n : Nat, (∀ c ∈ (Nat.repr n).data, c.isDigit = true)
          ∧ decimalValue (Nat.repr n).data = n
          ∧ ((Nat.repr n).data.head? = some '0' → Nat.repr n = "0") := by
        intro n
        obtain ⟨r1, r2, _, r4⟩ := repr_spec n
        refine ⟨r1, r2, ?_⟩
        intro h0
        by_cases hn : 0 < n
        · exact absurd h0 (r4 hn)
        · have : n = 0 := by omega
          subst this; rfl
      intro p hp
      simp only [List.mem_cons, List.mem_singleton, List.not_mem_nil, or_false] at hp
      rcases hp with rfl | rfl | rfl
      · obtain ⟨k1, k2, k3⟩ := key (littleEndianUint32 [b0, b1, b2, b3])
        refine ⟨k1, ?_, k3⟩
        rw [k2, littleEndianUint32_eq]; rfl
      · obtain ⟨k1, k2, k3⟩ := key (littleEndianUint32 [b4, b5, b6, b7])
        refine ⟨k1, ?_, k3⟩
        rw [k2, littleEndianUint32_eq]; rfl
      · obtain ⟨k1, k2, k3⟩ := key (littleEndianUint32 [b8, b9, b10, b11])
        refine ⟨k1, ?_, k3⟩
        rw [k2, littleEndianUint32_eq]; rfl

/-- C12, witness: the twelve bytes of the example. -/
theorem firefox_boundary_groups_witness :
    List.length ([1, 0, 0, 0, 0, 0, 0, 1, 0, 0, 0, 0] : RandSource) = 12
    ∧ ∃ g₁ g₂ g₃ : String,
      firefoxBoundary [1, 0, 0, 0, 0, 0, 0, 1, 0, 0, 0, 0]
        = ("---------------------------" ++ g₁ ++ g₂ ++ g₃, [])
      ∧ ∀ p ∈ [(g₁, 0), (g₂, 4), (g₃, 8)],
          (∀ c ∈ p.1.data, c.isDigit = true)
          ∧ decimalValue p.1.data
              = (List.getD ([1, 0, 0, 0, 0, 0, 0, 1, 0, 0, 0, 0] : RandSource) p.2 0).val
                + 256 * (List.getD ([1, 0, 0, 0, 0, 0, 0, 1, 0, 0, 0, 0] : RandSource)
                    (p.2 + 1) 0).val
                + 65536 * (List.getD ([1, 0, 0, 0, 0, 0, 0, 1, 0, 0, 0, 0] : RandSource)
                    (p.2 + 2) 0).val
                + 16777216 * (List.getD ([1, 0, 0, 0, 0, 0, 0, 1, 0, 0, 0, 0] : RandSource)
                    (p.2 + 3) 0).val
          ∧ (p.1.data.head? = some '0' → p.1 = "0") :=
  ⟨by decide, (firefox_boundary_groups [1, 0, 0, 0, 0, 0, 0, 1, 0, 0, 0, 0] (by decide)).1⟩

/-! ## Further claims -/

theorem randReadRun_of_le (n : Nat) (src : RandSource) (h : n ≤ src.length) :
    randReadRun n src = some (src.take n, src.drop n)
    ∧ randRead n src = (src.take n, src.drop n, false) := by
  unfold randReadRun randRead
  rw [if_pos h, if_pos h]
  exact ⟨rfl, rfl⟩

theorem randReadRun_of_lt (n : Nat) (src : RandSource) (h : src.length < n) :
    randReadRun n src = none := by
  unfold randReadRun
  rw [if_neg (by omega)]

/-- One pass of the Chrome loop as it runs: with four bytes at hand it does what
`chromeBoundaryStep` does, with fewer the run ends at the failed read. -/
theorem chromeBoundaryStepRun_eq (boundary : List Nat) (src : RandSource) :
    chromeBoundaryStepRun boundary src
      = if 4 ≤ src.length then
          RunOutcome.returned (boundary ++ (src.take 4).map
            (fun b => alphaNumericEncodingMap.getD (b.val % 64) 0), src.drop 4)
        else RunOutcome.randomSourceFailed := by
  by_cases h : 4 ≤ src.length
  · rw [if_pos h]
    have hlen : (src.take 4).length = 4 := by rw [List.length_take]; omega
    unfold chromeBoundaryStepRun
    rw [(randReadRun_of_le 4 src h).1]
    obtain ⟨w0, w1, w2, w3⟩ := chromeRandomness_windows (src.take 4)
    simp only [w0, w1, w2, w3]
    generalize src.take 4 = rb at *
    match rb, hlen with
    | [a, b, c, d], _ =>
      simp only [List.getD_cons_zero, List.getD_cons_succ, List.map_cons, List.map_nil,
        table_get?_lt _ (Nat.mod_lt _ (by decide : 64 > 0))]
  · rw [if_neg h]
    unfold chromeBoundaryStepRun
    rw [randReadRun_of_lt 4 src (by omega)]

theorem chromeBoundaryLoopRun_eq (n : Nat) (boundary : List Nat) (src : RandSource) :
    chromeBoundaryLoopRun n boundary src
      = if 4 * n ≤ src.length then
          RunOutcome.returned (boundary ++ (src.take (4 * n)).map
            (fun b => alphaNumericEncodingMap.getD (b.val % 64) 0), src.drop (4 * n))
        else RunOutcome.randomSourceFailed := by
  induction n generalizing boundary src with
  | zero => simp [chromeBoundaryLoopRun]
  | succ n ih =>
    unfold chromeBoundaryLoopRun
    rw [chromeBoundaryStepRun_eq]
    by_cases h4 : 4 ≤ src.length
    · rw [if_pos h4]
      simp only
      rw [ih]
      by_cases h : 4 * (n + 1) ≤ src.length
      · rw [if_pos h, if_pos (by rw [List.length_drop]; omega)]
        have e : 4 * (n + 1) = 4 + 4 * n := by omega
        rw [e, List.take_add, List.map_append, List.append_assoc, List.drop_drop]
      · rw [if_neg h, if_neg (by rw [List.length_drop]; omega)]
    · rw [if_neg h4, if_neg (by omega)]

/-- The Chrome closure as it runs: with sixteen bytes at hand it returns the boundary
made of those bytes, with fewer the run ends at the failed read. -/
theorem chromeBoundaryRun_eq (src : RandSource) :
    chromeBoundaryRun src
      = if 16 ≤ src.length then
          RunOutcome.returned
            (bytesToString (stringToBytes "----WebKitFormBoundary" ++ (src.take 16).map
              (fun b => alphaNumericEncodingMap.getD (b.val % 64) 0)), src.drop 16)
        else RunOutcome.randomSourceFailed := by
  unfold chromeBoundaryRun
  rw [chromeBoundaryLoopRun_eq]
  by_cases h : 16 ≤ src.length
  · rw [if_pos h, if_pos (by omega)]
  · rw [if_neg h, if_neg (by omega)]

/-- A run of the Chrome closure that returns, returns what `chromeBoundary` gives
on the same source. -/
theorem chromeBoundary_eq_of_run (src : RandSource) (h : 16 ≤ src.length) :
    ∃ v, chromeBoundaryRun src = RunOutcome.returned v ∧ chromeBoundary src = some v := by
  refine ⟨(bytesToString (stringToBytes "----WebKitFormBoundary" ++ (src.take 16).map
    (fun b => alphaNumericEncodingMap.getD (b.val % 64) 0)), src.drop 16), ?_, ?_⟩
  · rw [chromeBoundaryRun_eq, if_pos h]
  · exact chromeBoundary_of_loop _ _ _ (chromeBoundaryLoop_eq 4 _ src (by omega))

theorem firefoxBoundaryLoopRun_eq (n : Nat) (builder : String) (src : RandSource) :
    firefoxBoundaryLoopRun n builder src
      = if 4 * n ≤ src.length then RunOutcome.returned (firefoxBoundaryLoop n builder src)
        else RunOutcome.randomSourceFailed := by
  induction n generalizing builder src with
  | zero => simp [firefoxBoundaryLoopRun, firefoxBoundaryLoop]
  | succ n ih =>
    unfold firefoxBoundaryLoopRun firefoxBoundaryLoop
    by_cases h4 : 4 ≤ src.length
    · rw [(randReadRun_of_le 4 src h4).1]
      simp only [firefoxBoundaryStep, (randReadRun_of_le 4 src h4).2]
      rw [ih]
      by_cases h : 4 * (n + 1) ≤ src.length
      · rw [if_pos h, if_pos (by rw [List.length_drop]; omega)]
      · rw [if_neg h, if_neg (by rw [List.length_drop]; omega)]
    · rw [randReadRun_of_lt 4 src (by omega), if_neg (by omega)]

/-- The Firefox closure as it runs: with twelve bytes at hand it returns what
`firefoxBoundary` gives on the same source, with fewer the run ends at the failed
read. -/
theorem firefoxBoundaryRun_eq (src : RandSource) :
    firefoxBoundaryRun src
      = if 12 ≤ src.length then RunOutcome.returned (firefoxBoundary src)
        else RunOutcome.randomSourceFailed := by
  unfold firefoxBoundaryRun firefoxBoundary
  rw [firefoxBoundaryLoopRun_eq]

theorem firefoxBoundary_of_supplied (src : RandSource) (h : 12 ≤ src.length) :
    firefoxBoundary src
      = ("---------------------------"
          ++ Nat.repr (littleEndianUint32 (src.take 4))
          ++ Nat.repr (littleEndianUint32 ((src.drop 4).take 4))
          ++ Nat.repr (littleEndianUint32 ((src.drop 8).take 4)),
        src.drop 12) := by
  rw [firefoxBoundary_eq]
  have h1 := (randReadRun_of_le 4 src (by omega)).2
  have h2 := (randReadRun_of_le 4 (src.drop 4) (by rw [List.length_drop]; omega)).2
  have h3 := (randReadRun_of_le 4 ((src.drop 4).drop 4)
    (by rw [List.length_drop, List.length_drop]; omega)).2
  rw [h1]
  simp only
  rw [h2]
  simp only
  rw [h3]
  simp only [List.drop_drop]

/-- C13: a run of a boundary closure in which the random source fails to deliver the
bytes of a read ends at that read, with the failure of the source as outcome and no
boundary returned; a run that returns a boundary has been served every byte it read,
sixteen for Chrome and twelve for Firefox, and the boundary is made of these bytes
alone. -/
theorem boundary_run_fails_with_source (src : RandSource) :
    chromeBoundaryRun src
      = (if 16 ≤ src.length then
          RunOutcome.returned
            (bytesToString (stringToBytes "----WebKitFormBoundary" ++ (src.take 16).map
              (fun b => alphaNumericEncodingMap.getD (b.val % 64) 0)), src.drop 16)
        else RunOutcome.randomSourceFailed)
    ∧ firefoxBoundaryRun src
      = (if 12 ≤ src.length then
          RunOutcome.returned
            ("---------------------------"
              ++ Nat.repr (littleEndianUint32 (src.take 4))
              ++ Nat.repr (littleEndianUint32 ((src.drop 4).take 4))
              ++ Nat.repr (littleEndianUint32 ((src.drop 8).take 4)),
            src.drop 12)
        else RunOutcome.randomSourceFailed)
    ∧ chromeBoundaryRun [] = RunOutcome.randomSourceFailed
    ∧ firefoxBoundaryRun [] = RunOutcome.randomSourceFailed
    ∧ chromeBoundaryRun [1, 2, 3, 4, 5, 6, 7] = RunOutcome.randomSourceFailed
    ∧ firefoxBoundaryRun [1, 2, 3, 4, 5, 6, 7] = RunOutcome.randomSourceFailed := by
  refine ⟨chromeBoundaryRun_eq src, ?_, by decide, by decide, by decide, by decide⟩
  rw [firefoxBoundaryRun_eq]
  by_cases h : 12 ≤ src.length
  · rw [if_pos h, if_pos h, firefoxBoundary_of_supplied src h]
  · rw [if_neg h, if_neg h]

/-- C14: the HTTP/2 parameters installed by `Chrome` and `FireFox` are those of the
documented fingerprints.  Chrome: SETTINGS 1=65536, 2=0, 4=6291456, 6=262144 and no
other, connection window 15663105, no priority frame.  Firefox: SETTINGS 1=65536,
4=131072, 5=16384 and no other, connection window 12517377, and the six priority
frames 3:0:0:201, 5:0:0:101, 7:0:0:1, 9:0:7:1, 11:0:3:1, 13:0:0:241 in list order. -/
theorem http2_settings_match_fingerprints :
    chromeHTTP2Settings.settingsList = [(1, 65536), (2, 0), (4, 6291456), (6, 262144)]
    ∧ chromeHTTP2Settings.connectionFlow = some 15663105
    ∧ chromeHTTP2Settings.priorityFrames = []
    ∧ firefoxHTTP2Settings.settingsList = [(1, 65536), (4, 131072), (5, 16384)]
    ∧ firefoxHTTP2Settings.connectionFlow = some 12517377
    ∧ firefoxHTTP2Settings.priorityFrames.map PriorityFrame.akamai
        = [(3, 0, 0, 201), (5, 0, 0, 101), (7, 0, 0, 1), (9, 0, 7, 1), (11, 0, 3, 1),
            (13, 0, 0, 241)] := by
  decide

/-- C15: each of the four templates begins with the four pseudo-headers, in the order
`:method, :authority, :scheme, :path` for Chrome and `:method, :path, :authority,
:scheme` for Firefox, and no later entry is a pseudo-header (none is one of the four
names, none starts with a colon). -/
theorem templates_begin_with_pseudo_headers :
    (∀ method ∈ [MethodGet, MethodPost],
      ((chromeHeaderOrder method).getD []).take 4
          = [":method", ":authority", ":scheme", ":path"]
      ∧ ∀ n ∈ ((chromeHeaderOrder method).getD []).drop 4,
          n ∉ [":method", ":authority", ":scheme", ":path"] ∧ n.data.head? ≠ some ':')
    ∧ (∀ method ∈ [MethodGet, MethodPost],
      ((firefoxHeaderOrder method).getD []).take 4
          = [":method", ":path", ":authority", ":scheme"]
      ∧ ∀ n ∈ ((firefoxHeaderOrder method).getD []).drop 4,
          n ∉ [":method", ":authority", ":scheme", ":path"] ∧ n.data.head? ≠ some ':') := by
  decide

/-- C16: for every prior state and every random outcome, `RandomOS` leaves the builder
unchanged and sets the OS to one of the five supported systems; the OS chosen
depends on the random outcome alone, not on the prior state; the five outcomes give
five different systems, and every system is given by some outcome. -/
theorem randomOS_frame (Builder : Type) (im : Impersonate Builder) (r : Fin 5) :
    (im.RandomOS r).builder = im.builder
    ∧ (im.RandomOS r).os ∈ osSlice
    ∧ (∀ im' : Impersonate Builder, (im'.RandomOS r).os = (im.RandomOS r).os)
    ∧ (∀ r₁ r₂ : Fin 5, (im.RandomOS r₁).os = (im.RandomOS r₂).os → r₁ = r₂)
    ∧ (∀ o : ImpersonateOS, ∃ r' : Fin 5, (im.RandomOS r').os = o) := by
  refine ⟨rfl, ?_, fun _ => rfl, ?_, ?_⟩
  · show osSlice.getD r.val ImpersonateOS.windows ∈ osSlice
    revert r; decide
  · show ∀ r₁ r₂ : Fin 5, osSlice.getD r₁.val ImpersonateOS.windows
      = osSlice.getD r₂.val ImpersonateOS.windows → r₁ = r₂
    decide
  · intro o
    cases o
    · exact ⟨0, rfl⟩
    · exact ⟨1, rfl⟩
    · exact ⟨2, rfl⟩
    · exact ⟨3, rfl⟩
    · exact ⟨4, rfl⟩

/-- In a list of names in non-decreasing rank order a name of smaller rank stands
before a name of greater rank. -/
theorem pos_lt_of_rank_lt (m : List String) (ks : List String)
    (hs : ks.Pairwise fun a b => rankIn m a ≤ rankIn m b) (a b : String) (i j : Nat)
    (hi : ks[i]? = some a) (hj : ks[j]? = some b) (h : rankIn m a < rankIn m b) : i < j := by
  rw [List.pairwise_iff_getElem] at hs
  obtain ⟨hi', hia⟩ := List.getElem?_eq_some.1 hi
  obtain ⟨hj', hjb⟩ := List.getElem?_eq_some.1 hj
  rcases Nat.lt_trichotomy i j with h' | h' | h'
  · exact h'
  · subst h'
    rw [hia] at hjb
    rw [hjb] at h
    omega
  · have := hs j i hj' hi' h'
    rw [hia, hjb] at this
    omega

theorem placed_by_rank (m rest : List String) (hm : m = ":method" :: rest) (mo : MapOrd)
    (a : String) :
    (a ∈ m →
      rankIn m a = m.indexOf a
      ∧ ∀ b ∈ m, ∀ i j : Nat,
          (mo.SortByKey (orderCmp m)).keys[i]? = some a →
          (mo.SortByKey (orderCmp m)).keys[j]? = some b →
          (m.indexOf a < m.indexOf b → i < j) ∧ (m.indexOf b < m.indexOf a → j < i))
    ∧ (a ∉ m →
      rankIn m a = 0
      ∧ ∀ b ∈ m, b ≠ ":method" → ∀ i j : Nat,
          (mo.SortByKey (orderCmp m)).keys[i]? = some a →
          (mo.SortByKey (orderCmp m)).keys[j]? = some b → i < j) := by
  have hs := MapOrd.keys_SortByKey_sorted m mo
  constructor
  · intro ha
    refine ⟨rankIn_of_mem ha, ?_⟩
    intro b hb i j hi hj
    constructor
    · intro h
      exact pos_lt_of_rank_lt m _ hs a b i j hi hj
        (by rw [rankIn_of_mem ha, rankIn_of_mem hb]; exact h)
    · intro h
      exact pos_lt_of_rank_lt m _ hs b a j i hj hi
        (by rw [rankIn_of_mem ha, rankIn_of_mem hb]; exact h)
  · intro ha
    refine ⟨rankIn_of_not_mem ha, ?_⟩
    intro b hb hne i j hi hj
    exact pos_lt_of_rank_lt m _ hs a b i j hi hj
      (by rw [rankIn_of_not_mem ha]; exact rankIn_pos_of_mem m rest _ b hm hb hne)

/-- C17, counterexample: `Cookie` differs from the template entry `cookie` only in
letter case, yet it has rank 0 instead of the rank of `cookie`, and it is placed
first instead of at the position of `cookie`, for Chrome and for Firefox. -/
theorem name_case_changes_rank :
    "Cookie".data.map Char.toLower = "cookie".data
    ∧ "cookie" ∈ chromeTemplate "GET" ∧ "cookie" ∈ firefoxTemplate "GET"
    ∧ rankIn (chromeTemplate "GET") "cookie" = 18
    ∧ rankIn (chromeTemplate "GET") "Cookie" = 0
    ∧ rankIn (firefoxTemplate "GET") "cookie" = 10
    ∧ rankIn (firefoxTemplate "GET") "Cookie" = 0
    ∧ (chromeHeaders [(":path", "/"), ("user-agent", "x"), ("Cookie", "a")] "PUT").keys
        = ["Cookie", ":path", "user-agent"]
    ∧ (chromeHeaders [(":path", "/"), ("user-agent", "x"), ("cookie", "a")] "PUT").keys
        = [":path", "user-agent", "cookie"]
    ∧ (firefoxHeaders [(":path", "/"), ("user-agent", "x"), ("Cookie", "a")] "PUT").keys
        = ["Cookie", ":path", "user-agent"]
    ∧ (firefoxHeaders [(":path", "/"), ("user-agent", "x"), ("cookie", "a")] "PUT").keys
        = [":path", "user-agent", "cookie"] := by
  decide

/-- C17, amended: header names are ranked by exact match.  For each browser, every
method and every header map: a name equal to a template entry has the index of that
entry as rank, and `chromeHeaders` (resp. `firefoxHeaders`) places it by that index,
after every header listed at a smaller index and before every header listed at a
greater index; a name equal to no template entry, also one that differs from an
entry only in letter case, has rank 0 and is placed before every header listed at
index 1 or higher. -/
theorem rank_is_exact_match (headers : MapOrd) (method a : String) :
    (a ∈ chromeTemplate method →
      rankIn (chromeTemplate method) a = (chromeTemplate method).indexOf a
      ∧ ∀ b ∈ chromeTemplate method, ∀ i j : Nat,
          (chromeHeaders headers method).keys[i]? = some a →
          (chromeHeaders headers method).keys[j]? = some b →
          ((chromeTemplate method).indexOf a < (chromeTemplate method).indexOf b → i < j)
          ∧ ((chromeTemplate method).indexOf b < (chromeTemplate method).indexOf a → j < i))
    ∧ (a ∉ chromeTemplate method →
      rankIn (chromeTemplate method) a = 0
      ∧ ∀ b ∈ chromeTemplate method, b ≠ ":method" → ∀ i j : Nat,
          (chromeHeaders headers method).keys[i]? = some a →
          (chromeHeaders headers method).keys[j]? = some b → i < j)
    ∧ (a ∈ firefoxTemplate method →
      rankIn (firefoxTemplate method) a = (firefoxTemplate method).indexOf a
      ∧ ∀ b ∈ firefoxTemplate method, ∀ i j : Nat,
          (firefoxHeaders headers method).keys[i]? = some a →
          (firefoxHeaders headers method).keys[j]? = some b →
          ((firefoxTemplate method).indexOf a < (firefoxTemplate method).indexOf b → i < j)
          ∧ ((firefoxTemplate method).indexOf b < (firefoxTemplate method).indexOf a → j < i))
    ∧ (a ∉ firefoxTemplate method →
      rankIn (firefoxTemplate method) a = 0
      ∧ ∀ b ∈ firefoxTemplate method, b ≠ ":method" → ∀ i j : Nat,
          (firefoxHeaders headers method).keys[i]? = some a →
          (firefoxHeaders headers method).keys[j]? = some b → i < j) := by
  obtain ⟨restc, hc⟩ := chromeTemplate_head method
  obtain ⟨restf, hf⟩ := firefoxTemplate_head method
  have pc := placed_by_rank _ _ hc (chromeDefaults headers method) a
  have pf := placed_by_rank _ _ hf (firefoxDefaults headers method) a
  exact ⟨pc.1, pc.2, pf.1, pf.2⟩

/-- C17, witness of the amended statement: the names `cookie` and `Cookie` in a map
of four names with method PUT. -/
theorem rank_is_exact_match_witness :
    "cookie" ∈ chromeTemplate "PUT" ∧ "Cookie" ∉ chromeTemplate "PUT"
    ∧ "cookie" ∈ firefoxTemplate "PUT" ∧ "Cookie" ∉ firefoxTemplate "PUT"
    ∧ (chromeHeaders [("cookie", "b"), (":path", "/"), ("Cookie", "a"), ("user-agent", "x")]
        "PUT").keys = ["Cookie", ":path", "user-agent", "cookie"]
    ∧ rankIn (chromeTemplate "PUT") "cookie" = (chromeTemplate "PUT").indexOf "cookie"
    ∧ rankIn (chromeTemplate "PUT") "Cookie" = 0
    ∧ rankIn (firefoxTemplate "PUT") "cookie" = (firefoxTemplate "PUT").indexOf "cookie"
    ∧ rankIn (firefoxTemplate "PUT") "Cookie" = 0
    ∧ 2 < 3 ∧ 0 < 2 :=
  ⟨by decide, by decide, by decide, by decide, by decide,
    ((rank_is_exact_match [("cookie", "b"), (":path", "/"), ("Cookie", "a"),
      ("user-agent", "x")] "PUT" "cookie").1 (by decide)).1,
    ((rank_is_exact_match [("cookie", "b"), (":path", "/"), ("Cookie", "a"),
      ("user-agent", "x")] "PUT" "Cookie").2.1 (by decide)).1,
    ((rank_is_exact_match [("cookie", "b"), (":path", "/"), ("Cookie", "a"),
      ("user-agent", "x")] "PUT" "cookie").2.2.1 (by decide)).1,
    ((rank_is_exact_match [("cookie", "b"), (":path", "/"), ("Cookie", "a"),
      ("user-agent", "x")] "PUT" "Cookie").2.2.2 (by decide)).1,
    (((rank_is_exact_match [("cookie", "b"), (":path", "/"), ("Cookie", "a"),
      ("user-agent", "x")] "PUT" "cookie").1 (by decide)).2 "user-agent" (by decide) 3 2
        (by decide) (by decide)).2 (by decide),
    ((rank_is_exact_match [("cookie", "b"), (":path", "/"), ("Cookie", "a"),
      ("user-agent", "x")] "PUT" "Cookie").2.1 (by decide)).2 "user-agent" (by decide)
        (by decide) 0 2 (by decide) (by decide)⟩

/-- C20: for each browser and each of the methods GET and POST, every name for which
a default is written occurs exactly once in the template of the browser for that
method, and the lookup of its rank finds it, so the default rank 0 of a missing
name is never used for it. -/
theorem defaults_are_listed_once :
    (∀ n ∈ (chromeDefaults NewMapOrd MethodGet).keys,
      (chromeTemplate MethodGet).count n = 1
      ∧ ((invertEnumerate (chromeTemplate MethodGet)).lookup n).isSome = true)
    ∧ (∀ n ∈ (chromeDefaults NewMapOrd MethodPost).keys,
      (chromeTemplate MethodPost).count n = 1
      ∧ ((invertEnumerate (chromeTemplate MethodPost)).lookup n).isSome = true)
    ∧ (∀ n ∈ (firefoxDefaults NewMapOrd MethodGet).keys,
      (firefoxTemplate MethodGet).count n = 1
      ∧ ((invertEnumerate (firefoxTemplate MethodGet)).lookup n).isSome = true)
    ∧ (∀ n ∈ (firefoxDefaults NewMapOrd MethodPost).keys,
      (firefoxTemplate MethodPost).count n = 1
      ∧ ((invertEnumerate (firefoxTemplate MethodPost)).lookup n).isSome = true)
    ∧ (chromeDefaults NewMapOrd MethodGet).keys
        = [ACCEPT, PRIORITY, SEC_FETCH_DEST, SEC_FETCH_MODE, SEC_FETCH_SITE, SEC_FETCH_USER,
            UPGRADE_INSECURE_REQUESTS]
    ∧ (chromeDefaults NewMapOrd MethodPost).keys
        = [ACCEPT, CACHE_CONTROL, CONTENT_TYPE, PRAGMA, PRIORITY, SEC_FETCH_DEST,
            SEC_FETCH_MODE, SEC_FETCH_SITE]
    ∧ (firefoxDefaults NewMapOrd MethodGet).keys = (chromeDefaults NewMapOrd MethodGet).keys
    ∧ (firefoxDefaults NewMapOrd MethodPost).keys
        = (chromeDefaults NewMapOrd MethodPost).keys := by
  decide

theorem mem_chromeDefaults_iff (headers : MapOrd) (method n : String) :
    n ∈ (chromeDefaults headers method).keys
      ↔ n ∈ headers.keys ∨ n ∈ (chromeDefaults NewMapOrd method).keys := by
  have hnil : ∀ x : String, x ∈ MapOrd.keys NewMapOrd ↔ False := by
    intro x; simp [NewMapOrd, MapOrd.keys]
  unfold chromeDefaults
  split
  · simp only [MapOrd.mem_keys_Set, hnil]; tauto
  · split
    · simp only [MapOrd.mem_keys_Set, hnil]; tauto
    · simp only [hnil]; tauto

theorem mem_firefoxDefaults_iff (headers : MapOrd) (method n : String) :
    n ∈ (firefoxDefaults headers method).keys
      ↔ n ∈ headers.keys ∨ n ∈ (firefoxDefaults NewMapOrd method).keys := by
  have hnil : ∀ x : String, x ∈ MapOrd.keys NewMapOrd ↔ False := by
    intro x; simp [NewMapOrd, MapOrd.keys]
  unfold firefoxDefaults
  split
  · simp only [MapOrd.mem_keys_Set, hnil]; tauto
  · split
    · simp only [MapOrd.mem_keys_Set, hnil]; tauto
    · simp only [hnil]; tauto

/-- C18: for each browser, every method and every header map with distinct names:
every input name occurs exactly once in the output; a name that is not one of the
defaults of the method keeps its input value; every output name is an input name or
one of the defaults of the method; and for a method other than GET and POST the
output is a permutation of the input entries. -/
theorem headers_only_reordered (headers : MapOrd) (method : String)
    (hn : headers.keys.Nodup) :
    ((∀ n ∈ headers.keys, (chromeHeaders headers method).keys.count n = 1)
      ∧ (∀ n, n ∉ (chromeDefaults NewMapOrd method).keys →
          (chromeHeaders headers method).Get n = headers.Get n)
      ∧ (∀ n ∈ (chromeHeaders headers method).keys,
          n ∈ headers.keys ∨ n ∈ (chromeDefaults NewMapOrd method).keys)
      ∧ (method ≠ MethodGet → method ≠ MethodPost →
          List.Perm (chromeHeaders headers method) headers))
    ∧ ((∀ n ∈ headers.keys, (firefoxHeaders headers method).keys.count n = 1)
      ∧ (∀ n, n ∉ (firefoxDefaults NewMapOrd method).keys →
          (firefoxHeaders headers method).Get n = headers.Get n)
      ∧ (∀ n ∈ (firefoxHeaders headers method).keys,
          n ∈ headers.keys ∨ n ∈ (firefoxDefaults NewMapOrd method).keys)
      ∧ (method ≠ MethodGet → method ≠ MethodPost →
          List.Perm (firefoxHeaders headers method) headers)) := by
  have pc := MapOrd.keys_SortByKey_perm (chromeDefaults headers method)
    (orderCmp (chromeTemplate method))
  have pf := MapOrd.keys_SortByKey_perm (firefoxDefaults headers method)
    (orderCmp (firefoxTemplate method))
  refine ⟨⟨?_, ?_, ?_, ?_⟩, ⟨?_, ?_, ?_, ?_⟩⟩
  · intro n hmem
    apply List.count_eq_one_of_mem
    · exact (List.Perm.nodup_iff pc).2 (chromeDefaults_nodup headers method hn)
    · exact (List.Perm.mem_iff pc).2 (mem_chromeDefaults_of_mem headers method n hmem)
  · intro n h
    rw [chromeHeaders, MapOrd.Get_SortByKey, Get_chromeDefaults,
      Get_eq_none_of_not_mem _ n h]
  · intro n hmem
    exact (mem_chromeDefaults_iff headers method n).1 ((List.Perm.mem_iff pc).1 hmem)
  · intro hg hp
    have e : chromeDefaults headers method = headers := by
      simp [chromeDefaults, hg, hp]
    have := MapOrd.SortByKey_perm (chromeDefaults headers method)
      (orderCmp (chromeTemplate method))
    rw [e] at this
    rw [chromeHeaders, e]
    exact this
  · intro n hmem
    apply List.count_eq_one_of_mem
    · exact (List.Perm.nodup_iff pf).2 (firefoxDefaults_nodup headers method hn)
    · exact (List.Perm.mem_iff pf).2 (mem_firefoxDefaults_of_mem headers method n hmem)
  · intro n h
    rw [firefoxHeaders, MapOrd.Get_SortByKey, Get_firefoxDefaults,
      Get_eq_none_of_not_mem _ n h]
  · intro n hmem
    exact (mem_firefoxDefaults_iff headers method n).1 ((List.Perm.mem_iff pf).1 hmem)
  · intro hg hp
    have e : firefoxDefaults headers method = headers := by
      simp [firefoxDefaults, hg, hp]
    have := MapOrd.SortByKey_perm (firefoxDefaults headers method)
      (orderCmp (firefoxTemplate method))
    rw [e] at this
    rw [firefoxHeaders, e]
    exact this

/-- C18, witness: a map of three names, methods GET and PUT. -/
theorem headers_only_reordered_witness :
    (MapOrd.keys [("cookie", "a"), (":path", "/"), ("x-a", "1")]).Nodup
    ∧ (chromeHeaders [("cookie", "a"), (":path", "/"), ("x-a", "1")] "GET").keys.count
        "cookie" = 1
    ∧ (firefoxHeaders [("cookie", "a"), (":path", "/"), ("x-a", "1")] "GET").Get "x-a"
        = MapOrd.Get [("cookie", "a"), (":path", "/"), ("x-a", "1")] "x-a"
    ∧ List.Perm (chromeHeaders [("cookie", "a"), (":path", "/"), ("x-a", "1")] "PUT")
        [("cookie", "a"), (":path", "/"), ("x-a", "1")] :=
  ⟨by decide,
    (headers_only_reordered [("cookie", "a"), (":path", "/"), ("x-a", "1")] "GET"
      (by decide)).1.1 "cookie" (by decide),
    (headers_only_reordered [("cookie", "a"), (":path", "/"), ("x-a", "1")] "GET"
      (by decide)).2.2.1 "x-a" (by decide),
    (headers_only_reordered [("cookie", "a"), (":path", "/"), ("x-a", "1")] "PUT"
      (by decide)).1.2.2.2 (by decide) (by decide)⟩

theorem Set_eq_self (mo : MapOrd) (k v : String) (h : mo.Get k = some v) :
    mo.Set k v = mo := by
  induction mo with
  | nil => simp [MapOrd.Get] at h
  | cons y t ih =>
    obtain ⟨yk, yv⟩ := y
    unfold MapOrd.Set
    by_cases hy : yk = k
    · simp only [MapOrd.Get, hy, if_true, Option.some.injEq] at h
      simp [hy, h]
    · simp only [MapOrd.Get, hy, if_false] at h
      simp [hy, ih h]

theorem SortByKey_of_sorted (m : List String) (mo : MapOrd)
    (hs : mo.Pairwise fun a b => rankIn m a.1 ≤ rankIn m b.1) :
    mo.SortByKey (orderCmp m) = mo := by
  induction mo with
  | nil => rfl
  | cons x t ih =>
    rw [List.pairwise_cons] at hs
    have e : MapOrd.SortByKey (x :: t) (orderCmp m)
        = MapOrd.insertByKey (orderCmp m) x (MapOrd.SortByKey t (orderCmp m)) := rfl
    rw [e, ih hs.2]
    cases t with
    | nil => rfl
    | cons y t' =>
      unfold MapOrd.insertByKey
      have hle := hs.1 y (List.mem_cons_self _ _)
      rw [if_neg]
      rw [orderCmp_lt_iff]
      omega

theorem chromeDefaults_fixed (mo : MapOrd) (method : String)
    (h : ∀ n v, (chromeDefaults NewMapOrd method).Get n = some v → mo.Get n = some v) :
    chromeDefaults mo method = mo := by
  unfold chromeDefaults
  by_cases h1 : method = MethodGet
  · subst h1
    rw [if_pos rfl]
    repeat rw [Set_eq_self _ _ _ (h _ _ (by decide))]
  · rw [if_neg h1]
    by_cases h2 : method = MethodPost
    · subst h2
      rw [if_pos rfl]
      repeat rw [Set_eq_self _ _ _ (h _ _ (by decide))]
    · rw [if_neg h2]

theorem firefoxDefaults_fixed (mo : MapOrd) (method : String)
    (h : ∀ n v, (firefoxDefaults NewMapOrd method).Get n = some v → mo.Get n = some v) :
    firefoxDefaults mo method = mo := by
  unfold firefoxDefaults
  by_cases h1 : method = MethodGet
  · subst h1
    rw [if_pos rfl]
    repeat rw [Set_eq_self _ _ _ (h _ _ (by decide))]
  · rw [if_neg h1]
    by_cases h2 : method = MethodPost
    · subst h2
      rw [if_pos rfl]
      repeat rw [Set_eq_self _ _ _ (h _ _ (by decide))]
    · rw [if_neg h2]

/-- C19: `chromeHeaders` and `firefoxHeaders` are idempotent for a fixed method: a
second application with the same method returns the map, names, values and order,
that the first application produced. -/
theorem headers_idempotent (headers : MapOrd) (method : String) :
    chromeHeaders (chromeHeaders headers method) method = chromeHeaders headers method
    ∧ firefoxHeaders (firefoxHeaders headers method) method
        = firefoxHeaders headers method := by
  constructor
  · have hfix : chromeDefaults (chromeHeaders headers method) method
        = chromeHeaders headers method := by
      apply chromeDefaults_fixed
      intro n v hv
      rw [chromeHeaders, MapOrd.Get_SortByKey, Get_chromeDefaults, hv]
    conv_lhs => rw [chromeHeaders, hfix]
    exact SortByKey_of_sorted _ _ (MapOrd.SortByKey_sorted _ _)
  · have hfix : firefoxDefaults (firefoxHeaders headers method) method
        = firefoxHeaders headers method := by
      apply firefoxDefaults_fixed
      intro n v hv
      rw [firefoxHeaders, MapOrd.Get_SortByKey, Get_firefoxDefaults, hv]
    conv_lhs => rw [firefoxHeaders, hfix]
    exact SortByKey_of_sorted _ _ (MapOrd.SortByKey_sorted _ _)

/-! ## Bounds, injectivity, priority frames and the TLS table -/

/-- C21: for every value `v`, each index `(v >> s) & 0x3F` with `s` in {24, 16, 8, 0}
is below 64, the length of the table, so each lookup finds an entry; hence for every
state of the random source no pass of the loop and no run of the Chrome boundary
generator fails on an index. -/
theorem chrome_boundary_lookups_in_bounds (src : RandSource) :
    alphaNumericEncodingMap.length = 64
    ∧ (∀ v : Nat, ∀ s ∈ [24, 16, 8, 0],
        (v >>> s) &&& 0x3F < alphaNumericEncodingMap.length
        ∧ (alphaNumericEncodingMap.get? ((v >>> s) &&& 0x3F)).isSome = true)
    ∧ (∀ boundary : List Nat, (chromeBoundaryStep boundary src).isSome = true)
    ∧ (chromeBoundary src).isSome = true := by
  have hlen : alphaNumericEncodingMap.length = 64 := by decide
  refine ⟨hlen, ?_, ?_, ?_⟩
  · intro v s _
    have hlt : (v >>> s) &&& 0x3F < 64 :=
      Nat.lt_of_le_of_lt Nat.and_le_right (by decide)
    refine ⟨by rw [hlen]; exact hlt, ?_⟩
    rw [table_get?_lt _ hlt]
    rfl
  · intro boundary
    rw [chromeBoundaryStep_eq]
    rfl
  · obtain ⟨l, src', hl, _, _⟩ :=
      chromeBoundaryLoop_total 4 (stringToBytes "----WebKitFormBoundary") src
    rw [chromeBoundary_of_loop _ _ _ hl]
    rfl

/-- C22: the Firefox boundary does not determine the three values it is built from:
the 12-byte draws with the value triples (1, 23, 4) and (12, 3, 4) both give the
boundary with the digits "1234", so two draws of 12 bytes with different value
triples have the same boundary string. -/
theorem firefox_boundary_not_injective :
    littleEndianUint32 [1, 0, 0, 0] = 1 ∧ littleEndianUint32 [23, 0, 0, 0] = 23
    ∧ littleEndianUint32 [4, 0, 0, 0] = 4 ∧ littleEndianUint32 [12, 0, 0, 0] = 12
    ∧ littleEndianUint32 [3, 0, 0, 0] = 3
    ∧ firefoxBoundary [1, 0, 0, 0, 23, 0, 0, 0, 4, 0, 0, 0]
        = ("---------------------------1234", [])
    ∧ firefoxBoundary [12, 0, 0, 0, 3, 0, 0, 0, 4, 0, 0, 0]
        = ("---------------------------1234", [])
    ∧ ∃ s₁ s₂ : RandSource, s₁.length = 12 ∧ s₂.length = 12
        ∧ (littleEndianUint32 (s₁.take 4), littleEndianUint32 ((s₁.drop 4).take 4),
            littleEndianUint32 (s₁.drop 8))
          ≠ (littleEndianUint32 (s₂.take 4), littleEndianUint32 ((s₂.drop 4).take 4),
            littleEndianUint32 (s₂.drop 8))
        ∧ (firefoxBoundary s₁).1 = (firefoxBoundary s₂).1 := by
  refine ⟨by decide, by decide, by decide, by decide, by decide, by decide, by decide,
    [1, 0, 0, 0, 23, 0, 0, 0, 4, 0, 0, 0], [12, 0, 0, 0, 3, 0, 0, 0, 4, 0, 0, 0],
    by decide, by decide, by decide, by decide⟩

/-- C23: the Firefox priority frames have the stream ids 3, 5, 7, 9, 11, 13, all odd
and strictly increasing in list order; no frame depends on its own stream; every
dependency other than 0 names a stream of a frame earlier in the list; and the
dependency of the initial stream priority, 13, is one of the declared streams. -/
theorem firefox_priority_frames_well_formed :
    firefoxPriorityFrames.map PriorityFrame.StreamID = [3, 5, 7, 9, 11, 13]
    ∧ (∀ f ∈ firefoxPriorityFrames, f.StreamID % 2 = 1)
    ∧ (firefoxPriorityFrames.map PriorityFrame.StreamID).Pairwise (fun a b => a < b)
    ∧ (∀ f ∈ firefoxPriorityFrames, f.PriorityParam.StreamDep ≠ f.StreamID)
    ∧ (∀ p ∈ firefoxPriorityFrames.enum, p.2.PriorityParam.StreamDep ≠ 0 →
        p.2.PriorityParam.StreamDep
          ∈ (firefoxPriorityFrames.take p.1).map PriorityFrame.StreamID)
    ∧ firefoxHTTP2Settings.priorityFrames = firefoxPriorityFrames
    ∧ firefoxHTTP2Settings.priorityParam.map PriorityParam.StreamDep = some 13
    ∧ 13 ∈ firefoxPriorityFrames.map PriorityFrame.StreamID := by
  decide

/-- C24: in the table `HelloFirefoxPrivate_131` the key-share groups are X25519 and
P-256, they are, in the same order, the first entries of the supported-curves
list, every key-share group is an advertised group, and neither list has a
duplicate. -/
theorem key_shares_are_advertised :
    keyShareGroups HelloFirefoxPrivate_131 = [X25519, CurveP256]
    ∧ supportedCurves HelloFirefoxPrivate_131
        = [X25519, CurveP256, CurveP384, CurveP521, 256, 257]
    ∧ keyShareGroups HelloFirefoxPrivate_131
        = (supportedCurves HelloFirefoxPrivate_131).take
            (keyShareGroups HelloFirefoxPrivate_131).length
    ∧ (∀ g ∈ keyShareGroups HelloFirefoxPrivate_131,
        g ∈ supportedCurves HelloFirefoxPrivate_131)
    ∧ (keyShareGroups HelloFirefoxPrivate_131).Nodup
    ∧ (supportedCurves HelloFirefoxPrivate_131).Nodup := by
  decide

end Surf
